import Mathlib

/-!
# The e-mail composer of `utils/email-sender.c` and `utils/email-sender-libcurl.c`

A shallow embedding of the address registry, the header table, the payload
serializer (`email_prepare_payload`) and the pull callback (`on_read_data`), followed by
the header parsing of the HTTP client (`src/net-utils.c`) and the choice of the loader in
`load_js_code_from_uri` (`src/simple.c`).

Conventions of the embedding.

* A byte is a natural number; a byte sequence is a `List Nat`.
* A C string (`const char *`) is represented by the list of its bytes before the
  terminating NUL. A counted buffer (`ptr`, `length`) is the list of its bytes and
  may hold NUL bytes.
* An `assert` that fails aborts the process: the function does not return. This is
  the outcome `Outcome.aborted`, distinct from every returned value.
* `malloc`, `calloc` and `realloc` succeed.
-/

set_option maxRecDepth 100000

namespace EmailSender

/-! ## Bytes and C strings -/

/-- The bytes of an ASCII literal. -/
def ascii (s : String) : List Nat := s.toList.map Char.toNat

/-- The two bytes CR LF. -/
def CRLF : List Nat := [13, 10]

/-- The byte of the character `.`. -/
def DOT : Nat := 46

/-- `strlen` of a C string. -/
def strlen (s : List Nat) : Nat := s.length

/-- `strcmp` of two C strings: the difference of the first two bytes that differ, read as
unsigned bytes, the terminating NUL counting as byte 0. -/
def strcmp : List Nat → List Nat → Int
  | [], [] => 0
  | [], b :: _ => 0 - (b : Int)
  | a :: _, [] => (a : Int)
  | a :: as, b :: bs => if a = b then strcmp as bs else (a : Int) - (b : Int)

/-- `strchr(p, c)` over the bytes stored from `p` on, as the offset of the match from `p`.
The scan stops at the first NUL; the byte after the last stored byte reads as NUL. -/
def strchr : List Nat → Nat → Option Nat
  | [], c => if c = 0 then some 0 else none
  | b :: rest, c =>
    if b = c then some 0
    else if b = 0 then none
    else (strchr rest c).map (fun k => k + 1)

/-- `snprintf(buf, size, "%s", s)`: the characters written to `buf` (at most `size - 1`) and
the returned count (the length `s` has, truncated or not). -/
def snprintf_s (size : Nat) (s : List Nat) : List Nat × Nat :=
  (s.take (size - 1), strlen s)

/-- Outcome of a call: the function returned a value, or an `assert` failed and the process
was aborted before the function could return. -/
inductive Outcome (α : Type) where
  | ret : α → Outcome α
  | aborted : Outcome α
  deriving DecidableEq, Repr

/-! ## The byte queue `auto_buffer_t` -/

/-- Modelled from the spec: `auto_buffer_t` of auto_buffer.h, which is not among the sources.
A growable byte queue: `data` is the backing storage, the queued bytes are the `length`
bytes found at offset `start_pos`. -/
structure auto_buffer where
  data : List Nat
  start_pos : Nat
  length : Nat
  deriving DecidableEq, Repr

/-- Modelled from the spec: `auto_buffer_init(buf, 0)` of auto_buffer.h: an empty queue. -/
def auto_buffer_init : auto_buffer := { data := [], start_pos := 0, length := 0 }

/-- Modelled from the spec: `auto_buffer_cleanup` of auto_buffer.h: the storage is released
and the queue is empty. -/
def auto_buffer_cleanup (_buf : auto_buffer) : auto_buffer :=
  { data := [], start_pos := 0, length := 0 }

/-- Modelled from the spec: `auto_buffer_push` of auto_buffer.h ("append bytes at the tail"):
the bytes are written to the storage right after the queued bytes and the length grows by
their number. -/
def auto_buffer_push (buf : auto_buffer) (bytes : List Nat) : auto_buffer :=
  { data := buf.data.take (buf.start_pos + buf.length) ++ bytes
              ++ buf.data.drop (buf.start_pos + buf.length + bytes.length)
    start_pos := buf.start_pos
    length := buf.length + bytes.length }

/-- The queued bytes of a buffer: `length` bytes from `data + start_pos`. -/
def auto_buffer.bytes (buf : auto_buffer) : List Nat :=
  (buf.data.drop buf.start_pos).take buf.length

/-- The queued bytes lie inside the backing storage. -/
def auto_buffer.wf (buf : auto_buffer) : Prop :=
  buf.start_pos + buf.length ≤ buf.data.length

instance (buf : auto_buffer) : Decidable buf.wf := by
  unfold auto_buffer.wf; infer_instance

/-! ## Addresses and the address registry -/

/-- The macro `EMAIL_ADDRESS_MAX_LENGTH`. -/
def EMAIL_ADDRESS_MAX_LENGTH : Nat := 256

/-- The enumeration `email_address_type`. -/
inductive email_address_type where
  | mail_from
  | to
  | cc
  | bcc
  deriving DecidableEq, Repr

/-- The enumeration `email_address_duplicates_policy`. -/
inductive email_address_duplicates_policy where
  | discard
  | replace_with_latest
  deriving DecidableEq, Repr

/-- The record `struct email_address_data`; the character arrays hold C strings. -/
structure email_address_data where
  addr : List Nat
  cb_addr : Int
  type : email_address_type
  email_addr : List Nat
  display_name : List Nat
  comment : List Nat
  deriving DecidableEq, Repr

/-- An all-zero `struct email_address_data`, as left by `calloc` or `memset`. -/
def email_address_data_zero : email_address_data :=
  { addr := [], cb_addr := 0, type := .mail_from, email_addr := [], display_name := [],
    comment := [] }

/-- The width of `int`. -/
def INT_BITS : Nat := 32

/-- The conversion of a `size_t` value to `int`: the value modulo `2 ^ 32`, read as a signed
number of 32 bits. -/
def to_int (n : Nat) : Int :=
  if n % 2 ^ INT_BITS < 2 ^ (INT_BITS - 1) then ((n % 2 ^ INT_BITS : Nat) : Int)
  else ((n % 2 ^ INT_BITS : Nat) : Int) - 2 ^ INT_BITS

/-- The argument `addr` of `email_address_data_set`, a `const char *`. `outside s` points to
the C string `s` in memory outside the record that is filled; `inside k` points into the
`addr` array of the record passed as first argument, `k` bytes from its start. -/
inductive addr_pointer where
  | outside (s : List Nat)
  | inside (k : Nat)
  deriving DecidableEq, Repr

/-- The C string read at an address pointer when the call is entered, before the record is
written. With no record passed there is no pointer into it; the empty string stands for
that case. -/
def addr_pointer.text (p : addr_pointer) (email_addr : Option email_address_data) :
    List Nat :=
  match p, email_addr with
  | addr_pointer.outside s, _ => s
  | addr_pointer.inside k, some r => r.addr.drop k
  | addr_pointer.inside _, none => []

/-- The function `email_address_data_set`. The `assert` on an empty address aborts. The length
`strlen` gives is assigned to the `int cb_addr`, so it is converted with `to_int`; `none` is
the NULL returned for a count of 0 or above 256. A negative count passes that test and
`memcpy` is asked for more than `2 ^ 63` bytes: the copy runs off the mapped memory and the
process is killed, so the call does not return (`Outcome.aborted`). The record filled is a
fresh one or the one passed in, zeroed first in both cases: when `addr` points into the
record passed in, the `memset` has emptied the string before `memcpy` reads it, and the bytes
copied are zeros. -/
def email_address_data_set (email_addr : Option email_address_data)
    (type : email_address_type) (addr : addr_pointer) (cb_addr : Int) :
    Outcome (Option email_address_data) :=
  let s := addr.text email_addr
  if s = [] then Outcome.aborted
  else
    let cb : Int := if cb_addr = -1 then to_int (strlen s) else cb_addr
    if cb = 0 ∨ cb > (EMAIL_ADDRESS_MAX_LENGTH : Int) then Outcome.ret none
    else if cb < 0 then Outcome.aborted
    else
      let src := match addr with
        | addr_pointer.outside s => s
        | addr_pointer.inside _ => []
      Outcome.ret (some { email_address_data_zero with
        type := type, cb_addr := cb, addr := src.take cb.toNat })

/-- The record `struct email_address_list`. Record pointers are indices into `heap`, the
records allocated so far; `recipients_addrs` is the array of `max_size` pointers (`none` is
NULL) and `addrs_root` the set of pointers held by the `tsearch` tree. -/
structure email_address_list where
  mail_from_addr : email_address_data
  dup_policy : email_address_duplicates_policy
  max_size : Nat
  num_recipients : Nat
  recipients_addrs : List (Option Nat)
  addrs_root : List Nat
  heap : List email_address_data
  deriving DecidableEq, Repr

/-- The macro `ADDRESS_LIST_ALLOC_SIZE`. -/
def ADDRESS_LIST_ALLOC_SIZE : Nat := 128

/-- The function `email_address_list_resize`: the capacity is rounded up to a multiple of
128 and the new slots are zeroed. -/
def email_address_list_resize (list : email_address_list) (new_size : Nat) :
    Int × email_address_list :=
  let new_size := if new_size = 0 then ADDRESS_LIST_ALLOC_SIZE
    else (new_size + ADDRESS_LIST_ALLOC_SIZE - 1) / ADDRESS_LIST_ALLOC_SIZE
      * ADDRESS_LIST_ALLOC_SIZE
  if new_size ≤ list.max_size then (0, list)
  else (0, { list with
    recipients_addrs := list.recipients_addrs.take list.max_size
      ++ List.replicate (new_size - list.max_size) none
    max_size := new_size })

/-- The libc function `tfind` with comparator `strcmp` on the tree of record pointers: the
pointer of a stored record whose `addr` compares equal to the key. -/
def tfind (key : List Nat) (list : email_address_list) : Option Nat :=
  list.addrs_root.find? (fun p =>
    match list.heap.get? p with
    | some r => decide (strcmp key r.addr = 0)
    | none => false)

/-- The libc function `tsearch` with comparator `strcmp` for the record at pointer `key`: the
pointer stored in the tree for that address, which is `key` itself, newly inserted, when the
tree held no record with an equal address. -/
def tsearch (key : Nat) (list : email_address_list) : Nat × email_address_list :=
  match list.heap.get? key with
  | none => (key, list)
  | some k =>
    match tfind k.addr list with
    | some p => (p, list)
    | none => (key, { list with addrs_root := list.addrs_root ++ [key] })

/-- The function `email_address_list_add`. Returns 0 when the address was inserted and 1
when a record with the same address was already stored. The new record is allocated as the
last cell of `heap`; freeing it removes that cell again. The record filled is a fresh one, so
the string at `addr` lies outside it. -/
def email_address_list_add (list : email_address_list) (type : email_address_type)
    (addr : List Nat) : Outcome (Int × email_address_list) :=
  match email_address_data_set none type (addr_pointer.outside addr) (-1) with
  | Outcome.aborted => Outcome.aborted
  | Outcome.ret none => Outcome.aborted
  | Outcome.ret (some recipient) =>
    let p := list.heap.length
    let list := { list with heap := list.heap ++ [recipient] }
    let r := tsearch p list
    let current := r.1
    let list := r.2
    if current ≠ p then
      let list :=
        if list.dup_policy = email_address_duplicates_policy.replace_with_latest then
          { list with heap := list.heap.set current recipient }
        else list
      Outcome.ret (1, { list with heap := list.heap.take p })
    else
      let list := (email_address_list_resize list (list.num_recipients + 1)).2
      Outcome.ret (0, { list with
        recipients_addrs := list.recipients_addrs.set list.num_recipients (some p)
        num_recipients := list.num_recipients + 1 })

/-- The function `email_address_list_find`. -/
def email_address_list_find (list : email_address_list) (addr : List Nat) :
    Option email_address_data :=
  match tfind addr list with
  | some p => list.heap.get? p
  | none => none

/-- The function `email_address_list_clear`: `tdestroy` frees every record of the tree, which
are all the records allocated, and the array is freed. -/
def email_address_list_clear (list : email_address_list) : email_address_list :=
  { list with addrs_root := [], heap := [], recipients_addrs := [], num_recipients := 0,
              max_size := 0 }

/-- The function `email_address_list_init` on zeroed memory. -/
def email_address_list_init : email_address_list :=
  (email_address_list_resize
    { mail_from_addr := email_address_data_zero
      dup_policy := email_address_duplicates_policy.discard
      max_size := 0, num_recipients := 0, recipients_addrs := [], addrs_root := [],
      heap := [] } 0).2

/-- The records the loops over `recipients_addrs[0 .. num_recipients)` see, in array order;
`none` stands for a NULL slot. -/
def email_address_list.recipients (list : email_address_list) :
    List (Option email_address_data) :=
  (list.recipients_addrs.take list.num_recipients).map
    (fun slot => slot.bind (fun p => list.heap.get? p))

/-! ## The header table -/

/-- Modelled from the spec: `skey_value_pair_t` of skey_value_pair.h, which is not among the
sources: a key with an optional value (`none` is a NULL value) and the value's length. -/
structure skey_value_pair where
  key : List Nat
  value : Option (List Nat)
  cb_value : Int
  deriving DecidableEq, Repr

/-- Modelled from the spec: `skey_value_pair_new` of skey_value_pair.h. -/
def skey_value_pair_new (key : List Nat) (value : Option (List Nat)) (cb_value : Int) :
    skey_value_pair :=
  { key := key, value := value, cb_value := cb_value }

/-- Modelled from the spec: `skey_value_pair_replace_value` of skey_value_pair.h: the stored
value and its length are replaced, the key stays. -/
def skey_value_pair_replace_value (kvp : skey_value_pair) (value : Option (List Nat))
    (cb_value : Int) : skey_value_pair :=
  { kvp with value := value, cb_value := cb_value }

/-- The comparator `skey_value_pair_compare`. -/
def skey_value_pair_compare (a b : skey_value_pair) : Int := strcmp a.key b.key

/-- Modelled from the spec: `avl_tree_add` of avl_tree.h, which is not among the sources. The
tree is an ordered set, held here as the list of its elements in ascending comparator order
("iteration order is the key's ordering"). When an element comparing equal is stored, the
tree is unchanged and that element's node is returned; else the new element is inserted at
its place in the order. The result is the node's position, whether the node holds the new
element, and the tree. -/
def avl_tree_add (cmp : skey_value_pair → skey_value_pair → Int) :
    List skey_value_pair → skey_value_pair → Nat × Bool × List skey_value_pair
  | [], x => (0, true, [x])
  | y :: rest, x =>
    if cmp x y = 0 then (0, false, y :: rest)
    else if cmp x y < 0 then (0, true, x :: y :: rest)
    else
      let r := avl_tree_add cmp rest x
      (r.1 + 1, r.2.1, y :: r.2.2)

/-- The record `struct email_header`: the tree `root` and the counter `num_items`. -/
structure email_header where
  root : List skey_value_pair
  num_items : Nat
  deriving DecidableEq, Repr

/-- The function `email_header_init` on zeroed memory. -/
def email_header_init : email_header := { root := [], num_items := 0 }

/-- The function `email_header_add`: a key already stored has its value replaced, a new key
is inserted and counted. -/
def email_header_add (hdr : email_header) (key : List Nat) (value : Option (List Nat)) :
    Int × email_header :=
  let cb_value : Int := match value with
    | some v => (strlen v : Int)
    | none => 0
  let kvp := skey_value_pair_new key value cb_value
  let r := avl_tree_add skey_value_pair_compare hdr.root kvp
  if r.2.1 = false then
    let replace := fun current => skey_value_pair_replace_value current kvp.value kvp.cb_value
    (0, { hdr with root := List.modify replace r.1 r.2.2 })
  else (0, { root := r.2.2, num_items := hdr.num_items + 1 })

/-- The loop of `email_header_foreach`: the callback runs on every node from
`avl_tree_iter_begin` through `avl_tree_iter_next` (modelled from the spec: ascending key
order), its return value ignored. -/
def email_header_foreach_loop {σ : Type} (callback : List Nat → Option (List Nat) → σ → Int × σ) :
    List skey_value_pair → σ → σ
  | [], user_data => user_data
  | kvp :: rest, user_data =>
    email_header_foreach_loop callback rest (callback kvp.key kvp.value user_data).2

/-- The function `email_header_foreach`. -/
def email_header_foreach {σ : Type} (hdr : email_header)
    (callback : List Nat → Option (List Nat) → σ → Int × σ) (user_data : σ) : Int × σ :=
  (0, email_header_foreach_loop callback hdr.root user_data)

/-- The function `email_header_clear`. -/
def email_header_clear (_hdr : email_header) : email_header := { root := [], num_items := 0 }

/-! ## The composition session -/

/-- The record `struct email_sender_context` (data members). -/
structure email_sender_context where
  security_mode : Int
  url : List Nat
  username : List Nat
  password : List Nat
  addr_list : email_address_list
  hdr : email_header
  body : auto_buffer
  payload : auto_buffer
  prepared : Int
  deriving DecidableEq, Repr

/-- The function `email_set_from_addr`: the sender record is overwritten in place; a refused
address fails the `assert`. The argument may point into the sender record itself
(`addr_pointer.inside`). -/
def email_set_from_addr (email : email_sender_context) (from_addr : addr_pointer) :
    Outcome (Int × email_sender_context) :=
  match email_address_data_set (some email.addr_list.mail_from_addr)
      email_address_type.mail_from from_addr (-1) with
  | Outcome.aborted => Outcome.aborted
  | Outcome.ret none => Outcome.aborted
  | Outcome.ret (some mail_from) =>
    Outcome.ret (0, { email with addr_list := { email.addr_list with mail_from_addr := mail_from } })

/-- The function `email_add_header`. -/
def email_add_header (email : email_sender_context) (key : List Nat) (value : Option (List Nat)) :
    Int × email_sender_context :=
  let r := email_header_add email.hdr key value
  (r.1, { email with hdr := r.2 })

/-- The function `email_add_body` for a non-NULL `text` of `cb_text` bytes. -/
def email_add_body (email : email_sender_context) (text : List Nat) :
    Int × email_sender_context :=
  if text.length ≤ 0 then (-1, email)
  else (0, { email with body := auto_buffer_push email.body text })

/-- The function `email_clear`. -/
def email_clear (email : email_sender_context) : email_sender_context :=
  { email with
    body := auto_buffer_cleanup email.body
    payload := auto_buffer_cleanup email.payload
    prepared := 0
    hdr := email_header_clear email.hdr
    addr_list := email_address_list_clear email.addr_list }

/-- The data part of `email_sender_context_init` on zeroed memory. -/
def email_sender_context_init : email_sender_context :=
  { security_mode := 0, url := [], username := [], password := []
    addr_list := email_address_list_init, hdr := email_header_init
    body := auto_buffer_init, payload := auto_buffer_init, prepared := 0 }

/-! ## The payload serializer -/

/-- The function `email_utils_generate_date`. The C library is a parameter: `fmt t` is the
text `strftime` makes of the local time of `t` with the format `%a, %d %b %Y %T %z`, and
`now` is the clock read for a NULL timestamp. `strftime` returns 0 when the text and its
NUL do not fit in `size` bytes. The result is the string and the returned count. -/
def email_utils_generate_date (fmt : Int → List Nat) (now : Int) (size : Nat)
    (timestamp : Option Int) : List Nat × Int :=
  let t := match timestamp with
    | some ts => ts
    | none => now
  if (fmt t).length < size then (fmt t, ((fmt t).length : Int)) else ([], 0)

/-- The callback `append_key_value_pairs`: one header line. -/
def append_key_value_pairs (key : List Nat) (value : Option (List Nat)) (payload : auto_buffer) :
    Int × auto_buffer :=
  let cb_value : Nat := match value with
    | some v => strlen v
    | none => 0
  let payload := auto_buffer_push payload (key.take (strlen key))
  let payload := auto_buffer_push payload (ascii ": ")
  let payload := if cb_value > 0 then auto_buffer_push payload ((value.getD []).take cb_value)
    else payload
  let payload := auto_buffer_push payload CRLF
  (0, payload)

/-- One pass of the loop of step 0 of `email_prepare_payload` over a slot of
`recipients_addrs`: the state is the pair of buffers `to_addrs`, `cc_addrs`. -/
def collect_recipient (bufs : auto_buffer × auto_buffer) (slot : Option email_address_data) :
    auto_buffer × auto_buffer :=
  match slot with
  | none => bufs
  | some recipient =>
    match recipient.type with
    | email_address_type.to =>
      let r := snprintf_s (EMAIL_ADDRESS_MAX_LENGTH + 4) recipient.addr
      let dst_buf := bufs.1
      let dst_buf := if dst_buf.length > 0 then auto_buffer_push dst_buf (ascii ", ") else dst_buf
      (auto_buffer_push dst_buf (r.1.take r.2), bufs.2)
    | email_address_type.cc =>
      let r := snprintf_s (EMAIL_ADDRESS_MAX_LENGTH + 4) recipient.addr
      let dst_buf := bufs.2
      let dst_buf := if dst_buf.length > 0 then auto_buffer_push dst_buf (ascii ", ") else dst_buf
      (bufs.1, auto_buffer_push dst_buf (r.1.take r.2))
    | _ => bufs

/-- The call `strchr(mem + p, c)` as an offset into the storage `mem`. -/
def strchr_at (mem : List Nat) (p : Nat) (c : Nat) : Option Nat :=
  (strchr (mem.drop p) c).map (fun k => p + k)

/-- The loop `while(p < p_end && dot_char)` of `email_prepare_payload`. `mem` is the storage
at `body->data`; `p`, `p_end` and `dot_char` are offsets into it. Every pass moves `p` forward
by at least one byte and runs only while `p < p_end`, so `p_end` passes are enough; `fuel`
bounds the passes. The result is the final `p` and the payload. -/
def escape_dot_loop (mem : List Nat) (p_end : Nat) :
    Nat → Nat → Option Nat → auto_buffer → Nat × auto_buffer
  | 0, p, _, payload => (p, payload)
  | fuel + 1, p, dot_char, payload =>
    match dot_char with
    | none => (p, payload)
    | some d =>
      if p < p_end then
        let payload := auto_buffer_push payload ((mem.drop p).take (d - p))
        let payload := auto_buffer_push payload (ascii "..")
        let p := d + 1
        escape_dot_loop mem p_end fuel p (strchr_at mem p DOT) payload
      else (p, payload)

/-- The block "append body" of `email_prepare_payload`. -/
def append_body (body : auto_buffer) (escape_dot_char : Int) (payload : auto_buffer) :
    auto_buffer :=
  if body.length > 0 then
    let p := 0
    let p_end := p + body.length
    let r := if escape_dot_char ≠ 0 then
        escape_dot_loop body.data p_end p_end p (strchr_at body.data p DOT) payload
      else (p, payload)
    if r.1 < p_end then auto_buffer_push r.2 ((body.data.drop r.1).take (p_end - r.1)) else r.2
  else payload

/-- The function `email_prepare_payload`. The result is the outcome of the call (the
returned `int`, or the abort of a failed `assert`) and the payload buffer as the call left
it. -/
def email_prepare_payload (fmt : Int → List Nat) (now : Int) (email : email_sender_context)
    (escape_dot_char : Int) (payload : auto_buffer) (timestamp : Option Int) :
    Outcome Int × auto_buffer :=
  let payload := { payload with length := 0, start_pos := 0 }
  let addr_list := email.addr_list
  let bufs := addr_list.recipients.foldl collect_recipient (auto_buffer_init, auto_buffer_init)
  let to_addrs := bufs.1
  let cc_addrs := bufs.2
  let d := email_utils_generate_date fmt now 100 timestamp
  if ¬ (d.2 > 0) then (Outcome.aborted, payload)
  else
    let payload := auto_buffer_push payload (ascii "Date: " ++ d.1 ++ CRLF)
    let r := snprintf_s (EMAIL_ADDRESS_MAX_LENGTH + 4) addr_list.mail_from_addr.addr
    let payload := auto_buffer_push payload (ascii "From: ")
    let payload := auto_buffer_push payload (r.1.take r.2)
    let payload := auto_buffer_push payload CRLF
    if ¬ (to_addrs.length > 0) then (Outcome.aborted, payload)
    else
      let payload := auto_buffer_push payload (ascii "To: ")
      let payload := auto_buffer_push payload (to_addrs.data.take to_addrs.length)
      let payload := auto_buffer_push payload CRLF
      let payload :=
        if cc_addrs.length > 0 then
          let payload := auto_buffer_push payload (ascii "Cc: ")
          let payload := auto_buffer_push payload (to_addrs.data.take to_addrs.length)
          auto_buffer_push payload CRLF
        else payload
      let payload := (email_header_foreach email.hdr append_key_value_pairs payload).2
      let payload := auto_buffer_push payload CRLF
      let payload := append_body email.body escape_dot_char payload
      (Outcome.ret 0, payload)

/-! ## The pull callback of the transport -/

/-- The width of `size_t`. -/
def SIZE_BITS : Nat := 64

/-- The callback `on_read_data(ptr, size, n, user_data)`. The product `size * n` is taken in
`size_t`; the cursor stays inside the storage, where `start_pos + cb` cannot wrap. The result
is the bytes copied to `ptr`, the returned count and the payload buffer after the call. -/
def on_read_data (size n : Nat) (payload : auto_buffer) : List Nat × Nat × auto_buffer :=
  let cb := (size * n) % 2 ^ SIZE_BITS
  if cb = 0 then ([], 0, payload)
  else if payload.length = 0 then ([], 0, payload)
  else
    let cb := if cb > payload.length then payload.length else cb
    ((payload.data.drop payload.start_pos).take cb, cb,
      { payload with start_pos := payload.start_pos + cb
                     length := payload.length - cb })

/-- The transport's loop over `on_read_data`: one pull per requested `(size, n)`, stopping at
the first pull that returns 0. The result is the concatenation of the chunks drained, whether
a pull returned 0 (the loop stopped by itself, not for want of requests), and the buffer. -/
def drain : List (Nat × Nat) → auto_buffer → List Nat × Bool × auto_buffer
  | [], payload => ([], false, payload)
  | (size, n) :: rest, payload =>
    let r := on_read_data size n payload
    if r.2.1 = 0 then ([], true, r.2.2)
    else
      let d := drain rest r.2.2
      (r.1 ++ d.1, d.2.1, d.2.2)

end EmailSender

namespace EmailSender

/-! ## Words of the specification -/

/-- Byte sequences joined by ", " (comma, space). -/
def join_addrs : List (List Nat) → List Nat
  | [] => []
  | [x] => x
  | x :: y :: rest => x ++ ascii ", " ++ join_addrs (y :: rest)

/-- The raw addresses of the records of classification `t` among the slots, in slot order. -/
def addrs_of (t : email_address_type) : List (Option email_address_data) → List (List Nat)
  | [] => []
  | none :: rest => addrs_of t rest
  | some r :: rest => if r.type = t then r.addr :: addrs_of t rest else addrs_of t rest

/-- The header lines of a table: for every entry in table order, the key, a colon and a
space, the value (nothing for an absent value) and CRLF. -/
def header_lines : List skey_value_pair → List Nat
  | [] => []
  | kvp :: rest => kvp.key ++ ascii ": " ++ kvp.value.getD [] ++ CRLF ++ header_lines rest

/-- The bytes the block "append body" adds to a payload. -/
def body_out (body : auto_buffer) (escape_dot_char : Int) : List Nat :=
  (append_body body escape_dot_char auto_buffer_init).bytes

/-- Buffer `b2` is buffer `b1` with the bytes `x` appended to its queue. -/
def appended (b1 b2 : auto_buffer) (x : List Nat) : Prop :=
  b2.wf ∧ b2.start_pos = b1.start_pos ∧ b2.bytes = b1.bytes ++ x

/-- Whether a slot of `recipients_addrs` points to a Bcc-classified record. -/
def is_bcc_slot (list : email_address_list) (slot : Option Nat) : Bool :=
  match slot.bind (fun p => list.heap.get? p) with
  | some r => decide (r.type = email_address_type.bcc)
  | none => false

/-- The registry with every Bcc-classified record deleted from the ordered recipient list:
the remaining pointers move up, the freed slots at the end are NULL. -/
def delete_bcc (list : email_address_list) : email_address_list :=
  let kept := (list.recipients_addrs.take list.num_recipients).filter
    (fun slot => !is_bcc_slot list slot)
  { list with
    recipients_addrs := kept ++ List.replicate (list.max_size - kept.length) none
    num_recipients := kept.length }

/-- A sequence of calls of the registry's `add`, one per pair of classification and address;
an abort ends the run. -/
def run_adds : email_address_list → List (email_address_type × List Nat) →
    Outcome email_address_list
  | list, [] => Outcome.ret list
  | list, (t, a) :: rest =>
    match email_address_list_add list t a with
    | Outcome.aborted => Outcome.aborted
    | Outcome.ret r => run_adds r.2 rest

/-- The value a call returned, or the default when it aborted. -/
def Outcome.getD {α : Type} (o : Outcome α) (d : α) : α :=
  match o with
  | Outcome.ret a => a
  | Outcome.aborted => d

/-- A byte list that stands for a C string holds no NUL byte. -/
def is_cstr (s : List Nat) : Prop := ∀ b ∈ s, b ≠ 0

instance (s : List Nat) : Decidable (is_cstr s) := by
  unfold is_cstr; infer_instance

/-- The length `email_header_add` computes for a value: `strlen`, or 0 for NULL. -/
def value_length (value : Option (List Nat)) : Int :=
  match value with
  | some v => (strlen v : Int)
  | none => 0

/-- Ascending byte-wise order of keys, as `strcmp` decides it. -/
def key_lt (a b : List Nat) : Prop := strcmp a b < 0

/-- A sequence of calls of `email_header_add`, one per pair of key and value. -/
def run_header_adds : email_header → List (List Nat × Option (List Nat)) → email_header
  | hdr, [] => hdr
  | hdr, (k, v) :: rest => run_header_adds (email_header_add hdr k v).2 rest

/-- The value given by the last call that set key `k`, if any call did. -/
def last_value (ops : List (List Nat × Option (List Nat))) (k : List Nat) :
    Option (Option (List Nat)) :=
  match ops.reverse.find? (fun op => decide (op.1 = k)) with
  | some op => some op.2
  | none => none

/-- The value stored in the table for key `k`, if the key is stored. -/
def stored_value (root : List skey_value_pair) (k : List Nat) : Option (Option (List Nat)) :=
  match root.find? (fun kvp => decide (kvp.key = k)) with
  | some kvp => some kvp.value
  | none => none

/-- An address the registry accepts: a non-empty C string of at most 256 bytes. -/
def valid_address (a : List Nat) : Prop :=
  a ≠ [] ∧ a.length ≤ EMAIL_ADDRESS_MAX_LENGTH ∧ is_cstr a

instance (a : List Nat) : Decidable (valid_address a) := by
  unfold valid_address; infer_instance

/-- The record `email_address_data_set` makes of a classification and a valid address. -/
def record_of (e : email_address_type × List Nat) : email_address_data :=
  { email_address_data_zero with type := e.1, cb_addr := (e.2.length : Int), addr := e.2 }

/-- The registry of the specification, one step: an address not yet present is inserted at
the end; for one already present the stored entry is left untouched under the discard policy
and overwritten in place under the replace-with-latest policy. -/
def entry_add (policy : email_address_duplicates_policy)
    (entries : List (email_address_type × List Nat)) (op : email_address_type × List Nat) :
    List (email_address_type × List Nat) :=
  if op.2 ∈ entries.map (fun e => e.2) then
    if policy = email_address_duplicates_policy.replace_with_latest then
      entries.map (fun e => if e.2 = op.2 then op else e)
    else entries
  else entries ++ [op]

/-- The registry of the specification after a sequence of adds. -/
def entries_after (policy : email_address_duplicates_policy)
    (ops : List (email_address_type × List Nat)) : List (email_address_type × List Nat) :=
  ops.foldl (entry_add policy) []

/-- The distinct addresses of a sequence, in the order in which each was first seen. -/
def first_seen : List (List Nat) → List (List Nat)
  | [] => []
  | a :: rest => a :: (first_seen rest).filter (fun b => decide (b ≠ a))

/-- The classification an address currently has after a sequence of adds: that of its first
add under the discard policy, that of its latest add under the replace-with-latest policy. -/
def current_type (policy : email_address_duplicates_policy)
    (ops : List (email_address_type × List Nat)) (a : List Nat) : Option email_address_type :=
  match policy with
  | email_address_duplicates_policy.discard =>
    (ops.find? (fun op => decide (op.2 = a))).map (fun op => op.1)
  | email_address_duplicates_policy.replace_with_latest =>
    (ops.reverse.find? (fun op => decide (op.2 = a))).map (fun op => op.1)

/-- The raw addresses currently classified To after a sequence of adds, in the order of
first insertion. -/
def spec_to_addrs (policy : email_address_duplicates_policy)
    (ops : List (email_address_type × List Nat)) : List (List Nat) :=
  (first_seen (ops.map (fun op => op.2))).filter
    (fun a => decide (current_type policy ops a = some email_address_type.to))

/-- An initialised registry with the given duplicate policy and sender record. -/
def registry_start (policy : email_address_duplicates_policy) (m : email_address_data) :
    email_address_list :=
  { email_address_list_init with dup_policy := policy, mail_from_addr := m }

/-- The registry `list` holds exactly the entries `entries`: the records are the heap, in
order; the tree and the first slots of the array hold their pointers; the array has
`max_size` slots. -/
def registry_holds (policy : email_address_duplicates_policy) (m : email_address_data)
    (list : email_address_list) (entries : List (email_address_type × List Nat)) : Prop :=
  list.dup_policy = policy ∧ list.mail_from_addr = m ∧
  list.heap = entries.map record_of ∧
  list.addrs_root = List.range entries.length ∧
  list.num_recipients = entries.length ∧
  list.recipients_addrs.length = list.max_size ∧
  entries.length ≤ list.max_size ∧
  list.recipients_addrs.take entries.length = (List.range entries.length).map some ∧
  (∀ e ∈ entries, valid_address e.2) ∧
  (entries.map (fun e => e.2)).Nodup

/-- The request of the transport as `on_read_data` computes it: `size * n` in `size_t`. -/
def max_bytes (size n : Nat) : Nat := (size * n) % 2 ^ SIZE_BITS

/-! ## Sessions used as concrete inputs -/

/-- A date formatter standing for `strftime`: the same text for every time. -/
def example_fmt : Int → List Nat := fun _ => ascii "Thu, 01 Jan 1970 00:00:00 +0000"

/-- A fresh session whose sender is `s@x.com`. -/
def session_sender : email_sender_context :=
  ((email_set_from_addr email_sender_context_init (addr_pointer.outside (ascii "s@x.com"))).getD
    (0, email_sender_context_init)).2

/-- The session `email` after the calls of `add` listed in `ops`. -/
def session_add (email : email_sender_context)
    (ops : List (email_address_type × List Nat)) : email_sender_context :=
  { email with addr_list := (run_adds email.addr_list ops).getD email.addr_list }

/-- Sender `s@x.com`, To `a@x.com`, header `X-Test: 1`, body `hi.there`. -/
def session_basic : email_sender_context :=
  (email_add_body (email_add_header
    (session_add session_sender [(email_address_type.to, ascii "a@x.com")])
    (ascii "X-Test") (some (ascii "1"))).2 (ascii "hi.there")).2

/-- Sender `s@x.com` and the single recipient `c@x.com`, classified Cc. -/
def session_cc_only : email_sender_context :=
  session_add session_sender [(email_address_type.cc, ascii "c@x.com")]

/-- The session `session_basic` with `c@x.com` added as Cc and `b@x.com` as Bcc. -/
def session_to_cc_bcc : email_sender_context :=
  session_add session_basic
    [(email_address_type.cc, ascii "c@x.com"), (email_address_type.bcc, ascii "b@x.com")]

/-- Words of the specification: every `.` byte doubled, every other byte unchanged. -/
def double_dots : List Nat → List Nat
  | [] => []
  | b :: rest => if b = DOT then DOT :: DOT :: double_dots rest else b :: double_dots rest

/-- The session `session_basic` with the body replaced by the nine bytes `hi`, NUL,
`.there`, as `add_body` stores them for `cb_text = 9`. -/
def session_nul_body : email_sender_context :=
  (email_add_body { session_basic with body := auto_buffer_init }
    (ascii "hi" ++ [0] ++ ascii ".there")).2

/-- Sender `s@x.com`, To `a@x.com`, no header, and the two-byte body NUL, `.`. -/
def session_nul_dot : email_sender_context :=
  (email_add_body (session_add session_sender [(email_address_type.to, ascii "a@x.com")])
    [0, DOT]).2

/-- Words of the specification: the `emailPart` of a raw address, the substring enclosed by
`<` and `>` if a `<` is present, else the whole raw address. -/
def email_part (raw : List Nat) : List Nat :=
  if 60 ∈ raw then
    ((raw.dropWhile (fun b => decide (b ≠ 60))).drop 1).takeWhile (fun b => decide (b ≠ 62))
  else raw

/-- An operation on the registry: a call of `add` or a call of `clear`. -/
inductive registry_op where
  | add : email_address_type → List Nat → registry_op
  | clear : registry_op
  deriving DecidableEq, Repr

/-- The address of an `add` is one the registry accepts. -/
def op_valid : registry_op → Prop
  | registry_op.add _ a => valid_address a
  | registry_op.clear => True

instance (op : registry_op) : Decidable (op_valid op) := by
  cases op <;> unfold op_valid <;> infer_instance

/-- A sequence of calls of the registry's `add` and `clear`; an abort ends the run. -/
def run_ops : email_address_list → List registry_op → Outcome email_address_list
  | list, [] => Outcome.ret list
  | list, registry_op.add t a :: rest =>
    match email_address_list_add list t a with
    | Outcome.aborted => Outcome.aborted
    | Outcome.ret r => run_ops r.2 rest
  | list, registry_op.clear :: rest => run_ops (email_address_list_clear list) rest

/-- The registry of the specification, one operation: `add` as in `entry_add`, `clear`
empties it. -/
def entry_op (policy : email_address_duplicates_policy)
    (entries : List (email_address_type × List Nat)) (op : registry_op) :
    List (email_address_type × List Nat) :=
  match op with
  | registry_op.add t a => entry_add policy entries (t, a)
  | registry_op.clear => []

/-- The raw addresses of the records of the ordered recipient list, in list order. -/
def stored_addrs (list : email_address_list) : List (List Nat) :=
  list.recipients.filterMap (fun slot => slot.map (fun r => r.addr))

/-- A record with raw address `a` is stored in the ordered recipient list. -/
def stored (list : email_address_list) (a : List Nat) : Prop :=
  a ∈ stored_addrs list

instance (list : email_address_list) (a : List Nat) : Decidable (stored list a) := by
  unfold stored; infer_instance

/-- A callback for `email_header_foreach` that records the entries it is shown, in order. -/
def collect_entry (key : List Nat) (value : Option (List Nat))
    (seen : List (List Nat × Option (List Nat))) :
    Int × List (List Nat × Option (List Nat)) :=
  (0, seen ++ [(key, value)])

/-- The entries a traversal with `email_header_foreach` visits, in order. -/
def visited (hdr : email_header) : List (List Nat × Option (List Nat)) :=
  (email_header_foreach hdr collect_entry []).2

/-- The time `email_utils_generate_date` formats: the timestamp passed, or the clock reading
for a NULL timestamp. -/
def time_used (now : Int) (timestamp : Option Int) : Int :=
  match timestamp with
  | some ts => ts
  | none => now

/-- An initialised registry after the single add of `<a@x.com>` as To. -/
def registry_angle : email_address_list :=
  (run_ops email_address_list_init
    [registry_op.add email_address_type.to (ascii "<a@x.com>")]).getD email_address_list_init

/-- An initialised registry after the adds of `<a@x.com>` as To and of `a@x.com` as Cc. -/
def registry_same_part : email_address_list :=
  (run_ops email_address_list_init
    [registry_op.add email_address_type.to (ascii "<a@x.com>"),
      registry_op.add email_address_type.cc (ascii "a@x.com")]).getD email_address_list_init

/-- The operations used as a concrete run: three adds, a clear, then To `a@x.com` and
Cc `c@x.com`. -/
def example_ops : List registry_op :=
  [registry_op.add email_address_type.to (ascii "z@x.com"),
    registry_op.add email_address_type.bcc (ascii "a@x.com"),
    registry_op.add email_address_type.to (ascii "z@x.com"),
    registry_op.clear,
    registry_op.add email_address_type.to (ascii "a@x.com"),
    registry_op.add email_address_type.cc (ascii "c@x.com")]

/-- The registry after `example_ops` on an initialised registry with the given policy. -/
def example_registry (policy : email_address_duplicates_policy) : email_address_list :=
  (run_ops (registry_start policy email_address_data_zero) example_ops).getD
    email_address_list_init

/-- Words of the specification: the offset of the first occurrence of CR LF CR LF in a byte
sequence, if there is one. -/
def first_blank_line : List Nat → Option Nat
  | [] => none
  | b :: rest =>
    if (b :: rest).take 4 = CRLF ++ CRLF then some 0
    else (first_blank_line rest).map (fun k => k + 1)

/-- Words of the specification: a byte sequence that contains neither CR nor LF. -/
def no_cr_lf (s : List Nat) : Prop := ∀ b ∈ s, b ≠ 13 ∧ b ≠ 10

instance (s : List Nat) : Decidable (no_cr_lf s) := by
  unfold no_cr_lf; infer_instance

/-- Words of the specification: the first occurrence of CR LF CR LF in `x` ends exactly
where the trailing part `body` of `x` begins. -/
def boundary_before (x body : List Nat) : Prop :=
  ∃ k, first_blank_line x = some k ∧ k + 4 + body.length = x.length ∧ x.drop (k + 4) = body

/-- The macro `PATH_MAX` of the C library headers (Linux). -/
def PATH_MAX : Nat := 4096

/-- The enumeration `smtp_security_mode`. -/
inductive smtp_security_mode where
  | default
  | try_tls
  | ssl
  | force_tls
  deriving DecidableEq, Repr

/-- The integer value of a constant of `smtp_security_mode`. -/
def smtp_security_mode.code : smtp_security_mode → Int
  | smtp_security_mode.default => 0
  | smtp_security_mode.try_tls => 1
  | smtp_security_mode.ssl => 2
  | smtp_security_mode.force_tls => 3

/-- The conversion `%u` of `printf`: the decimal digits of an unsigned value. -/
def decimal (n : Nat) : List Nat := (Nat.toDigits 10 n).map Char.toNat

/-- The table `s_protocols` of `email_set_smtp_server`. -/
def s_protocols : List (List Nat) := [ascii "smtp", ascii "smtps"]

/-- The call `snprintf(buf, size, "%s://%s:%u", protocol, server_name, port)`: the characters
written to `buf` (at most `size - 1`) and the returned count, the length of the whole
text. -/
def snprintf_url (size : Nat) (protocol server_name : List Nat) (port : Nat) :
    List Nat × Int :=
  let text := protocol ++ ascii "://" ++ server_name ++ ascii ":" ++ decimal port
  (text.take (size - 1), (text.length : Int))

/-- The function `email_set_smtp_server`; `port` is the value of the `unsigned int`
parameter. -/
def email_set_smtp_server (email : email_sender_context) (mode : smtp_security_mode)
    (server_name : List Nat) (port : Nat) : Outcome (Int × email_sender_context) :=
  let email := { email with security_mode := mode.code }
  let protocol := s_protocols.getD (if mode = smtp_security_mode.ssl then 1 else 0) []
  let port :=
    if port = 0 then
      match mode with
      | smtp_security_mode.ssl => 465
      | _ => 587
    else port
  let r := snprintf_url PATH_MAX protocol server_name port
  if ¬ (r.2 > 0) then Outcome.aborted
  else Outcome.ret (0, { email with url := r.1 })

/-- Words of the specification: the URL of a server, scheme + `://` + server_name + `:` +
port, with scheme `smtps` exactly for the ssl mode and a port of 0 replaced by 465 for the
ssl mode and by 587 for every other mode. -/
def smtp_url (mode : smtp_security_mode) (server_name : List Nat) (port : Nat) : List Nat :=
  (if mode = smtp_security_mode.ssl then ascii "smtps" else ascii "smtp") ++ ascii "://"
    ++ server_name ++ ascii ":"
    ++ decimal (if port = 0 then (if mode = smtp_security_mode.ssl then 465 else 587) else port)

/-- A server name of 4096 bytes. -/
def long_server_name : List Nat := List.replicate 4096 97

/-- The libcurl function `curl_slist_append`: a copy of the string is appended at the end of
the list. -/
def curl_slist_append (list : List (List Nat)) (s : List Nat) : List (List Nat) :=
  list ++ [s]

/-- The loop of `email_libcurl_send` over `recipients_addrs[0 .. num_recipients)` that builds
the list `recipients` handed to the transport as `CURLOPT_MAIL_RCPT`. A NULL slot is skipped;
`addr` is an array member of the record, so the two tests on it never skip. -/
def email_libcurl_send_recipients (email : email_sender_context) : List (List Nat) :=
  email.addr_list.recipients.foldl
    (fun recipients slot =>
      match slot with
      | none => recipients
      | some recipient => curl_slist_append recipients recipient.addr)
    []

/-- The adds of a sequence of registry operations made since its last `clear`, in order. -/
def adds_since_clear (ops : List registry_op) : List (email_address_type × List Nat) :=
  ops.foldl
    (fun acc op =>
      match op with
      | registry_op.add t a => acc ++ [(t, a)]
      | registry_op.clear => [])
    []

/-- The operations of a run with the three classifications: To `a@x.com`, Cc `c@x.com`,
Bcc `b@x.com`, and `a@x.com` once more as Cc. -/
def envelope_ops : List registry_op :=
  [registry_op.add email_address_type.to (ascii "a@x.com"),
    registry_op.add email_address_type.cc (ascii "c@x.com"),
    registry_op.add email_address_type.bcc (ascii "b@x.com"),
    registry_op.add email_address_type.cc (ascii "a@x.com")]

/-- The session `session_sender` whose registry is the one after `envelope_ops` on an
initialised registry with the discard policy. -/
def session_envelope : email_sender_context :=
  { session_sender with
    addr_list := (run_ops (registry_start email_address_duplicates_policy.discard
      session_sender.addr_list.mail_from_addr) envelope_ops).getD email_address_list_init }

/-! ## The HTTP client of `src/net-utils.c` and the loader of `src/simple.c` -/

/-- The C string found at a pointer into memory: the bytes before the first NUL. -/
def cstr_at (mem : List Nat) : List Nat := mem.takeWhile (fun b => decide (b ≠ 0))

/-- The libc function `strtok_r(str, delim, &saveptr)` on the memory at the scan position
(`str` on a first call, `*saveptr` on a later one). Leading delimiter bytes are skipped; when
the string ends there the result is NULL. Else the token runs up to the next delimiter, which
is overwritten by NUL, or to the end of the string. The result is the token and the memory at
the new `*saveptr`. -/
def strtok_r (s delim : List Nat) : Option (List Nat) × List Nat :=
  let s := (cstr_at s).dropWhile (fun b => decide (b ∈ delim))
  if s = [] then (none, [])
  else (some (s.takeWhile (fun b => decide (b ∉ delim))),
    (s.dropWhile (fun b => decide (b ∉ delim))).drop 1)

/-- The macro `HTTP_HEADERS_ALLOC_SIZE`. -/
def HTTP_HEADERS_ALLOC_SIZE : Nat := 64

/-- The record `struct net_utils_http_headers` (data members): `list` is the array of `size`
pointers (`none` is NULL), of which the first `length` are in use. -/
structure net_utils_http_headers where
  size : Nat
  length : Nat
  list : List (Option skey_value_pair)
  deriving DecidableEq, Repr

/-- The function `http_headers_resize`. -/
def http_headers_resize (headers : net_utils_http_headers) (new_size : Nat) :
    Int × net_utils_http_headers :=
  let new_size := if new_size = 0 then HTTP_HEADERS_ALLOC_SIZE
    else (new_size + HTTP_HEADERS_ALLOC_SIZE - 1) / HTTP_HEADERS_ALLOC_SIZE
      * HTTP_HEADERS_ALLOC_SIZE
  if new_size ≤ headers.size then (0, headers)
  else (0, { headers with
    list := headers.list.take headers.size ++ List.replicate (new_size - headers.size) none
    size := new_size })

/-- The function `http_headers_add`: the new pair is stored in slot `length`. -/
def http_headers_add (headers : net_utils_http_headers) (key : List Nat)
    (value : Option (List Nat)) : Outcome (Int × net_utils_http_headers) :=
  let r := http_headers_resize headers (headers.length + 1)
  if r.1 ≠ 0 then Outcome.aborted
  else
    let headers := r.2
    let pair := skey_value_pair_new key value (-1)
    Outcome.ret (0, { headers with
      list := headers.list.set headers.length (some pair)
      length := headers.length + 1 })

/-- The delimiters `":\r\n"` of `http_headers_add_line`. -/
def header_delim : List Nat := [58, 13, 10]

/-- The function `http_headers_add_line` for a non-NULL `line`; `line` is the memory at the
pointer, of which `cb_line` bytes are copied (the C string found there for `cb_line = -1`).
The `assert(key)` aborts when `strtok_r` finds no token. -/
def http_headers_add_line (headers : net_utils_http_headers) (line : List Nat) (cb_line : Int) :
    Outcome (Int × net_utils_http_headers) :=
  let cb_line : Int := if cb_line = -1 then (strlen (cstr_at line) : Int) else cb_line
  if cb_line ≤ 0 ∨ cb_line ≥ (PATH_MAX : Int) then Outcome.ret (-1, headers)
  else
    let line_buf := line.take cb_line.toNat
    let r := strtok_r line_buf header_delim
    match r.1 with
    | none => Outcome.aborted
    | some key =>
      let value := (strtok_r r.2 header_delim).1
      http_headers_add headers key value

/-- The function `net_utils_http_headers_init` on zeroed memory. -/
def net_utils_http_headers_init : net_utils_http_headers :=
  { size := 0, length := 0, list := [] }

/-- The record `struct net_utils_http_client` (the data members the header callback and the
loader use). -/
structure net_utils_http_client where
  url : List Nat
  use_ssl : Int
  verify_host : Int
  status_line : Option (List Nat)
  protocol : Option (List Nat)
  status_code : Option (List Nat)
  status_descriptions : Option (List Nat)
  response_headers : net_utils_http_headers
  deriving DecidableEq, Repr

/-- The data part of `net_utils_http_client_init` on zeroed memory. -/
def net_utils_http_client_init : net_utils_http_client :=
  { url := [], use_ssl := 0, verify_host := 0, status_line := none, protocol := none,
    status_code := none, status_descriptions := none,
    response_headers := net_utils_http_headers_init }

/-- The conversion of a `size_t` value to `ssize_t`. -/
def to_ssize_t (cb : Nat) : Int :=
  if cb < 2 ^ (SIZE_BITS - 1) then (cb : Int) else (cb : Int) - 2 ^ SIZE_BITS

/-- The delimiters `" \r\n"` of the status line in `on_parse_header`. -/
def status_delim : List Nat := [32, 13, 10]

/-- The callback `on_parse_header(ptr, size, n, user_data)` with a client as `user_data`;
`ptr` is the memory at the pointer, which holds at least `size * n` bytes. The result is the
returned count and the client after the call. `status_line` keeps the text as `strdup` copied
it; the code only tests it against NULL. -/
def on_parse_header (ptr : List Nat) (size n : Nat) (client : net_utils_http_client) :
    Outcome (Nat × net_utils_http_client) :=
  let cb := (size * n) % 2 ^ SIZE_BITS
  if cb ≤ 2 then Outcome.ret (cb, client)
  else
    match client.status_line with
    | none =>
      if cb ≥ PATH_MAX then Outcome.ret (0, client)
      else
        let status_line := cstr_at (ptr.take cb)
        let client := { client with status_line := some status_line }
        let r1 := strtok_r status_line status_delim
        let client := { client with protocol := r1.1 }
        if r1.1 = none then Outcome.ret (0, client)
        else
          let r2 := strtok_r r1.2 status_delim
          let client := { client with status_code := r2.1 }
          let client :=
            if r2.1 ≠ none then
              { client with status_descriptions := (strtok_r r2.2 status_delim).1 }
            else client
          Outcome.ret (cb, client)
    | some _ =>
      match http_headers_add_line client.response_headers ptr (to_ssize_t cb) with
      | Outcome.aborted => Outcome.aborted
      | Outcome.ret r =>
        let client := { client with response_headers := r.2 }
        if r.1 = 0 then Outcome.ret (cb, client) else Outcome.ret (0, client)

/-- The pairs of a header list, in list order. -/
def net_utils_http_headers.pairs (headers : net_utils_http_headers) :
    List (Option skey_value_pair) :=
  headers.list.take headers.length

/-- A client whose status line `HTTP/1.1 200 OK` has been recorded by `on_parse_header`. -/
def client_after_status : net_utils_http_client :=
  match on_parse_header (ascii "HTTP/1.1 200 OK\r\n") 1 17 net_utils_http_client_init with
  | Outcome.ret r => r.2
  | Outcome.aborted => net_utils_http_client_init

/-- The libc function `tolower` on a byte (C locale). -/
def tolower (c : Nat) : Nat := if 65 ≤ c ∧ c ≤ 90 then c + 32 else c

/-- The libc function `strncasecmp` on two C strings: at most `n` bytes are compared, letter
case ignored; the terminating NUL counts as byte 0 and ends the comparison. -/
def strncasecmp : List Nat → List Nat → Nat → Int
  | _, _, 0 => 0
  | [], [], _ + 1 => 0
  | [], b :: _, _ + 1 => 0 - (tolower b : Int)
  | a :: _, [], _ + 1 => (tolower a : Int)
  | a :: as, b :: bs, n + 1 =>
    if tolower a = tolower b then strncasecmp as bs n
    else (tolower a : Int) - (tolower b : Int)

/-- The size of a pointer, `sizeof(char *)`, on the 64-bit targets of `SIZE_BITS`. -/
def SIZEOF_POINTER : Nat := SIZE_BITS / 8

/-- How `load_js_code_from_uri` obtains the code: through the HTTP client, with the values
given to `use_ssl` and `verify_host`, or from a local file with `utils_load_file`. -/
inductive js_code_source where
  | http_client (use_ssl verify_host : Int)
  | local_file
  deriving DecidableEq, Repr

/-- The function `load_js_code_from_uri` up to the choice of the loader. The third argument
of both `strncasecmp` calls is `sizeof("http://" - 1)` and `sizeof("https://" - 1)`: the
operand is a pointer (the literal minus one), so both are the size of a pointer. -/
def load_js_code_from_uri (uri : List Nat) : js_code_source :=
  let is_http : Int := if strncasecmp uri (ascii "http://") SIZEOF_POINTER = 0 then 1 else 0
  let is_https : Int :=
    if is_http = 0 then
      (if strncasecmp uri (ascii "https://") SIZEOF_POINTER = 0 then 1 else 0)
    else 0
  if is_http ≠ 0 ∨ is_https ≠ 0 then js_code_source.http_client is_https is_https
  else js_code_source.local_file

/-- Words of the specification: `uri` starts with `p`, letter case ignored. -/
def starts_with_nocase (uri p : List Nat) : Prop :=
  (uri.take p.length).map tolower = p.map tolower

instance (uri p : List Nat) : Decidable (starts_with_nocase uri p) := by
  unfold starts_with_nocase; infer_instance

/-- A date formatter standing for `strftime` that depends on the time: it tells the seconds
0 to 9 apart. -/
def clock_fmt : Int → List Nat := fun t =>
  ascii "Thu, 01 Jan 1970 00:00:0" ++ [48 + (t % 10).toNat] ++ ascii " +0000"

/-- A buffer whose storage holds the queued bytes and nothing else. -/
def auto_buffer.exact (b : auto_buffer) : Prop :=
  b.start_pos = 0 ∧ b.data.length = b.length

end EmailSender

namespace EmailSender

/-! ## Facts about the byte queue -/

theorem auto_buffer_push_start_pos (b : auto_buffer) (x : List Nat) :
    (auto_buffer_push b x).start_pos = b.start_pos := rfl

theorem auto_buffer_push_length (b : auto_buffer) (x : List Nat) :
    (auto_buffer_push b x).length = b.length + x.length := rfl

theorem auto_buffer_push_wf (b : auto_buffer) (x : List Nat) (h : b.wf) :
    (auto_buffer_push b x).wf := by
  unfold auto_buffer.wf at *
  simp only [auto_buffer_push, List.length_append, List.length_take, List.length_drop]
  omega

theorem auto_buffer_push_bytes (b : auto_buffer) (x : List Nat) (h : b.wf) :
    (auto_buffer_push b x).bytes = b.bytes ++ x := by
  unfold auto_buffer.wf at h
  have h1 : (b.data.take (b.start_pos + b.length)).length = b.start_pos + b.length := by
    simp only [List.length_take]; omega
  have h2 : ((b.data.take (b.start_pos + b.length)).drop b.start_pos).length = b.length := by
    simp only [List.length_drop, h1]; omega
  have h3 : (b.data.take (b.start_pos + b.length)).drop b.start_pos
      = (b.data.drop b.start_pos).take b.length := by
    rw [List.drop_take]; congr 1; omega
  simp only [auto_buffer.bytes, auto_buffer_push, List.append_assoc]
  rw [List.drop_append_of_le_length (by omega), h3, ← List.append_assoc,
    List.take_append_of_le_length (by simp only [List.length_append, List.length_take, List.length_drop]; omega)]
  rw [List.take_append_eq_append_take]
  simp only [List.length_take, List.length_drop]
  have h4 : b.length + x.length - min b.length (b.data.length - b.start_pos) = x.length := by omega
  rw [h4, List.take_length, List.take_take]
  congr 2
  omega

theorem auto_buffer_push_exact (b : auto_buffer) (x : List Nat) (h : b.exact) :
    (auto_buffer_push b x).exact ∧ (auto_buffer_push b x).data = b.data ++ x := by
  obtain ⟨h0, h1⟩ := h
  have e : (auto_buffer_push b x).data = b.data ++ x := by
    simp only [auto_buffer_push, h0, Nat.zero_add, ← h1]
    rw [List.take_length, List.drop_eq_nil_of_le (by omega), List.append_nil]
  refine ⟨⟨h0, ?_⟩, e⟩
  rw [e, auto_buffer_push_length, List.length_append, h1]

theorem auto_buffer_exact_bytes (b : auto_buffer) (h : b.exact) : b.bytes = b.data := by
  obtain ⟨h0, h1⟩ := h
  simp only [auto_buffer.bytes, h0, List.drop_zero, ← h1, List.take_length]

/-! ## Facts about joined addresses -/

theorem join_addrs_snoc (xs : List (List Nat)) (x : List Nat) (h : xs ≠ []) :
    join_addrs (xs ++ [x]) = join_addrs xs ++ ascii ", " ++ x := by
  induction xs with
  | nil => exact absurd rfl h
  | cons a rest ih =>
    cases rest with
    | nil => simp [join_addrs]
    | cons b rest2 =>
      have := ih (by simp)
      show a ++ ascii ", " ++ join_addrs (b :: rest2 ++ [x]) = _
      rw [this]
      simp only [join_addrs, List.append_assoc]

theorem join_addrs_eq_nil (xs : List (List Nat)) (h : ∀ x ∈ xs, x ≠ []) :
    join_addrs xs = [] ↔ xs = [] := by
  cases xs with
  | nil => simp [join_addrs]
  | cons a rest =>
    have ha : a ≠ [] := h a (by simp)
    cases rest with
    | nil => simp [join_addrs, ha]
    | cons b rest2 => simp [join_addrs, ha]

theorem addrs_of_append (t : email_address_type) (l1 l2 : List (Option email_address_data)) :
    addrs_of t (l1 ++ l2) = addrs_of t l1 ++ addrs_of t l2 := by
  induction l1 with
  | nil => rfl
  | cons a rest ih =>
    cases a with
    | none => simpa [addrs_of] using ih
    | some r =>
      by_cases hr : r.type = t
      · simp [addrs_of, hr, ih]
      · simp [addrs_of, hr, ih]

theorem addrs_of_ne_nil (t : email_address_type) (l : List (Option email_address_data))
    (h : ∀ r, some r ∈ l → r.addr ≠ []) : ∀ x ∈ addrs_of t l, x ≠ [] := by
  induction l with
  | nil => intro x hx; simp [addrs_of] at hx
  | cons a rest ih =>
    have ih2 := ih (fun r hr => h r (List.mem_cons_of_mem _ hr))
    cases a with
    | none => simpa [addrs_of] using ih2
    | some r =>
      by_cases hr : r.type = t
      · intro x hx
        simp only [addrs_of, hr, if_true, List.mem_cons] at hx
        rcases hx with rfl | hx
        · exact h r (by simp)
        · exact ih2 x hx
      · simpa [addrs_of, hr] using ih2

theorem snprintf_s_take (s : List Nat) (h : s.length ≤ EMAIL_ADDRESS_MAX_LENGTH) :
    (snprintf_s (EMAIL_ADDRESS_MAX_LENGTH + 4) s).1.take
      (snprintf_s (EMAIL_ADDRESS_MAX_LENGTH + 4) s).2 = s := by
  simp only [snprintf_s, strlen, EMAIL_ADDRESS_MAX_LENGTH] at *
  rw [List.take_take, List.take_of_length_le (by omega)]

/-! ## Facts about step 0 of the serializer -/

theorem collect_recipient_fst_of_not_to (bufs : auto_buffer × auto_buffer)
    (rs : List (Option email_address_data)) (h : addrs_of email_address_type.to rs = []) :
    (rs.foldl collect_recipient bufs).1 = bufs.1 := by
  induction rs generalizing bufs with
  | nil => rfl
  | cons a rest ih =>
    cases a with
    | none => exact ih bufs (by simpa [addrs_of] using h)
    | some r =>
      by_cases hr : r.type = email_address_type.to
      · simp [addrs_of, hr] at h
      · have h2 : addrs_of email_address_type.to rest = [] := by simpa [addrs_of, hr] using h
        rw [List.foldl_cons, ih _ h2]
        cases hty : r.type <;> simp_all [collect_recipient]

theorem exact_init : auto_buffer_init.exact := ⟨rfl, rfl⟩

theorem push_sep_exact (b : auto_buffer) (xs : List (List Nat)) (x : List Nat)
    (hne : ∀ y ∈ xs, y ≠ []) (hb : b.exact) (hd : b.data = join_addrs xs) :
    (auto_buffer_push (if b.length > 0 then auto_buffer_push b (ascii ", ") else b) x).exact ∧
    (auto_buffer_push (if b.length > 0 then auto_buffer_push b (ascii ", ") else b) x).data
      = join_addrs (xs ++ [x]) := by
  by_cases hxs : xs = []
  · subst hxs
    have hlen : b.length = 0 := by rw [← hb.2, hd]; rfl
    have h0 : ¬ (b.length > 0) := by omega
    rw [if_neg h0]
    have := auto_buffer_push_exact b x hb
    refine ⟨this.1, ?_⟩
    rw [this.2, hd]; simp [join_addrs]
  · have hlen : b.length > 0 := by
      rw [← hb.2, hd]
      have := (join_addrs_eq_nil xs hne).not.mpr hxs
      exact List.length_pos.mpr this
    rw [if_pos hlen]
    have h1 := auto_buffer_push_exact b (ascii ", ") hb
    have h2 := auto_buffer_push_exact _ x h1.1
    refine ⟨h2.1, ?_⟩
    rw [h2.2, h1.2, hd, join_addrs_snoc xs x hxs]

theorem collect_fold (rs : List (Option email_address_data))
    (h : ∀ r, some r ∈ rs → r.addr ≠ [] ∧ r.addr.length ≤ EMAIL_ADDRESS_MAX_LENGTH) :
    (rs.foldl collect_recipient (auto_buffer_init, auto_buffer_init)).1.exact ∧
    (rs.foldl collect_recipient (auto_buffer_init, auto_buffer_init)).1.data
      = join_addrs (addrs_of email_address_type.to rs) ∧
    (rs.foldl collect_recipient (auto_buffer_init, auto_buffer_init)).2.exact ∧
    (rs.foldl collect_recipient (auto_buffer_init, auto_buffer_init)).2.data
      = join_addrs (addrs_of email_address_type.cc rs) := by
  induction rs using List.reverseRecOn with
  | nil => exact ⟨exact_init, rfl, exact_init, rfl⟩
  | append_singleton rest a ih =>
    have hrest : ∀ r, some r ∈ rest → r.addr ≠ [] ∧ r.addr.length ≤ EMAIL_ADDRESS_MAX_LENGTH :=
      fun r hr => h r (List.mem_append_left _ hr)
    obtain ⟨i1, i2, i3, i4⟩ := ih hrest
    rw [List.foldl_append, List.foldl_cons, List.foldl_nil, addrs_of_append, addrs_of_append]
    cases a with
    | none => simpa [collect_recipient, addrs_of] using ⟨i1, i2, i3, i4⟩
    | some r =>
      have hr := h r (by simp)
      have hto := addrs_of_ne_nil email_address_type.to rest (fun r hr => (hrest r hr).1)
      have hcc := addrs_of_ne_nil email_address_type.cc rest (fun r hr => (hrest r hr).1)
      cases hty : r.type
      · simpa [collect_recipient, addrs_of, hty] using ⟨i1, i2, i3, i4⟩
      · have := push_sep_exact _ _ r.addr hto i1 i2
        simp only [collect_recipient, hty, addrs_of, snprintf_s_take r.addr hr.2, if_true]
        simpa using ⟨this.1, this.2, i3, i4⟩
      · have := push_sep_exact _ _ r.addr hcc i3 i4
        simp only [collect_recipient, hty, addrs_of, snprintf_s_take r.addr hr.2, if_true]
        simpa using ⟨i1, i2, this.1, this.2⟩
      · simpa [collect_recipient, addrs_of, hty] using ⟨i1, i2, i3, i4⟩

/-! ## Facts about appending to the payload -/

theorem appended_refl (b : auto_buffer) (h : b.wf) : appended b b [] :=
  ⟨h, rfl, by simp⟩

theorem appended_push (b1 b2 : auto_buffer) (x y : List Nat) (h : appended b1 b2 x) :
    appended b1 (auto_buffer_push b2 y) (x ++ y) := by
  obtain ⟨h1, h2, h3⟩ := h
  refine ⟨auto_buffer_push_wf b2 y h1, ?_, ?_⟩
  · rw [auto_buffer_push_start_pos, h2]
  · rw [auto_buffer_push_bytes b2 y h1, h3, List.append_assoc]

theorem appended_trans (b1 b2 b3 : auto_buffer) (x y : List Nat) (h : appended b1 b2 x)
    (h2 : appended b2 b3 y) : appended b1 b3 (x ++ y) := by
  obtain ⟨_, a2, a3⟩ := h
  obtain ⟨c1, c2, c3⟩ := h2
  exact ⟨c1, by rw [c2, a2], by rw [c3, a3, List.append_assoc]⟩

theorem append_key_value_pairs_appended (key : List Nat) (value : Option (List Nat))
    (payload : auto_buffer) (h : payload.wf) :
    appended payload (append_key_value_pairs key value payload).2
      (key ++ ascii ": " ++ value.getD [] ++ CRLF) := by
  have a0 := appended_refl payload h
  have a1 := appended_push _ _ _ key a0
  have a2 := appended_push _ _ _ (ascii ": ") a1
  cases value with
  | none =>
    have a3 := appended_push _ _ _ CRLF a2
    simpa [append_key_value_pairs, strlen] using a3
  | some v =>
    by_cases hv : v = []
    · subst hv
      have a3 := appended_push _ _ _ CRLF a2
      simpa [append_key_value_pairs, strlen] using a3
    · have hpos : 0 < v.length := List.length_pos.mpr hv
      have a3 := appended_push _ _ _ v a2
      have a4 := appended_push _ _ _ CRLF a3
      simpa [append_key_value_pairs, strlen, hpos] using a4

theorem email_header_foreach_loop_appended (root : List skey_value_pair)
    (payload : auto_buffer) (h : payload.wf) :
    appended payload (email_header_foreach_loop append_key_value_pairs root payload)
      (header_lines root) := by
  induction root generalizing payload with
  | nil => exact appended_refl payload h
  | cons kvp rest ih =>
    have a1 := append_key_value_pairs_appended kvp.key kvp.value payload h
    have a2 := ih _ a1.1
    have := appended_trans _ _ _ _ _ a1 a2
    simpa [email_header_foreach_loop, header_lines] using this

theorem escape_dot_loop_appended (mem : List Nat) (p_end fuel p : Nat) (d : Option Nat)
    (payload : auto_buffer) (h : payload.wf) :
    (escape_dot_loop mem p_end fuel p d payload).1
      = (escape_dot_loop mem p_end fuel p d auto_buffer_init).1 ∧
    appended payload (escape_dot_loop mem p_end fuel p d payload).2
      (escape_dot_loop mem p_end fuel p d auto_buffer_init).2.bytes := by
  have hinit : auto_buffer_init.wf := by decide
  induction fuel generalizing p d payload with
  | zero => exact ⟨rfl, appended_refl payload h⟩
  | succ n ih =>
    cases d with
    | none => exact ⟨rfl, appended_refl payload h⟩
    | some k =>
      by_cases hp : p < p_end
      · simp only [escape_dot_loop, hp, if_true]
        have a1 := appended_push _ _ _ ((mem.drop p).take (k - p)) (appended_refl payload h)
        have a2 := appended_push _ _ _ (ascii "..") a1
        have b1 := appended_push _ _ _ ((mem.drop p).take (k - p)) (appended_refl _ hinit)
        have b2 := appended_push _ _ _ (ascii "..") b1
        have i1 := ih (k + 1) (strchr_at mem (k + 1) DOT) _ a2.1
        have i2 := ih (k + 1) (strchr_at mem (k + 1) DOT) _ b2.1
        refine ⟨i1.1.trans i2.1.symm, ?_⟩
        have t1 := appended_trans _ _ _ _ _ a2 i1.2
        have t2 := appended_trans _ _ _ _ _ b2 i2.2
        refine ⟨t1.1, t1.2.1, ?_⟩
        rw [t1.2.2, t2.2.2]
        simp [auto_buffer.bytes, auto_buffer_init]
      · simp only [escape_dot_loop, hp, if_false]
        exact ⟨trivial, appended_refl payload h⟩

theorem append_body_appended (body : auto_buffer) (esc : Int) (payload : auto_buffer)
    (h : payload.wf) : appended payload (append_body body esc payload) (body_out body esc) := by
  have hinit : auto_buffer_init.wf := by decide
  have hib : auto_buffer_init.bytes = [] := rfl
  unfold body_out append_body
  by_cases hl : body.length > 0
  · simp only [hl, if_true, Nat.zero_add]
    by_cases he : esc ≠ 0
    · simp only [he, ne_eq, not_false_eq_true, if_true]
      have l := escape_dot_loop_appended body.data body.length body.length 0
        (strchr_at body.data 0 DOT) payload h
      rw [l.1]
      by_cases hr : (escape_dot_loop body.data body.length body.length 0
          (strchr_at body.data 0 DOT) auto_buffer_init).1 < body.length
      · simp only [hr, if_true]
        have l0 := escape_dot_loop_appended body.data body.length body.length 0
          (strchr_at body.data 0 DOT) auto_buffer_init hinit
        have a := appended_push _ _ _ (List.take (body.length - (escape_dot_loop body.data
          body.length body.length 0 (strchr_at body.data 0 DOT) auto_buffer_init).1)
          (List.drop (escape_dot_loop body.data body.length body.length 0
          (strchr_at body.data 0 DOT) auto_buffer_init).1 body.data)) l.2
        refine ⟨a.1, a.2.1, ?_⟩
        rw [a.2.2, auto_buffer_push_bytes _ _ l0.2.1]
      · simp only [hr, if_false]
        exact l.2
    · simp only [he, if_false]
      have a := appended_push _ _ _ (List.take (body.length - 0) (List.drop 0 body.data))
        (appended_refl payload h)
      have b := appended_push _ _ _ (List.take (body.length - 0) (List.drop 0 body.data))
        (appended_refl _ hinit)
      simp only [hl, if_true]
      refine ⟨a.1, a.2.1, ?_⟩
      rw [a.2.2, b.2.2, hib]
      rfl
  · simp only [hl, if_false]
    simpa [hib] using appended_refl payload h

/-! ## The payload of a successful preparation -/

theorem prepare_payload_returns (fmt : Int → List Nat) (now : Int) (email : email_sender_context)
    (esc : Int) (payload : auto_buffer) (ts : Option Int)
    (hd : 0 < (email_utils_generate_date fmt now 100 ts).2)
    (hs : email.addr_list.mail_from_addr.addr.length ≤ EMAIL_ADDRESS_MAX_LENGTH)
    (hr : ∀ r, some r ∈ email.addr_list.recipients →
      r.addr ≠ [] ∧ r.addr.length ≤ EMAIL_ADDRESS_MAX_LENGTH)
    (hto : addrs_of email_address_type.to email.addr_list.recipients ≠ []) :
    (email_prepare_payload fmt now email esc payload ts).1 = Outcome.ret 0 ∧
    (email_prepare_payload fmt now email esc payload ts).2.start_pos = 0 ∧
    (email_prepare_payload fmt now email esc payload ts).2.wf ∧
    (email_prepare_payload fmt now email esc payload ts).2.bytes
      = ascii "Date: " ++ (email_utils_generate_date fmt now 100 ts).1 ++ CRLF
        ++ (ascii "From: " ++ email.addr_list.mail_from_addr.addr ++ CRLF)
        ++ (ascii "To: " ++ join_addrs (addrs_of email_address_type.to email.addr_list.recipients)
            ++ CRLF)
        ++ (if addrs_of email_address_type.cc email.addr_list.recipients = [] then []
            else ascii "Cc: "
              ++ join_addrs (addrs_of email_address_type.to email.addr_list.recipients) ++ CRLF)
        ++ header_lines email.hdr.root ++ CRLF ++ body_out email.body esc := by
  obtain ⟨c1, c2, c3, c4⟩ := collect_fold email.addr_list.recipients hr
  have hne := addrs_of_ne_nil email_address_type.to _ (fun r h => (hr r h).1)
  have hnc := addrs_of_ne_nil email_address_type.cc _ (fun r h => (hr r h).1)
  have hto_len : (email.addr_list.recipients.foldl collect_recipient
      (auto_buffer_init, auto_buffer_init)).1.length > 0 := by
    rw [← c1.2, c2]
    exact List.length_pos.mpr ((join_addrs_eq_nil _ hne).not.mpr hto)
  have hto_data : (email.addr_list.recipients.foldl collect_recipient
      (auto_buffer_init, auto_buffer_init)).1.data.take (email.addr_list.recipients.foldl
      collect_recipient (auto_buffer_init, auto_buffer_init)).1.length
      = join_addrs (addrs_of email_address_type.to email.addr_list.recipients) := by
    rw [← c1.2, List.take_length, c2]
  have hcc_len : (email.addr_list.recipients.foldl collect_recipient
      (auto_buffer_init, auto_buffer_init)).2.length > 0 ↔
      addrs_of email_address_type.cc email.addr_list.recipients ≠ [] := by
    rw [← c3.2, c4]
    exact List.length_pos.trans (join_addrs_eq_nil _ hnc).not
  have w0 : ({ payload with length := 0, start_pos := 0 } : auto_buffer).wf := by
    simp [auto_buffer.wf]
  have a0 := appended_refl _ w0
  have a1 := appended_push _ _ _
    (ascii "Date: " ++ (email_utils_generate_date fmt now 100 ts).1 ++ CRLF) a0
  have a2 := appended_push _ _ _ (ascii "From: ") a1
  have a3 := appended_push _ _ _ email.addr_list.mail_from_addr.addr a2
  have a4 := appended_push _ _ _ CRLF a3
  have a5 := appended_push _ _ _ (ascii "To: ") a4
  have a6 := appended_push _ _ _
    (join_addrs (addrs_of email_address_type.to email.addr_list.recipients)) a5
  have a7 := appended_push _ _ _ CRLF a6
  have hb0 : ({ payload with length := 0, start_pos := 0 } : auto_buffer).bytes = [] := by
    simp [auto_buffer.bytes]
  simp only [email_prepare_payload, hd, not_true_eq_false, if_false, hto_len, gt_iff_lt,
    snprintf_s_take _ hs, hto_data, email_header_foreach]
  by_cases hcc : addrs_of email_address_type.cc email.addr_list.recipients = []
  · have hcl : ¬ (0 < (email.addr_list.recipients.foldl collect_recipient
      (auto_buffer_init, auto_buffer_init)).2.length) := fun h => (hcc_len.mp h) hcc
    simp only [hcl, if_false, hcc, if_true]
    have a8 := appended_trans _ _ _ _ _ a7 (email_header_foreach_loop_appended email.hdr.root _ a7.1)
    have a9 := appended_push _ _ _ CRLF a8
    have a10 := appended_trans _ _ _ _ _ a9 (append_body_appended email.body esc _ a9.1)
    refine ⟨trivial, a10.2.1, a10.1, ?_⟩
    rw [a10.2.2, hb0]
    simp only [List.nil_append, List.append_assoc, List.append_nil]
  · have hcl : 0 < (email.addr_list.recipients.foldl collect_recipient
      (auto_buffer_init, auto_buffer_init)).2.length := hcc_len.mpr hcc
    simp only [hcl, if_true, hcc, if_false]
    have b1 := appended_push _ _ _ (ascii "Cc: ") a7
    have b2 := appended_push _ _ _
      (join_addrs (addrs_of email_address_type.to email.addr_list.recipients)) b1
    have b3 := appended_push _ _ _ CRLF b2
    have a8 := appended_trans _ _ _ _ _ b3 (email_header_foreach_loop_appended email.hdr.root _ b3.1)
    have a9 := appended_push _ _ _ CRLF a8
    have a10 := appended_trans _ _ _ _ _ a9 (append_body_appended email.body esc _ a9.1)
    refine ⟨trivial, a10.2.1, a10.1, ?_⟩
    rw [a10.2.2, hb0]
    simp only [List.nil_append, List.append_assoc, List.append_nil]

/-! ## Bcc records and the payload -/

theorem collect_recipient_bcc_filter (rs : List (Option email_address_data))
    (bufs : auto_buffer × auto_buffer) (q : Option email_address_data → Bool)
    (hq : ∀ slot, q slot = false → ∀ b, collect_recipient b slot = b) :
    (rs.filter q).foldl collect_recipient bufs = rs.foldl collect_recipient bufs := by
  induction rs generalizing bufs with
  | nil => rfl
  | cons a rest ih =>
    by_cases ha : q a = true
    · rw [List.filter_cons_of_pos ha, List.foldl_cons, List.foldl_cons, ih]
    · have ha2 : q a = false := by simpa using ha
      rw [List.filter_cons_of_neg ha, List.foldl_cons, hq a ha2 bufs, ih]

theorem delete_bcc_recipients (list : email_address_list) :
    (delete_bcc list).recipients = list.recipients.filter (fun o =>
      match o with
      | some r => !decide (r.type = email_address_type.bcc)
      | none => true) := by
  unfold delete_bcc email_address_list.recipients
  simp only
  rw [List.take_left, List.filter_map]
  congr 1
  apply List.filter_congr
  intro slot _
  simp only [is_bcc_slot, Function.comp]
  cases h : slot.bind (fun p => list.heap.get? p) <;> simp [h]

/-- C4. Bcc-classified records never influence the payload: for every session, flag,
payload buffer and timestamp, `email_prepare_payload` gives the same outcome and the same
payload buffer, byte for byte, on the registry from which every Bcc-classified record has
been deleted as on the registry itself. -/
theorem prepare_payload_ignores_bcc (fmt : Int → List Nat) (now : Int)
    (email : email_sender_context) (esc : Int) (payload : auto_buffer) (ts : Option Int) :
    email_prepare_payload fmt now { email with addr_list := delete_bcc email.addr_list }
        esc payload ts
      = email_prepare_payload fmt now email esc payload ts := by
  have hfold : (delete_bcc email.addr_list).recipients.foldl collect_recipient
        (auto_buffer_init, auto_buffer_init)
      = email.addr_list.recipients.foldl collect_recipient
        (auto_buffer_init, auto_buffer_init) := by
    rw [delete_bcc_recipients]
    apply collect_recipient_bcc_filter
    intro slot hslot b
    cases slot with
    | none => simp at hslot
    | some r =>
      have : r.type = email_address_type.bcc := by simpa using hslot
      simp [collect_recipient, this]
  have hfrom : (delete_bcc email.addr_list).mail_from_addr = email.addr_list.mail_from_addr := rfl
  simp only [email_prepare_payload, hfold, hfrom]

/-! ## Preparation without a To recipient -/

/-- C7, as the code has it. For every session whose registry holds no To-classified record
(Cc and Bcc records may be present), `email_prepare_payload` does not return to its caller:
an `assert` fails and the call is aborted, so no result, error or success, is returned. -/
theorem prepare_payload_aborts_without_to (fmt : Int → List Nat) (now : Int)
    (email : email_sender_context) (esc : Int) (payload : auto_buffer) (ts : Option Int)
    (hto : addrs_of email_address_type.to email.addr_list.recipients = []) :
    (email_prepare_payload fmt now email esc payload ts).1 = Outcome.aborted := by
  have h1 := collect_recipient_fst_of_not_to (auto_buffer_init, auto_buffer_init) _ hto
  have h2 : ¬ ((email.addr_list.recipients.foldl collect_recipient
      (auto_buffer_init, auto_buffer_init)).1.length > 0) := by
    rw [h1]; decide
  by_cases hd : (email_utils_generate_date fmt now 100 ts).2 > 0
  · simp only [email_prepare_payload, hd, not_true_eq_false, if_false, h2, not_false_eq_true,
      if_true]
  · simp only [email_prepare_payload, hd, if_true, not_false_eq_true]

/-- Witness of C7: the session with sender `s@x.com` and the single Cc recipient `c@x.com`
holds no To-classified record, and its preparation is aborted. -/
theorem prepare_payload_aborts_without_to_witness :
    addrs_of email_address_type.to session_cc_only.addr_list.recipients = [] ∧
    (email_prepare_payload example_fmt 0 session_cc_only 0 auto_buffer_init (some 0)).1
      = Outcome.aborted :=
  ⟨by decide, prepare_payload_aborts_without_to example_fmt 0 session_cc_only 0
    auto_buffer_init (some 0) (by decide)⟩

/-- C7, as stated, fails: on the session with sender `s@x.com` and the single Cc recipient
`c@x.com` the registry holds no To-classified record, yet `email_prepare_payload` returns
no value at all to its caller, hence no error result. -/
theorem prepare_payload_returns_no_error :
    addrs_of email_address_type.to session_cc_only.addr_list.recipients = [] ∧
    ¬ ∃ rc : Int, rc ≠ 0 ∧
      (email_prepare_payload example_fmt 0 session_cc_only 0 auto_buffer_init (some 0)).1
        = Outcome.ret rc := by
  refine ⟨by decide, ?_⟩
  rintro ⟨rc, _, h⟩
  have : (email_prepare_payload example_fmt 0 session_cc_only 0 auto_buffer_init (some 0)).1
      = Outcome.aborted := by decide
  rw [this] at h
  exact Outcome.noConfusion h

/-! ## The pull callback -/

theorem on_read_data_zero (size n : Nat) (payload : auto_buffer)
    (h : max_bytes size n = 0 ∨ payload.length = 0) :
    on_read_data size n payload = ([], 0, payload) := by
  unfold max_bytes at h
  unfold on_read_data
  rcases h with h | h
  · simp only [h, if_true]
  · by_cases hc : size * n % 2 ^ SIZE_BITS = 0
    · simp only [hc, if_true]
    · simp only [hc, if_false, h, if_true]

theorem on_read_data_pos (size n : Nat) (payload : auto_buffer)
    (h1 : max_bytes size n ≠ 0) (h2 : payload.length ≠ 0) :
    on_read_data size n payload =
      ((payload.data.drop payload.start_pos).take (min (max_bytes size n) payload.length),
        min (max_bytes size n) payload.length,
        { payload with start_pos := payload.start_pos + min (max_bytes size n) payload.length
                       length := payload.length - min (max_bytes size n) payload.length }) := by
  unfold max_bytes at *
  unfold on_read_data
  simp only [h1, if_false, h2]
  by_cases hc : size * n % 2 ^ SIZE_BITS > payload.length
  · simp only [hc, if_true, Nat.min_eq_right (Nat.le_of_lt hc)]
  · simp only [hc, if_false, Nat.min_eq_left (Nat.le_of_not_gt hc)]

/-- C9. For every well-formed payload buffer (cursor `start_pos`, remaining `length`) and
every request `size`, `n`, with `maxBytes` the product `size * n` taken in `size_t`:
`on_read_data` returns `k = min(maxBytes, remaining)`, copies exactly the `k` bytes at the
cursor, advances the cursor by `k`, reduces the remaining length by `k` and leaves the
storage alone; so `k ≤ maxBytes ≤ size * n`, cursor plus remaining is constant, and the
bytes read end at or before the payload end, inside the storage. -/
theorem on_read_data_pull (size n : Nat) (payload : auto_buffer) (h : payload.wf) :
    (on_read_data size n payload).2.1 = min (max_bytes size n) payload.length ∧
    (on_read_data size n payload).1
      = (payload.data.drop payload.start_pos).take (on_read_data size n payload).2.1 ∧
    (on_read_data size n payload).1 = payload.bytes.take (on_read_data size n payload).2.1 ∧
    (on_read_data size n payload).1.length = (on_read_data size n payload).2.1 ∧
    (on_read_data size n payload).2.2.start_pos
      = payload.start_pos + (on_read_data size n payload).2.1 ∧
    (on_read_data size n payload).2.2.length
      = payload.length - (on_read_data size n payload).2.1 ∧
    (on_read_data size n payload).2.2.data = payload.data ∧
    (on_read_data size n payload).2.1 ≤ max_bytes size n ∧
    max_bytes size n ≤ size * n ∧
    (on_read_data size n payload).2.2.start_pos + (on_read_data size n payload).2.2.length
      = payload.start_pos + payload.length ∧
    payload.start_pos + (on_read_data size n payload).2.1 ≤ payload.start_pos + payload.length ∧
    payload.start_pos + (on_read_data size n payload).2.1 ≤ payload.data.length := by
  unfold auto_buffer.wf at h
  have hm : max_bytes size n ≤ size * n := Nat.mod_le _ _
  by_cases hz : max_bytes size n = 0 ∨ payload.length = 0
  · rw [on_read_data_zero size n payload hz]
    have h0 : min (max_bytes size n) payload.length = 0 := by
      rcases hz with hz | hz <;> simp [hz]
    simp [h0, hm]
    omega
  · have h1 : max_bytes size n ≠ 0 := fun e => hz (Or.inl e)
    have h2 : payload.length ≠ 0 := fun e => hz (Or.inr e)
    rw [on_read_data_pos size n payload h1 h2]
    simp only [auto_buffer.bytes, List.take_take, List.length_take, List.length_drop]
    refine ⟨trivial, trivial, ?_, ?_, trivial, trivial, trivial, ?_, hm, ?_, ?_, ?_⟩
    · congr 1; omega
    all_goals omega

/-- Witness of C9: a pull of at most 4 bytes on a buffer of 8 stored bytes whose cursor is
at 1 with 6 bytes remaining. -/
theorem on_read_data_pull_witness :
    (auto_buffer.wf { data := [1, 2, 3, 4, 5, 6, 7, 8], start_pos := 1, length := 6 }) ∧
    (on_read_data 2 2 { data := [1, 2, 3, 4, 5, 6, 7, 8], start_pos := 1, length := 6 }).2.1
      = min (max_bytes 2 2) 6 :=
  ⟨by decide,
    (on_read_data_pull 2 2 { data := [1, 2, 3, 4, 5, 6, 7, 8], start_pos := 1, length := 6 }
      (by decide)).1⟩

/-- C10, as the code has it. `on_read_data` returns 0 exactly when no bytes remain or the
request `maxBytes` (`size * n` in `size_t`) is 0; a pull that returns 0 copies nothing and
leaves the buffer unchanged; so once no bytes remain every further pull returns 0 with the
state unchanged, and a pull with a non-zero request made while bytes remain never returns
0. -/
theorem on_read_data_returns_zero_iff (size n : Nat) (payload : auto_buffer) :
    ((on_read_data size n payload).2.1 = 0 ↔ (payload.length = 0 ∨ max_bytes size n = 0)) ∧
    ((on_read_data size n payload).2.1 = 0 → on_read_data size n payload = ([], 0, payload)) ∧
    (payload.length = 0 → on_read_data size n payload = ([], 0, payload)) := by
  by_cases hz : max_bytes size n = 0 ∨ payload.length = 0
  · rw [on_read_data_zero size n payload hz]
    simp only [true_iff, implies_true, and_true]
    exact hz.symm
  · have h1 : max_bytes size n ≠ 0 := fun e => hz (Or.inl e)
    have h2 : payload.length ≠ 0 := fun e => hz (Or.inr e)
    rw [on_read_data_pos size n payload h1 h2]
    have hk : min (max_bytes size n) payload.length ≠ 0 := by omega
    refine ⟨⟨fun e => absurd e hk, fun e => ?_⟩, fun e => absurd e hk, fun e => absurd e h2⟩
    rcases e with e | e
    · exact absurd e h2
    · exact absurd e h1

/-- C10, as stated, fails: a pull with `n = 0` on a buffer with one byte remaining returns 0
although the cursor has not reached the end of the payload. -/
theorem on_read_data_zero_while_bytes_remain :
    (on_read_data 1 0 { data := [65], start_pos := 0, length := 1 }).2.1 = 0 ∧
    ({ data := [65], start_pos := 0, length := 1 } : auto_buffer).length ≠ 0 := by
  decide

/-- Witness of C10: a pull on a buffer whose cursor is at the end returns 0 and changes
nothing. -/
theorem on_read_data_returns_zero_iff_witness :
    on_read_data 1 1 { data := [65], start_pos := 1, length := 0 }
      = ([], 0, { data := [65], start_pos := 1, length := 0 }) :=
  (on_read_data_returns_zero_iff 1 1 { data := [65], start_pos := 1, length := 0 }).2.2 rfl

/-! ## Draining a payload -/

theorem on_read_data_bytes_after (size n : Nat) (payload : auto_buffer) :
    (on_read_data size n payload).2.2.bytes
      = payload.bytes.drop (on_read_data size n payload).2.1 := by
  by_cases hz : max_bytes size n = 0 ∨ payload.length = 0
  · rw [on_read_data_zero size n payload hz]; rfl
  · have h1 : max_bytes size n ≠ 0 := fun e => hz (Or.inl e)
    have h2 : payload.length ≠ 0 := fun e => hz (Or.inr e)
    rw [on_read_data_pos size n payload h1 h2]
    simp only [auto_buffer.bytes]
    rw [List.drop_take, List.drop_drop]

/-- C8, as the code has it. For every payload buffer and every sequence of requests whose
`maxBytes` (`size * n` in `size_t`) are all non-zero: when the loop of pulls stops at a pull
that returned 0, the concatenation of the chunks drained is byte for byte the payload that
was queued; and it does stop that way whenever there are more requests than payload
bytes. -/
theorem drain_reconstructs_payload (reqs : List (Nat × Nat)) (payload : auto_buffer)
    (hreq : ∀ r ∈ reqs, max_bytes r.1 r.2 ≠ 0) :
    ((drain reqs payload).2.1 = true → (drain reqs payload).1 = payload.bytes) ∧
    (payload.length < reqs.length → (drain reqs payload).2.1 = true) := by
  induction reqs generalizing payload with
  | nil => exact ⟨fun h => by simp [drain] at h, fun h => by simp at h⟩
  | cons r rest ih =>
    obtain ⟨size, n⟩ := r
    have h1 : max_bytes size n ≠ 0 := hreq (size, n) (by simp)
    have hrest : ∀ r ∈ rest, max_bytes r.1 r.2 ≠ 0 :=
      fun r hr => hreq r (List.mem_cons_of_mem _ hr)
    by_cases h2 : payload.length = 0
    · have hb : payload.bytes = [] := by simp [auto_buffer.bytes, h2]
      simp [drain, on_read_data_zero size n payload (Or.inr h2), hb]
    · have hk : (on_read_data size n payload).2.1 ≠ 0 := by
        rw [on_read_data_pos size n payload h1 h2]
        show min (max_bytes size n) payload.length ≠ 0
        omega
      have hc : (on_read_data size n payload).1
          = payload.bytes.take (on_read_data size n payload).2.1 := by
        rw [on_read_data_pos size n payload h1 h2]
        simp only [auto_buffer.bytes, List.take_take]
        congr 1
        omega
      have hl : (on_read_data size n payload).2.2.length < payload.length := by
        rw [on_read_data_pos size n payload h1 h2]
        show payload.length - min (max_bytes size n) payload.length < payload.length
        omega
      obtain ⟨i1, i2⟩ := ih (on_read_data size n payload).2.2 hrest
      simp only [drain, hk, if_false]
      constructor
      · intro hs
        rw [i1 hs, hc, on_read_data_bytes_after, List.take_append_drop]
      · intro hlen
        apply i2
        simp only [List.length_cons] at hlen
        omega

/-- Witness of C8: a payload of six bytes drained by requests of 3, 2, 8 and 1 bytes. -/
theorem drain_reconstructs_payload_witness :
    (∀ r ∈ [((1 : Nat), (3 : Nat)), (1, 2), (2, 4), (1, 1)], max_bytes r.1 r.2 ≠ 0) ∧
    (drain [(1, 3), (1, 2), (2, 4), (1, 1)]
      { data := [1, 2, 3, 4, 5, 6, 7, 8], start_pos := 1, length := 6 }).1
      = [2, 3, 4, 5, 6, 7] :=
  ⟨by decide,
    (drain_reconstructs_payload [(1, 3), (1, 2), (2, 4), (1, 1)]
      { data := [1, 2, 3, 4, 5, 6, 7, 8], start_pos := 1, length := 6 } (by decide)).1
      (by decide)⟩

/-- C8, as stated, fails: with the request sequence that starts with `n = 0`, the first
pull on a payload of two bytes returns 0, the loop stops, and the chunks drained (none) are
not the payload. -/
theorem drain_zero_request_stops_early :
    (drain [(1, 0), (1, 2)] { data := [104, 105], start_pos := 0, length := 2 }).2.1 = true ∧
    (drain [(1, 0), (1, 2)] { data := [104, 105], start_pos := 0, length := 2 }).1
      ≠ ({ data := [104, 105], start_pos := 0, length := 2 } : auto_buffer).bytes := by
  decide

/-! ## Facts about `strcmp` -/

theorem strcmp_self (a : List Nat) : strcmp a a = 0 := by
  induction a with
  | nil => rfl
  | cons x rest ih => simp [strcmp, ih]

theorem strcmp_eq_zero (a b : List Nat) (ha : is_cstr a) (hb : is_cstr b)
    (h : strcmp a b = 0) : a = b := by
  induction a generalizing b with
  | nil =>
    cases b with
    | nil => rfl
    | cons y rest =>
      have hy : y ≠ 0 := hb y (by simp)
      simp only [strcmp] at h
      omega
  | cons x rest ih =>
    cases b with
    | nil =>
      have hx : x ≠ 0 := ha x (by simp)
      simp only [strcmp] at h
      omega
    | cons y rest2 =>
      simp only [strcmp] at h
      by_cases hxy : x = y
      · subst hxy
        simp only [if_true] at h
        rw [ih rest2 (fun b hb2 => ha b (List.mem_cons_of_mem _ hb2))
          (fun b hb2 => hb b (List.mem_cons_of_mem _ hb2)) h]
      · simp only [hxy, if_false] at h
        omega

theorem strcmp_swap (a b : List Nat) : strcmp b a = - strcmp a b := by
  induction a generalizing b with
  | nil =>
    cases b with
    | nil => simp [strcmp]
    | cons y rest => simp [strcmp]
  | cons x rest ih =>
    cases b with
    | nil => simp [strcmp]
    | cons y rest2 =>
      simp only [strcmp]
      by_cases hxy : x = y
      · subst hxy
        simp only [if_true]
        exact ih rest2
      · have hyx : ¬ y = x := fun e => hxy e.symm
        simp only [hxy, hyx, if_false]
        omega

theorem strcmp_trans (a b c : List Nat) (h1 : strcmp a b < 0) (h2 : strcmp b c < 0) :
    strcmp a c < 0 := by
  induction a generalizing b c with
  | nil =>
    cases b with
    | nil => simp [strcmp] at h1
    | cons y rest =>
      cases c with
      | nil => simp only [strcmp] at h2; omega
      | cons z rest3 =>
        simp only [strcmp] at h1 h2 ⊢
        by_cases hyz : y = z
        · subst hyz; omega
        · simp only [hyz, if_false] at h2; omega
  | cons x rest ih =>
    cases b with
    | nil => simp only [strcmp] at h1; omega
    | cons y rest2 =>
      cases c with
      | nil => simp only [strcmp] at h2; omega
      | cons z rest3 =>
        simp only [strcmp] at h1 h2 ⊢
        by_cases hxy : x = y
        · subst hxy
          simp only [if_true] at h1
          by_cases hxz : x = z
          · subst hxz
            simp only [if_true] at h2 ⊢
            exact ih rest2 rest3 h1 h2
          · simp only [hxz, if_false] at h2 ⊢
            exact h2
        · simp only [hxy, if_false] at h1
          by_cases hyz : y = z
          · subst hyz
            have : ¬ x = y := hxy
            simp only [this, if_false]
            exact h1
          · simp only [hyz, if_false] at h2
            have : ¬ x = z := by omega
            simp only [this, if_false]
            omega

/-! ## Facts about the header table -/

theorem email_header_add_root_nil (n : Nat) (k : List Nat) (v : Option (List Nat)) :
    (email_header_add { root := [], num_items := n } k v).2.root
      = [{ key := k, value := v, cb_value := value_length v }] := by
  cases v <;> rfl

theorem email_header_add_root_cons (y : skey_value_pair) (rest : List skey_value_pair)
    (n : Nat) (k : List Nat) (v : Option (List Nat)) :
    (email_header_add { root := y :: rest, num_items := n } k v).2.root
      = if strcmp k y.key = 0 then { y with value := v, cb_value := value_length v } :: rest
        else if strcmp k y.key < 0 then
          { key := k, value := v, cb_value := value_length v } :: y :: rest
        else y :: (email_header_add { root := rest, num_items := n } k v).2.root := by
  have hv : (match v with | some v => (strlen v : Int) | none => 0) = value_length v := by
    cases v <;> rfl
  simp only [email_header_add, avl_tree_add, skey_value_pair_compare, skey_value_pair_new, hv]
  by_cases h0 : strcmp k y.key = 0
  · simp [h0, skey_value_pair_replace_value, List.modify]
  · by_cases h1 : strcmp k y.key < 0
    · simp [h0, h1]
    · simp only [h0, h1, if_false]
      cases hb : (avl_tree_add skey_value_pair_compare rest
          { key := k, value := v, cb_value := value_length v }).2.1
      · simp [List.modify, hb]
      · simp [hb]

theorem email_header_add_num_items_aux (root : List skey_value_pair) (n : Nat)
    (k : List Nat) (v : Option (List Nat)) :
    (email_header_add { root := root, num_items := n } k v).2.num_items + root.length
      = n + (email_header_add { root := root, num_items := n } k v).2.root.length := by
  have hv : (match v with | some v => (strlen v : Int) | none => 0) = value_length v := by
    cases v <;> rfl
  induction root with
  | nil => cases v <;> simp [email_header_add, avl_tree_add]
  | cons y rest ih =>
    simp only [email_header_add, avl_tree_add, skey_value_pair_compare, skey_value_pair_new,
      hv] at ih ⊢
    by_cases h0 : strcmp k y.key = 0
    · simp [h0]
    · by_cases h1 : strcmp k y.key < 0
      · simp [h0, h1]; omega
      · simp only [h0, h1, if_false]
        cases hb : (avl_tree_add skey_value_pair_compare rest
            { key := k, value := v, cb_value := value_length v }).2.1
        · simp only [hb, if_true] at ih ⊢
          simp only [List.length_modify, List.length_cons] at ih ⊢
          omega
        · simp only [hb] at ih ⊢
          simp only [Bool.true_eq_false, if_false, List.length_cons] at ih ⊢
          omega

theorem email_header_add_num_items (hdr : email_header) (k : List Nat)
    (v : Option (List Nat)) (h : hdr.num_items = hdr.root.length) :
    (email_header_add hdr k v).2.num_items = (email_header_add hdr k v).2.root.length := by
  obtain ⟨root, n⟩ := hdr
  have := email_header_add_num_items_aux root n k v
  simp only at h
  omega

theorem email_header_add_keys (root : List skey_value_pair) (n : Nat) (k : List Nat)
    (v : Option (List Nat)) (hk : is_cstr k) (hroot : ∀ y ∈ root, is_cstr y.key)
    (k2 : List Nat) :
    k2 ∈ (email_header_add { root := root, num_items := n } k v).2.root.map
        (fun kvp => kvp.key)
      ↔ k2 = k ∨ k2 ∈ root.map (fun kvp => kvp.key) := by
  induction root with
  | nil => rw [email_header_add_root_nil]; simp
  | cons y rest ih =>
    have ih2 := ih (fun z hz => hroot z (List.mem_cons_of_mem _ hz))
    rw [email_header_add_root_cons]
    by_cases h0 : strcmp k y.key = 0
    · have hy : k = y.key := strcmp_eq_zero k y.key hk (hroot y (by simp)) h0
      simp only [h0, if_true, List.map_cons, List.mem_cons]
      rw [← hy]
      tauto
    · by_cases h1 : strcmp k y.key < 0
      · simp only [h0, h1, if_false, if_true, List.map_cons, List.mem_cons]
      · simp only [h0, h1, if_false, List.map_cons, List.mem_cons, ih2]
        tauto

theorem email_header_add_sorted (root : List skey_value_pair) (n : Nat) (k : List Nat)
    (v : Option (List Nat)) (hk : is_cstr k) (hroot : ∀ y ∈ root, is_cstr y.key)
    (hs : (root.map (fun kvp => kvp.key)).Pairwise key_lt) :
    ((email_header_add { root := root, num_items := n } k v).2.root.map
      (fun kvp => kvp.key)).Pairwise key_lt := by
  induction root with
  | nil => rw [email_header_add_root_nil]; simp
  | cons y rest ih =>
    have hrest : ∀ z ∈ rest, is_cstr z.key := fun z hz => hroot z (List.mem_cons_of_mem _ hz)
    rw [List.map_cons, List.pairwise_cons] at hs
    have ih2 := ih hrest hs.2
    rw [email_header_add_root_cons]
    by_cases h0 : strcmp k y.key = 0
    · simp only [h0, if_true, List.map_cons, List.pairwise_cons]
      exact hs
    · by_cases h1 : strcmp k y.key < 0
      · simp only [h0, h1, if_false, if_true, List.map_cons, List.pairwise_cons]
        refine ⟨?_, hs⟩
        intro z hz
        rw [List.mem_cons] at hz
        rcases hz with rfl | hz
        · exact h1
        · exact strcmp_trans k y.key z h1 (hs.1 z hz)
      · simp only [h0, h1, if_false, List.map_cons, List.pairwise_cons]
        refine ⟨?_, ih2⟩
        intro z hz
        rw [email_header_add_keys rest n k v hk hrest z] at hz
        rcases hz with rfl | hz
        · show strcmp y.key z < 0
          have := strcmp_swap z y.key
          omega
        · exact hs.1 z hz

theorem email_header_add_stored (root : List skey_value_pair) (n : Nat) (k : List Nat)
    (v : Option (List Nat)) (hk : is_cstr k) (hroot : ∀ y ∈ root, is_cstr y.key)
    (k2 : List Nat) :
    stored_value (email_header_add { root := root, num_items := n } k v).2.root k2
      = if k2 = k then some v else stored_value root k2 := by
  induction root with
  | nil =>
    rw [email_header_add_root_nil]
    by_cases hk2 : k2 = k
    · subst hk2; simp [stored_value]
    · have : ¬ k = k2 := fun e => hk2 e.symm
      simp [stored_value, hk2, this]
  | cons y rest ih =>
    have ih2 := ih (fun z hz => hroot z (List.mem_cons_of_mem _ hz))
    rw [email_header_add_root_cons]
    by_cases h0 : strcmp k y.key = 0
    · have hy : k = y.key := strcmp_eq_zero k y.key hk (hroot y (by simp)) h0
      simp only [h0, if_true]
      by_cases hk2 : k2 = k
      · subst hk2; simp [stored_value, ← hy]
      · have : ¬ y.key = k2 := fun e => hk2 (by rw [hy, e])
        simp [stored_value, hk2, this]
    · have hne : ¬ y.key = k := fun e => h0 (by rw [← e]; exact strcmp_self _)
      by_cases h1 : strcmp k y.key < 0
      · simp only [h0, h1, if_false, if_true]
        by_cases hk2 : k2 = k
        · subst hk2; simp [stored_value]
        · have : ¬ k = k2 := fun e => hk2 e.symm
          simp [stored_value, hk2, this]
      · simp only [h0, h1, if_false]
        by_cases hy2 : y.key = k2
        · have hk2 : ¬ k2 = k := fun e => hne (by rw [hy2, e])
          simp [stored_value, hy2, hk2]
        · have e1 : stored_value (y :: (email_header_add
              { root := rest, num_items := n } k v).2.root) k2
              = stored_value (email_header_add { root := rest, num_items := n } k v).2.root k2 := by
            simp [stored_value, hy2]
          have e2 : stored_value (y :: rest) k2 = stored_value rest k2 := by
            simp [stored_value, hy2]
          rw [e1, e2, ih2]

theorem last_value_cons (op : List Nat × Option (List Nat))
    (ops : List (List Nat × Option (List Nat))) (k : List Nat) :
    last_value (op :: ops) k
      = match last_value ops k with
        | some v => some v
        | none => if op.1 = k then some op.2 else none := by
  unfold last_value
  rw [List.reverse_cons, List.find?_append]
  cases h : ops.reverse.find? (fun op => decide (op.1 = k)) with
  | some x => simp
  | none =>
    by_cases hk : op.1 = k
    · simp [hk]
    · simp [hk]

theorem last_value_eq_none (ops : List (List Nat × Option (List Nat))) (k : List Nat) :
    last_value ops k = none ↔ k ∉ ops.map (fun op => op.1) := by
  unfold last_value
  cases h : ops.reverse.find? (fun op => decide (op.1 = k)) with
  | some x =>
    have h1 := List.find?_some h
    have h2 := List.mem_of_find?_eq_some h
    simp only [decide_eq_true_eq] at h1
    simp only [List.mem_reverse] at h2
    simp only [reduceCtorEq, false_iff, not_not, List.mem_map]
    exact ⟨x, h2, h1⟩
  | none =>
    rw [List.find?_eq_none] at h
    simp only [true_iff, List.mem_map, not_exists, not_and]
    intro x hx hk
    exact h x (List.mem_reverse.mpr hx) (by simpa using hk)

theorem run_header_adds_inv (ops : List (List Nat × Option (List Nat))) (hdr : email_header)
    (hops : ∀ op ∈ ops, is_cstr op.1) (hroot : ∀ y ∈ hdr.root, is_cstr y.key)
    (hn : hdr.num_items = hdr.root.length)
    (hs : (hdr.root.map (fun kvp => kvp.key)).Pairwise key_lt) :
    (run_header_adds hdr ops).num_items = (run_header_adds hdr ops).root.length ∧
    ((run_header_adds hdr ops).root.map (fun kvp => kvp.key)).Pairwise key_lt ∧
    (∀ k, k ∈ (run_header_adds hdr ops).root.map (fun kvp => kvp.key)
      ↔ k ∈ hdr.root.map (fun kvp => kvp.key) ∨ k ∈ ops.map (fun op => op.1)) ∧
    (∀ k, stored_value (run_header_adds hdr ops).root k
      = match last_value ops k with
        | some v => some v
        | none => stored_value hdr.root k) := by
  induction ops generalizing hdr with
  | nil => exact ⟨hn, hs, fun k => by simp [run_header_adds], fun k => rfl⟩
  | cons op rest ih =>
    obtain ⟨k, v⟩ := op
    obtain ⟨root, n⟩ := hdr
    have hk : is_cstr k := hops (k, v) (by simp)
    have hrest : ∀ op ∈ rest, is_cstr op.1 := fun op h => hops op (List.mem_cons_of_mem _ h)
    have k1 := email_header_add_keys root n k v hk hroot
    have k2 := email_header_add_sorted root n k v hk hroot hs
    have k3 := email_header_add_stored root n k v hk hroot
    have k4 := email_header_add_num_items { root := root, num_items := n } k v hn
    have hroot2 : ∀ y ∈ (email_header_add { root := root, num_items := n } k v).2.root,
        is_cstr y.key := by
      intro y hy
      have : y.key ∈ (email_header_add { root := root, num_items := n } k v).2.root.map
          (fun kvp => kvp.key) := List.mem_map_of_mem _ hy
      rw [k1] at this
      rcases this with e | e
      · rw [e]; exact hk
      · obtain ⟨z, hz, e2⟩ := List.mem_map.mp e
        rw [← e2]; exact hroot z hz
    obtain ⟨i1, i2, i3, i4⟩ := ih _ hrest hroot2 k4 k2
    refine ⟨i1, i2, ?_, ?_⟩
    · intro k5
      show k5 ∈ (run_header_adds (email_header_add _ k v).2 rest).root.map _ ↔ _
      rw [i3 k5, k1 k5]
      simp only [List.map_cons, List.mem_cons]
      tauto
    · intro k5
      show stored_value (run_header_adds (email_header_add _ k v).2 rest).root k5 = _
      rw [i4 k5, k3 k5, last_value_cons]
      cases last_value rest k5 with
      | some x => rfl
      | none =>
        by_cases e : k5 = k
        · subst e; simp
        · have : ¬ k = k5 := fun e2 => e e2.symm
          simp [e, this]

theorem to_int_small (n : Nat) (h : n < 2 ^ (INT_BITS - 1)) : to_int n = (n : Int) := by
  have h2 : n % 2 ^ INT_BITS = n := Nat.mod_eq_of_lt (Nat.lt_trans h (by decide))
  unfold to_int
  rw [h2, if_pos h]

theorem email_address_data_set_short (o : Option email_address_data) (t : email_address_type)
    (a : List Nat) (h1 : a ≠ []) (h2 : a.length ≤ EMAIL_ADDRESS_MAX_LENGTH) :
    email_address_data_set o t (addr_pointer.outside a) (-1)
      = Outcome.ret (some (record_of (t, a))) := by
  have hi : to_int (strlen a) = (a.length : Int) :=
    to_int_small _ (lt_of_le_of_lt h2 (by decide))
  have h3 : ¬ ((a.length : Int) = 0 ∨ (a.length : Int) > (EMAIL_ADDRESS_MAX_LENGTH : Int)) := by
    have : a.length ≠ 0 := fun e => h1 (List.length_eq_zero.mp e)
    omega
  have h4 : ¬ ((a.length : Int) < 0) := by omega
  simp only [email_address_data_set, addr_pointer.text, h1, if_false, if_true, hi, h3, h4,
    record_of, Int.toNat_ofNat, List.take_length]

theorem email_address_data_set_valid (o : Option email_address_data) (t : email_address_type)
    (a : List Nat) (h : valid_address a) :
    email_address_data_set o t (addr_pointer.outside a) (-1)
      = Outcome.ret (some (record_of (t, a))) :=
  email_address_data_set_short o t a h.1 h.2.1

theorem map_update_eq_set (entries : List (email_address_type × List Nat))
    (x : email_address_type × List Nat) (a : List Nat) (q : Nat)
    (hnd : (entries.map (fun e => e.2)).Nodup)
    (hq : (entries.map (fun e => e.2))[q]? = some a) :
    entries.map (fun e => if e.2 = a then x else e) = entries.set q x := by
  induction entries generalizing q with
  | nil => simp at hq
  | cons e rest ih =>
    rw [List.map_cons, List.nodup_cons] at hnd
    cases q with
    | zero =>
      simp only [List.map_cons, List.getElem?_cons_zero, Option.some.injEq] at hq
      simp only [List.map_cons, hq, if_true, List.set_cons_zero, List.cons.injEq, true_and]
      have hc : List.map (fun e => if e.2 = a then x else e) rest = List.map id rest := by
        apply List.map_congr_left
        intro e2 hmem
        by_cases he : e2.2 = a
        · exact absurd (List.mem_map.mpr ⟨e2, hmem, he⟩) (hq ▸ hnd.1)
        · simp [he]
      rw [hc, List.map_id]
    | succ q2 =>
      simp only [List.map_cons, List.getElem?_cons_succ] at hq
      have hne : ¬ e.2 = a := by
        intro he
        have : a ∈ rest.map (fun e => e.2) := List.getElem?_mem hq
        exact hnd.1 (he ▸ this)
      simp only [List.map_cons, hne, if_false, List.set_cons_succ, ih q2 hnd.2 hq]

theorem heap_get (entries : List (email_address_type × List Nat))
    (extra : List email_address_data) (q : Nat) (hq : q < entries.length) :
    (entries.map record_of ++ extra).get? q = some (record_of (entries.get ⟨q, hq⟩)) := by
  rw [List.get?_eq_getElem?, List.getElem?_append_left (by simpa using hq), List.getElem?_map,
    List.getElem?_eq_getElem hq]
  rfl

theorem tfind_none (list : email_address_list)
    (entries : List (email_address_type × List Nat)) (extra : List email_address_data)
    (key : List Nat) (hheap : list.heap = entries.map record_of ++ extra)
    (hroot : list.addrs_root = List.range entries.length)
    (hkey : key ∉ entries.map (fun e => e.2)) (hk : is_cstr key)
    (hv : ∀ e ∈ entries, valid_address e.2) :
    tfind key list = none := by
  unfold tfind
  rw [List.find?_eq_none]
  intro q hq
  rw [hroot, List.mem_range] at hq
  rw [hheap, heap_get entries extra q hq]
  simp only [decide_eq_true_eq]
  intro h0
  have hmem : entries.get ⟨q, hq⟩ ∈ entries := List.get_mem _ _ _
  have := strcmp_eq_zero key (entries.get ⟨q, hq⟩).2 hk (hv _ hmem).2.2 h0
  exact hkey (List.mem_map.mpr ⟨_, hmem, this.symm⟩)

theorem tfind_some (list : email_address_list)
    (entries : List (email_address_type × List Nat)) (extra : List email_address_data)
    (key : List Nat) (hheap : list.heap = entries.map record_of ++ extra)
    (hroot : list.addrs_root = List.range entries.length)
    (hkey : key ∈ entries.map (fun e => e.2)) (hk : is_cstr key)
    (hv : ∀ e ∈ entries, valid_address e.2) :
    ∃ q, tfind key list = some q ∧ q < entries.length ∧
      (entries.map (fun e => e.2))[q]? = some key := by
  unfold tfind
  cases hf : list.addrs_root.find? (fun p =>
      match list.heap.get? p with
      | some r => decide (strcmp key r.addr = 0)
      | none => false) with
  | none =>
    exfalso
    rw [List.find?_eq_none] at hf
    obtain ⟨q, hq⟩ := List.mem_iff_getElem?.mp hkey
    obtain ⟨hlt, hget⟩ := List.getElem?_eq_some.mp hq
    have hlt2 : q < entries.length := by simpa using hlt
    apply hf q (by rw [hroot, List.mem_range]; exact hlt2)
    rw [hheap, heap_get entries extra q hlt2]
    simp only [decide_eq_true_eq]
    have : (entries.get ⟨q, hlt2⟩).2 = key := by
      rw [← hget]; simp
    show strcmp key (entries.get ⟨q, hlt2⟩).2 = 0
    rw [this]; exact strcmp_self key
  | some q =>
    have h1 := List.find?_some hf
    have h2 := List.mem_of_find?_eq_some hf
    rw [hroot, List.mem_range] at h2
    rw [hheap, heap_get entries extra q h2] at h1
    simp only [decide_eq_true_eq] at h1
    have hmem : entries.get ⟨q, h2⟩ ∈ entries := List.get_mem _ _ _
    have := strcmp_eq_zero key (entries.get ⟨q, h2⟩).2 hk (hv _ hmem).2.2 h1
    refine ⟨q, rfl, h2, ?_⟩
    rw [List.getElem?_map, List.getElem?_eq_getElem h2, this]
    rfl

theorem email_address_list_resize_spec (list : email_address_list) (k : Nat)
    (hlen : list.recipients_addrs.length = list.max_size) :
    (email_address_list_resize list (k + 1)).2.recipients_addrs
      = list.recipients_addrs ++ List.replicate
        ((email_address_list_resize list (k + 1)).2.max_size - list.max_size) none ∧
    list.max_size ≤ (email_address_list_resize list (k + 1)).2.max_size ∧
    k + 1 ≤ (email_address_list_resize list (k + 1)).2.max_size ∧
    (email_address_list_resize list (k + 1)).2.heap = list.heap ∧
    (email_address_list_resize list (k + 1)).2.addrs_root = list.addrs_root ∧
    (email_address_list_resize list (k + 1)).2.num_recipients = list.num_recipients ∧
    (email_address_list_resize list (k + 1)).2.dup_policy = list.dup_policy ∧
    (email_address_list_resize list (k + 1)).2.mail_from_addr = list.mail_from_addr := by
  have hround : k + 1 ≤ (k + 1 + ADDRESS_LIST_ALLOC_SIZE - 1) / ADDRESS_LIST_ALLOC_SIZE
      * ADDRESS_LIST_ALLOC_SIZE := by
    simp only [ADDRESS_LIST_ALLOC_SIZE]
    omega
  simp only [email_address_list_resize, Nat.succ_ne_zero, if_false]
  by_cases hc : (k + 1 + ADDRESS_LIST_ALLOC_SIZE - 1) / ADDRESS_LIST_ALLOC_SIZE
      * ADDRESS_LIST_ALLOC_SIZE ≤ list.max_size
  · simp only [hc, if_true, Nat.sub_self, List.replicate_zero, List.append_nil, le_refl,
      true_and, and_true]
    omega
  · simp only [hc, if_false, and_true, true_and]
    refine ⟨?_, by omega, hround⟩
    rw [← hlen, List.take_length]

theorem email_address_list_add_duplicate (policy : email_address_duplicates_policy)
    (m : email_address_data) (list : email_address_list)
    (entries : List (email_address_type × List Nat)) (t : email_address_type) (a : List Nat)
    (h : registry_holds policy m list entries) (ha : valid_address a)
    (hmem : a ∈ entries.map (fun e => e.2)) :
    ∃ list2, email_address_list_add list t a = Outcome.ret (1, list2) ∧
      registry_holds policy m list2 (entry_add policy entries (t, a)) := by
  obtain ⟨h1, h2, h3, h4, h5, h6, h7, h8, h9, h10⟩ := h
  have hset := email_address_data_set_valid none t a ha
  have hlen : list.heap.length = entries.length := by rw [h3, List.length_map]
  obtain ⟨q, hq1, hq2, hq3⟩ := tfind_some { list with heap := list.heap ++ [record_of (t, a)] }
    entries [record_of (t, a)] a (by simp [h3]) h4 hmem ha.2.2 h9
  have hts : tsearch list.heap.length { list with heap := list.heap ++ [record_of (t, a)] }
      = (q, { list with heap := list.heap ++ [record_of (t, a)] }) := by
    have ea : (record_of (t, a)).addr = a := rfl
    simp only [tsearch, List.get?_eq_getElem?, List.getElem?_concat_length, ea, hq1]
  have hne : q ≠ list.heap.length := by omega
  have hentry : entry_add policy entries (t, a)
      = if policy = email_address_duplicates_policy.replace_with_latest then
          entries.set q (t, a) else entries := by
    simp only [entry_add, hmem, if_true]
    by_cases hp : policy = email_address_duplicates_policy.replace_with_latest
    · simp only [hp, if_true]
      exact map_update_eq_set entries (t, a) a q h10 hq3
    · simp only [hp, if_false]
  simp only [email_address_list_add, hset, hts, ne_eq, hne, not_false_eq_true, if_true]
  refine ⟨_, rfl, ?_⟩
  rw [hentry, h1]
  by_cases hp : policy = email_address_duplicates_policy.replace_with_latest
  · simp only [hp, if_true]
    have hkeys : (entries.set q (t, a)).map (fun e => e.2) = entries.map (fun e => e.2) := by
      rw [List.map_set]
      apply List.ext_getElem?
      intro i
      by_cases hi : q = i
      · subst hi
        rw [List.getElem?_set_self (by simpa using hq2), hq3]
      · rw [List.getElem?_set_ne hi]
    refine ⟨rfl, h2, ?_, ?_, ?_, h6, ?_, ?_, ?_, ?_⟩
    · show ((list.heap ++ [record_of (t, a)]).set q (record_of (t, a))).take list.heap.length
        = (entries.set q (t, a)).map record_of
      rw [List.set_append_left _ _ (by omega), List.take_left' (by simp), h3, List.map_set]
    · simpa using h4
    · simpa using h5
    · simpa using h7
    · simpa using h8
    · intro e he
      rcases List.mem_or_eq_of_mem_set he with he | he
      · exact h9 e he
      · rw [he]; exact ha
    · rw [hkeys]; exact h10
  · simp only [hp, if_false]
    refine ⟨rfl, h2, ?_, h4, h5, h6, h7, h8, h9, h10⟩
    show (list.heap ++ [record_of (t, a)]).take list.heap.length = entries.map record_of
    rw [List.take_left, h3]

theorem array_push (arr pad : List (Option Nat)) (n : Nat)
    (h8 : arr.take n = (List.range n).map some) (hn : n < (arr ++ pad).length)
    (hn2 : n ≤ arr.length) :
    ((arr ++ pad).set n (some n)).take (n + 1) = (List.range (n + 1)).map some := by
  rw [List.take_succ, List.getElem?_set_self (by simpa using hn)]
  have e : ((arr ++ pad).set n (some n)).take n = (arr ++ pad).take n := by
    apply List.ext_getElem?
    intro i
    by_cases hi : i < n
    · rw [List.getElem?_take_of_lt hi, List.getElem?_take_of_lt hi,
        List.getElem?_set_ne (by omega)]
    · rw [List.getElem?_eq_none (by simp; omega), List.getElem?_eq_none (by simp; omega)]
  rw [e, List.take_append_of_le_length hn2, h8, List.range_succ, List.map_append]
  rfl

theorem email_address_list_add_new (policy : email_address_duplicates_policy)
    (m : email_address_data) (list : email_address_list)
    (entries : List (email_address_type × List Nat)) (t : email_address_type) (a : List Nat)
    (h : registry_holds policy m list entries) (ha : valid_address a)
    (hmem : a ∉ entries.map (fun e => e.2)) :
    ∃ list2, email_address_list_add list t a = Outcome.ret (0, list2) ∧
      registry_holds policy m list2 (entry_add policy entries (t, a)) := by
  obtain ⟨h1, h2, h3, h4, h5, h6, h7, h8, h9, h10⟩ := h
  have hset := email_address_data_set_valid none t a ha
  have hlen : list.heap.length = entries.length := by rw [h3, List.length_map]
  have hnone := tfind_none { list with heap := list.heap ++ [record_of (t, a)] }
    entries [record_of (t, a)] a (by simp [h3]) h4 hmem ha.2.2 h9
  have hts : tsearch list.heap.length { list with heap := list.heap ++ [record_of (t, a)] }
      = (list.heap.length, { list with heap := list.heap ++ [record_of (t, a)],
                                       addrs_root := list.addrs_root ++ [list.heap.length] }) := by
    have ea : (record_of (t, a)).addr = a := rfl
    simp only [tsearch, List.get?_eq_getElem?, List.getElem?_concat_length, ea, hnone]
  have hentry : entry_add policy entries (t, a) = entries ++ [(t, a)] := by
    simp only [entry_add, hmem, if_false]
  obtain ⟨r1, r2, r3, r4, r5, r6, r7, r8⟩ := email_address_list_resize_spec
    { list with heap := list.heap ++ [record_of (t, a)],
                addrs_root := list.addrs_root ++ [list.heap.length] }
    list.num_recipients h6
  simp only [email_address_list_add, hset, hts, ne_eq, not_true_eq_false, if_false]
  refine ⟨_, rfl, ?_⟩
  rw [hentry]
  simp only at r1 r2 r3 r4 r5 r6 r7 r8
  generalize (email_address_list_resize
    { list with heap := list.heap ++ [record_of (t, a)],
                addrs_root := list.addrs_root ++ [list.heap.length] }
    (list.num_recipients + 1)).2 = R at r1 r2 r3 r4 r5 r6 r7 r8 ⊢
  have hR : R.recipients_addrs.length = R.max_size := by
    rw [r1, List.length_append, List.length_replicate, h6]; omega
  refine ⟨by rw [← h1]; exact r7, by rw [← h2]; exact r8, ?_, ?_, ?_, ?_, ?_, ?_, ?_, ?_⟩
  · show R.heap = _
    rw [r4, h3, List.map_append]; rfl
  · show R.addrs_root = _
    rw [r5, h4, hlen, List.length_append, List.length_singleton, List.range_succ]
  · show R.num_recipients + 1 = _
    rw [r6, List.length_append, List.length_singleton, h5]
  · show (R.recipients_addrs.set _ _).length = _
    rw [List.length_set, hR]
  · show (entries ++ [(t, a)]).length ≤ R.max_size
    rw [List.length_append, List.length_singleton, ← h5]
    exact r3
  · show (R.recipients_addrs.set R.num_recipients (some list.heap.length)).take _ = _
    rw [r6, h5, hlen, List.length_append, List.length_singleton, r1]
    apply array_push _ _ _ h8
    · rw [← r1, hR]; omega
    · rw [h6]; exact h7
  · intro e he
    rw [List.mem_append, List.mem_singleton] at he
    rcases he with he | he
    · exact h9 e he
    · rw [he]; exact ha
  · rw [List.map_append, List.nodup_append]
    refine ⟨h10, by simp, ?_⟩
    intro x hx1 hx2
    simp only [List.map_cons, List.map_nil, List.mem_singleton] at hx2
    rw [hx2] at hx1
    exact hmem hx1

theorem registry_start_holds (policy : email_address_duplicates_policy)
    (m : email_address_data) : registry_holds policy m (registry_start policy m) [] := by
  refine ⟨rfl, rfl, rfl, rfl, rfl, ?_, ?_, rfl, ?_, ?_⟩
  · show (List.replicate 128 (none : Option Nat)).length = 128
    exact List.length_replicate _ _
  · exact Nat.zero_le _
  · intro e he; simp at he
  · simp

theorem run_adds_refines (policy : email_address_duplicates_policy) (m : email_address_data)
    (ops : List (email_address_type × List Nat)) (list : email_address_list)
    (entries : List (email_address_type × List Nat))
    (h : registry_holds policy m list entries) (hops : ∀ op ∈ ops, valid_address op.2) :
    ∃ list2, run_adds list ops = Outcome.ret list2 ∧
      registry_holds policy m list2 (ops.foldl (entry_add policy) entries) := by
  induction ops generalizing list entries with
  | nil => exact ⟨list, rfl, h⟩
  | cons op rest ih =>
    obtain ⟨t, a⟩ := op
    have ha : valid_address a := hops (t, a) (by simp)
    have hrest : ∀ op ∈ rest, valid_address op.2 :=
      fun op hop => hops op (List.mem_cons_of_mem _ hop)
    by_cases hmem : a ∈ entries.map (fun e => e.2)
    · obtain ⟨l2, e1, e2⟩ := email_address_list_add_duplicate policy m list entries t a h ha hmem
      obtain ⟨l3, e3, e4⟩ := ih l2 _ e2 hrest
      exact ⟨l3, by simp only [run_adds, e1, e3], e4⟩
    · obtain ⟨l2, e1, e2⟩ := email_address_list_add_new policy m list entries t a h ha hmem
      obtain ⟨l3, e3, e4⟩ := ih l2 _ e2 hrest
      exact ⟨l3, by simp only [run_adds, e1, e3], e4⟩

theorem range_map_getElem? {α : Type} (l : List α) :
    (List.range l.length).map (fun i => l[i]?) = l.map some := by
  apply List.ext_getElem?
  intro i
  by_cases hi : i < l.length
  · rw [List.getElem?_map, List.getElem?_range hi, List.getElem?_map,
      List.getElem?_eq_getElem hi]
    simp [List.getElem?_eq_getElem hi]
  · rw [List.getElem?_eq_none (by simp; omega), List.getElem?_eq_none (by simp; omega)]

theorem registry_holds_recipients (policy : email_address_duplicates_policy)
    (m : email_address_data) (list : email_address_list)
    (entries : List (email_address_type × List Nat))
    (h : registry_holds policy m list entries) :
    list.recipients = entries.map (fun e => some (record_of e)) := by
  obtain ⟨h1, h2, h3, h4, h5, h6, h7, h8, h9, h10⟩ := h
  unfold email_address_list.recipients
  rw [h5, h8, List.map_map]
  have : ((fun slot : Option Nat => slot.bind (fun p => list.heap.get? p)) ∘ some)
      = fun i => list.heap[i]? := by
    funext i; simp
  rw [this]
  have hl : entries.length = list.heap.length := by rw [h3, List.length_map]
  rw [hl, range_map_getElem?, h3, List.map_map]
  rfl

theorem addrs_of_entries (t : email_address_type)
    (entries : List (email_address_type × List Nat)) :
    addrs_of t (entries.map (fun e => some (record_of e)))
      = (entries.filter (fun e => decide (e.1 = t))).map (fun e => e.2) := by
  induction entries with
  | nil => rfl
  | cons e rest ih =>
    by_cases he : e.1 = t
    · have : (record_of e).type = t := he
      rw [List.map_cons, List.filter_cons_of_pos (by simpa using he), List.map_cons]
      simp only [addrs_of, this, if_true, ih]
      rfl
    · have : ¬ (record_of e).type = t := he
      rw [List.map_cons, List.filter_cons_of_neg (by simpa using he)]
      simp only [addrs_of, this, if_false, ih]

/-! ## The registry of the specification, declaratively -/

theorem mem_first_seen (l : List (List Nat)) (a : List Nat) : a ∈ first_seen l ↔ a ∈ l := by
  induction l with
  | nil => simp [first_seen]
  | cons b rest ih =>
    simp only [first_seen, List.mem_cons, List.mem_filter, decide_eq_true_eq, ih]
    by_cases e : a = b
    · simp [e]
    · simp [e]

theorem first_seen_snoc (l : List (List Nat)) (a : List Nat) :
    first_seen (l ++ [a]) = if a ∈ l then first_seen l else first_seen l ++ [a] := by
  induction l with
  | nil => simp [first_seen]
  | cons b rest ih =>
    show first_seen (b :: (rest ++ [a])) = _
    rw [first_seen, ih]
    by_cases e : a = b
    · subst e
      by_cases hm : a ∈ rest
      · simp [hm, first_seen]
      · simp [hm, first_seen]
    · have e2 : ¬ b = a := fun h => e h.symm
      by_cases hm : a ∈ rest
      · simp [hm, e, first_seen]
      · simp [hm, e, e2, first_seen]

theorem entry_add_keys (policy : email_address_duplicates_policy)
    (entries : List (email_address_type × List Nat)) (op : email_address_type × List Nat) :
    (entry_add policy entries op).map (fun e => e.2)
      = if op.2 ∈ entries.map (fun e => e.2) then entries.map (fun e => e.2)
        else entries.map (fun e => e.2) ++ [op.2] := by
  unfold entry_add
  by_cases hm : op.2 ∈ entries.map (fun e => e.2)
  · simp only [hm, if_true]
    by_cases hp : policy = email_address_duplicates_policy.replace_with_latest
    · simp only [hp, if_true, List.map_map]
      apply List.map_congr_left
      intro e _
      by_cases he : e.2 = op.2
      · simp [he]
      · simp [he]
    · simp only [hp, if_false]
  · simp only [hm, if_false, List.map_append, List.map_cons, List.map_nil]

theorem entries_after_snoc (policy : email_address_duplicates_policy)
    (ops : List (email_address_type × List Nat)) (op : email_address_type × List Nat) :
    entries_after policy (ops ++ [op]) = entry_add policy (entries_after policy ops) op := by
  simp [entries_after, List.foldl_append]

theorem entries_after_keys (policy : email_address_duplicates_policy)
    (ops : List (email_address_type × List Nat)) :
    (entries_after policy ops).map (fun e => e.2) = first_seen (ops.map (fun op => op.2)) := by
  induction ops using List.reverseRecOn with
  | nil => rfl
  | append_singleton rest op ih =>
    rw [entries_after_snoc, entry_add_keys, ih, List.map_append, List.map_cons, List.map_nil,
      first_seen_snoc]
    simp only [mem_first_seen]

theorem current_type_snoc (policy : email_address_duplicates_policy)
    (ops : List (email_address_type × List Nat)) (op : email_address_type × List Nat)
    (a : List Nat) :
    current_type policy (ops ++ [op]) a
      = match policy with
        | email_address_duplicates_policy.discard =>
          if a ∈ ops.map (fun o => o.2) then current_type policy ops a
          else if op.2 = a then some op.1 else none
        | email_address_duplicates_policy.replace_with_latest =>
          if op.2 = a then some op.1 else current_type policy ops a := by
  cases policy with
  | discard =>
    simp only [current_type, List.find?_append]
    by_cases hm : a ∈ ops.map (fun o => o.2)
    · simp only [hm, if_true]
      cases hf : ops.find? (fun o => decide (o.2 = a)) with
      | some x => simp
      | none =>
        exfalso
        rw [List.find?_eq_none] at hf
        obtain ⟨o, ho, e⟩ := List.mem_map.mp hm
        exact hf o ho (by simpa using e)
    · simp only [hm, if_false]
      have hf : ops.find? (fun o => decide (o.2 = a)) = none := by
        rw [List.find?_eq_none]
        intro o ho e
        exact hm (List.mem_map.mpr ⟨o, ho, by simpa using e⟩)
      rw [hf]
      by_cases e : op.2 = a
      · simp [e]
      · simp [e]
  | replace_with_latest =>
    simp only [current_type, List.reverse_append, List.reverse_cons, List.reverse_nil,
      List.nil_append, List.singleton_append]
    by_cases e : op.2 = a
    · simp [e]
    · simp [e]

theorem entries_after_types (policy : email_address_duplicates_policy)
    (ops : List (email_address_type × List Nat)) :
    ∀ e ∈ entries_after policy ops, current_type policy ops e.2 = some e.1 := by
  induction ops using List.reverseRecOn with
  | nil => intro e he; simp [entries_after] at he
  | append_singleton rest op ih =>
    intro e he
    have hkeys := entries_after_keys policy rest
    have hmemk : ∀ a, a ∈ (entries_after policy rest).map (fun e => e.2)
        ↔ a ∈ rest.map (fun o => o.2) := by
      intro a; rw [hkeys, mem_first_seen]
    rw [entries_after_snoc] at he
    rw [current_type_snoc]
    unfold entry_add at he
    by_cases hm : op.2 ∈ (entries_after policy rest).map (fun e => e.2)
    · simp only [hm, if_true] at he
      cases policy with
      | discard =>
        simp only [reduceCtorEq, if_false] at he
        have h2 : e.2 ∈ rest.map (fun o => o.2) :=
          (hmemk e.2).mp (List.mem_map.mpr ⟨e, he, rfl⟩)
        simp only [h2, if_true]
        exact ih e he
      | replace_with_latest =>
        simp only [if_true, List.mem_map] at he
        obtain ⟨e0, he0, heq⟩ := he
        by_cases hk : e0.2 = op.2
        · simp only [hk, if_true] at heq
          subst heq
          simp
        · simp only [hk, if_false] at heq
          subst heq
          have : ¬ op.2 = e0.2 := fun h => hk h.symm
          simp only [this, if_false]
          exact ih e0 he0
    · simp only [hm, if_false, List.mem_append, List.mem_singleton] at he
      have hm2 : op.2 ∉ rest.map (fun o => o.2) := fun h => hm ((hmemk op.2).mpr h)
      rcases he with he | he
      · have h2 : e.2 ∈ rest.map (fun o => o.2) :=
          (hmemk e.2).mp (List.mem_map.mpr ⟨e, he, rfl⟩)
        have hne : ¬ op.2 = e.2 := fun h => hm2 (h ▸ h2)
        cases policy with
        | discard => simp only [h2, if_true]; exact ih e he
        | replace_with_latest => simp only [hne, if_false]; exact ih e he
      · subst he
        cases policy with
        | discard => simp only [hm2, if_false, if_true]
        | replace_with_latest => simp only [if_true]

theorem entries_after_to (policy : email_address_duplicates_policy)
    (ops : List (email_address_type × List Nat)) :
    ((entries_after policy ops).filter (fun e => decide (e.1 = email_address_type.to))).map
        (fun e => e.2)
      = spec_to_addrs policy ops := by
  unfold spec_to_addrs
  rw [← entries_after_keys policy ops, List.filter_map]
  congr 1
  apply List.filter_congr
  intro e he
  have := entries_after_types policy ops e he
  simp only [Function.comp, this, Option.some.injEq]

/-- C3. For every duplicate policy and every sequence of `add` calls with valid addresses
(any mix of classifications) on an initialised registry: the calls all return, and in the
payload then prepared the line after the Date and From lines is `To: `, the raw addresses of
exactly the records currently classified To (classified by their first add under the
discard policy, by their latest add under replace-with-latest) joined by `", "` in the order
of first insertion, and CRLF. The preparation returns 0 when at least one record is
classified To. -/
theorem to_line_in_first_insertion_order (policy : email_address_duplicates_policy)
    (m : email_address_data) (ops : List (email_address_type × List Nat))
    (fmt : Int → List Nat) (now : Int) (email : email_sender_context) (esc : Int)
    (payload : auto_buffer) (ts : Option Int)
    (hm : m.addr.length ≤ EMAIL_ADDRESS_MAX_LENGTH)
    (hops : ∀ op ∈ ops, valid_address op.2)
    (hd : 0 < (email_utils_generate_date fmt now 100 ts).2)
    (hto : spec_to_addrs policy ops ≠ []) :
    ∃ list, run_adds (registry_start policy m) ops = Outcome.ret list ∧
      (email_prepare_payload fmt now { email with addr_list := list } esc payload ts).1
        = Outcome.ret 0 ∧
      ∃ rest, (email_prepare_payload fmt now { email with addr_list := list } esc payload
          ts).2.bytes
        = ascii "Date: " ++ (email_utils_generate_date fmt now 100 ts).1 ++ CRLF
          ++ (ascii "From: " ++ m.addr ++ CRLF)
          ++ (ascii "To: " ++ join_addrs (spec_to_addrs policy ops) ++ CRLF)
          ++ rest := by
  obtain ⟨list, hrun, hold⟩ := run_adds_refines policy m ops (registry_start policy m) []
    (registry_start_holds policy m) hops
  have hrec := registry_holds_recipients policy m list _ hold
  have hfrom : list.mail_from_addr = m := hold.2.1
  have hvalid : ∀ e ∈ ops.foldl (entry_add policy) [], valid_address e.2 := hold.2.2.2.2.2.2.2.2.1
  have haddrs : addrs_of email_address_type.to list.recipients = spec_to_addrs policy ops := by
    rw [hrec, addrs_of_entries]
    exact entries_after_to policy ops
  have hr : ∀ r, some r ∈ list.recipients →
      r.addr ≠ [] ∧ r.addr.length ≤ EMAIL_ADDRESS_MAX_LENGTH := by
    intro r hr
    rw [hrec, List.mem_map] at hr
    obtain ⟨e, he, heq⟩ := hr
    have hv := hvalid e he
    have : r = record_of e := by simpa using heq.symm
    rw [this]
    exact ⟨hv.1, hv.2.1⟩
  obtain ⟨p1, _, _, p4⟩ := prepare_payload_returns fmt now { email with addr_list := list } esc
    payload ts hd (by rw [hfrom]; exact hm) hr (by rw [haddrs]; exact hto)
  refine ⟨list, hrun, p1, ?_⟩
  rw [p4]
  simp only [hfrom, haddrs, List.append_assoc]
  exact ⟨_, rfl⟩

/-- Witness of C3: under replace-with-latest, the adds To `a@x.com`, Cc `c@x.com`,
Bcc `b@x.com`, To `c@x.com`, Bcc `a@x.com`, To `d@x.com` leave `c@x.com` and `d@x.com`
classified To, in that order. -/
theorem to_line_in_first_insertion_order_witness :
    spec_to_addrs email_address_duplicates_policy.replace_with_latest
      [(email_address_type.to, ascii "a@x.com"), (email_address_type.cc, ascii "c@x.com"),
        (email_address_type.bcc, ascii "b@x.com"), (email_address_type.to, ascii "c@x.com"),
        (email_address_type.bcc, ascii "a@x.com"), (email_address_type.to, ascii "d@x.com")]
      = [ascii "c@x.com", ascii "d@x.com"] ∧
    ∃ list, run_adds (registry_start email_address_duplicates_policy.replace_with_latest
        session_sender.addr_list.mail_from_addr)
        [(email_address_type.to, ascii "a@x.com"), (email_address_type.cc, ascii "c@x.com"),
          (email_address_type.bcc, ascii "b@x.com"), (email_address_type.to, ascii "c@x.com"),
          (email_address_type.bcc, ascii "a@x.com"), (email_address_type.to, ascii "d@x.com")]
        = Outcome.ret list ∧
      (email_prepare_payload example_fmt 0 { session_basic with addr_list := list } 1
        auto_buffer_init (some 0)).1 = Outcome.ret 0 :=
  ⟨by decide,
    (to_line_in_first_insertion_order email_address_duplicates_policy.replace_with_latest
      session_sender.addr_list.mail_from_addr
      [(email_address_type.to, ascii "a@x.com"), (email_address_type.cc, ascii "c@x.com"),
        (email_address_type.bcc, ascii "b@x.com"), (email_address_type.to, ascii "c@x.com"),
        (email_address_type.bcc, ascii "a@x.com"), (email_address_type.to, ascii "d@x.com")]
      example_fmt 0 session_basic 1 auto_buffer_init (some 0)
      (by decide) (by decide) (by decide) (by decide)).imp (fun _ h => ⟨h.1, h.2.1⟩)⟩

/-! ## Dot escaping -/

theorem strchr_dot_none (l : List Nat) (hl : is_cstr l) (h : strchr l DOT = none) :
    double_dots l = l := by
  induction l with
  | nil => rfl
  | cons b rest ih =>
    have hb : b ≠ 0 := hl b (by simp)
    have hrest : is_cstr rest := fun x hx => hl x (List.mem_cons_of_mem _ hx)
    simp only [strchr] at h
    by_cases e : b = DOT
    · simp [e] at h
    · simp only [e, if_false, hb, Option.map_eq_none'] at h
      simp only [double_dots, e, if_false, ih hrest h]

theorem strchr_dot_some (l : List Nat) (hl : is_cstr l) (k : Nat)
    (h : strchr l DOT = some k) :
    k < l.length ∧ double_dots l = l.take k ++ ascii ".." ++ double_dots (l.drop (k + 1)) := by
  induction l generalizing k with
  | nil => simp [strchr, DOT] at h
  | cons b rest ih =>
    have hb : b ≠ 0 := hl b (by simp)
    have hrest : is_cstr rest := fun x hx => hl x (List.mem_cons_of_mem _ hx)
    simp only [strchr] at h
    by_cases e : b = DOT
    · simp only [e, if_true, Option.some.injEq] at h
      subst h
      simp only [double_dots, e, if_true]
      exact ⟨by simp, rfl⟩
    · simp only [e, if_false, hb, Option.map_eq_some'] at h
      obtain ⟨k2, hk2, rfl⟩ := h
      obtain ⟨i1, i2⟩ := ih hrest k2 hk2
      refine ⟨by simpa using i1, ?_⟩
      simp only [double_dots, e, if_false, i2, List.take_succ_cons, List.drop_succ_cons,
        List.cons_append]

theorem escape_dot_loop_cstr (b : List Nat) (hb : is_cstr b) (fuel p : Nat)
    (payload : auto_buffer) (hw : payload.wf) (hp : p ≤ b.length) (hf : b.length - p ≤ fuel) :
    appended payload
      (if (escape_dot_loop b b.length fuel p (strchr_at b p DOT) payload).1 < b.length then
        auto_buffer_push (escape_dot_loop b b.length fuel p (strchr_at b p DOT) payload).2
          ((b.drop (escape_dot_loop b b.length fuel p (strchr_at b p DOT) payload).1).take
            (b.length - (escape_dot_loop b b.length fuel p (strchr_at b p DOT) payload).1))
       else (escape_dot_loop b b.length fuel p (strchr_at b p DOT) payload).2)
      (double_dots (b.drop p)) := by
  have hdrop : is_cstr (b.drop p) := fun x hx => hb x (List.mem_of_mem_drop hx)
  induction fuel generalizing p payload with
  | zero =>
    have e : p = b.length := by omega
    subst e
    simp only [escape_dot_loop, Nat.lt_irrefl, if_false, List.drop_length]
    exact appended_refl payload hw
  | succ n ih =>
    cases hs : strchr (b.drop p) DOT with
    | none =>
      have hd := strchr_dot_none _ hdrop hs
      have hsa : strchr_at b p DOT = none := by simp only [strchr_at, hs, Option.map_none']
      rw [hsa]
      simp only [escape_dot_loop]
      by_cases hlt : p < b.length
      · simp only [hlt, if_true]
        have := appended_push _ _ _ ((b.drop p).take (b.length - p)) (appended_refl payload hw)
        rw [List.take_of_length_le (by simp), List.nil_append] at this
        rw [List.take_of_length_le (by simp), hd]
        exact this
      · simp only [hlt, if_false]
        have e : p = b.length := by omega
        subst e
        simpa [double_dots] using appended_refl payload hw
    | some k =>
      obtain ⟨hk, hd⟩ := strchr_dot_some _ hdrop k hs
      have hk2 : k < b.length - p := by simpa using hk
      have hlt : p < b.length := by omega
      have hsa : strchr_at b p DOT = some (p + k) := by
        simp only [strchr_at, hs, Option.map_some']
      rw [hsa]
      simp only [escape_dot_loop, hlt, if_true]
      have a1 := appended_push _ _ _ ((b.drop p).take (p + k - p)) (appended_refl payload hw)
      have a2 := appended_push _ _ _ (ascii "..") a1
      have i := ih (p + k + 1) _ a2.1 (by omega) (by omega)
        (fun x hx => hb x (List.mem_of_mem_drop hx))
      have t := appended_trans _ _ _ _ _ a2 i
      have e1 : p + k - p = k := by omega
      have e2 : (b.drop p).drop (k + 1) = b.drop (p + k + 1) := by
        rw [List.drop_drop]; rfl
      rw [hd, e2]
      rw [List.nil_append, e1] at t
      rw [e1]
      exact t

theorem body_out_verbatim (body : auto_buffer) : body_out body 0 = body.data.take body.length := by
  unfold body_out append_body
  by_cases hl : body.length > 0
  · simp only [hl, if_true, ne_eq, not_true_eq_false, if_false, Nat.zero_add, Nat.sub_zero,
      List.drop_zero]
    have := appended_push _ _ _ (body.data.take body.length)
      (appended_refl auto_buffer_init (by decide))
    rw [this.2.2]
    rfl
  · have : body.length = 0 := by omega
    simp [this, auto_buffer.bytes, auto_buffer_init]

theorem body_out_text (body : auto_buffer) (esc : Int) (hesc : esc ≠ 0)
    (hex : body.data.length = body.length) (hc : is_cstr body.data) :
    body_out body esc = double_dots body.data := by
  unfold body_out append_body
  by_cases hl : body.length > 0
  · simp only [hl, if_true, ne_eq, hesc, not_false_eq_true, Nat.zero_add]
    have := escape_dot_loop_cstr body.data hc body.data.length 0 auto_buffer_init (by decide)
      (Nat.zero_le _) (by omega)
    rw [hex] at this
    rw [this.2.2]
    rfl
  · have h0 : body.length = 0 := by omega
    have hd : body.data = [] := List.length_eq_zero.mp (by omega)
    simp [h0, hd, auto_buffer.bytes, auto_buffer_init, double_dots]

/-- The payload of a session without Cc recipient whose body is text (no NUL byte) or is
not escaped: the Date, From and To lines, the header lines, the blank line and the body,
with every `.` doubled when `escape_dot_char` is not 0. -/
theorem prepare_payload_text_body (fmt : Int → List Nat) (now : Int)
    (email : email_sender_context) (esc : Int) (payload : auto_buffer) (ts : Option Int)
    (hd : 0 < (email_utils_generate_date fmt now 100 ts).2)
    (hs : email.addr_list.mail_from_addr.addr.length ≤ EMAIL_ADDRESS_MAX_LENGTH)
    (hr : ∀ r, some r ∈ email.addr_list.recipients →
      r.addr ≠ [] ∧ r.addr.length ≤ EMAIL_ADDRESS_MAX_LENGTH)
    (hto : addrs_of email_address_type.to email.addr_list.recipients ≠ [])
    (hcc : addrs_of email_address_type.cc email.addr_list.recipients = [])
    (hex : email.body.data.length = email.body.length)
    (hc : is_cstr email.body.data ∨ esc = 0) :
    (email_prepare_payload fmt now email esc payload ts).1 = Outcome.ret 0 ∧
    (email_prepare_payload fmt now email esc payload ts).2.bytes
      = ascii "Date: " ++ (email_utils_generate_date fmt now 100 ts).1 ++ CRLF
        ++ (ascii "From: " ++ email.addr_list.mail_from_addr.addr ++ CRLF)
        ++ (ascii "To: " ++ join_addrs (addrs_of email_address_type.to email.addr_list.recipients)
            ++ CRLF)
        ++ header_lines email.hdr.root ++ CRLF
        ++ (if esc ≠ 0 then double_dots email.body.data else email.body.data) := by
  obtain ⟨p1, _, _, p4⟩ := prepare_payload_returns fmt now email esc payload ts hd hs hr hto
  refine ⟨p1, ?_⟩
  rw [p4, if_pos hcc, List.append_nil]
  congr 1
  by_cases he : esc = 0
  · subst he
    rw [body_out_verbatim, ← hex, List.take_length]
    simp
  · rcases hc with hc | hc
    · rw [body_out_text _ _ he hex hc, if_pos he]
    · exact absurd hc he

/-! ## Evaluations of the serializer -/

/-- The example of the specification: To `a@x.com`, sender `s@x.com`, header `X-Test: 1`,
body `hi.there` and `escape_dot_char = 1` give the Date, From, To and `X-Test` lines, the
blank line and `hi..there`. -/
theorem prepare_payload_basic :
    email_prepare_payload example_fmt 0 session_basic 1 auto_buffer_init (some 0)
      = (Outcome.ret 0,
          { data := ascii ("Date: Thu, 01 Jan 1970 00:00:00 +0000\r\nFrom: s@x.com\r\n"
              ++ "To: a@x.com\r\nX-Test: 1\r\n\r\nhi..there")
            start_pos := 0
            length := 89 }) := by
  decide

/-- C1 evaluated at a body holding a NUL byte: with To `a@x.com`, no Cc, sender `s@x.com`,
header `X-Test: 1`, the nine-byte body `hi`, NUL, `.there` and `escape_dot_char = 1`, the
payload ends with the body verbatim; the `.` after the NUL is not doubled, so the payload is
not the one with every `.` of the body doubled. -/
theorem prepare_payload_nul_body_not_escaped :
    addrs_of email_address_type.cc session_nul_body.addr_list.recipients = [] ∧
    session_nul_body.body.bytes = ascii "hi" ++ [0] ++ ascii ".there" ∧
    (email_prepare_payload example_fmt 0 session_nul_body 1 auto_buffer_init (some 0)).1
      = Outcome.ret 0 ∧
    (email_prepare_payload example_fmt 0 session_nul_body 1 auto_buffer_init (some 0)).2.bytes
      = ascii ("Date: Thu, 01 Jan 1970 00:00:00 +0000\r\nFrom: s@x.com\r\n"
          ++ "To: a@x.com\r\nX-Test: 1\r\n\r\n") ++ (ascii "hi" ++ [0] ++ ascii ".there") ∧
    (email_prepare_payload example_fmt 0 session_nul_body 1 auto_buffer_init (some 0)).2.bytes
      ≠ ascii ("Date: Thu, 01 Jan 1970 00:00:00 +0000\r\nFrom: s@x.com\r\n"
          ++ "To: a@x.com\r\nX-Test: 1\r\n\r\n")
        ++ double_dots (ascii "hi" ++ [0] ++ ascii ".there") := by
  decide

/-- C2 evaluated at To `a@x.com`, Cc `c@x.com`, Bcc `b@x.com`: the line after the To line
is `Cc: a@x.com`, the To addresses again, and the Cc-classified address `c@x.com` is
nowhere in the payload. -/
theorem prepare_payload_cc_line_repeats_to :
    addrs_of email_address_type.to session_to_cc_bcc.addr_list.recipients = [ascii "a@x.com"] ∧
    addrs_of email_address_type.cc session_to_cc_bcc.addr_list.recipients = [ascii "c@x.com"] ∧
    email_prepare_payload example_fmt 0 session_to_cc_bcc 0 auto_buffer_init (some 0)
      = (Outcome.ret 0,
          { data := ascii ("Date: Thu, 01 Jan 1970 00:00:00 +0000\r\nFrom: s@x.com\r\n"
              ++ "To: a@x.com\r\nCc: a@x.com\r\nX-Test: 1\r\n\r\nhi.there")
            start_pos := 0
            length := 101 }) := by
  decide

/-- C5 evaluated at the two-byte body NUL, `.` with `escape_dot_char = 1`: after the blank
separator line the payload holds the body unchanged, two bytes and not three; the `.` is
not doubled. -/
theorem prepare_payload_dot_after_nul :
    session_nul_dot.body.bytes = [0, DOT] ∧
    (email_prepare_payload example_fmt 0 session_nul_dot 1 auto_buffer_init (some 0)).2.bytes
      = ascii "Date: Thu, 01 Jan 1970 00:00:00 +0000\r\nFrom: s@x.com\r\nTo: a@x.com\r\n\r\n"
        ++ [0, DOT] ∧
    double_dots [0, DOT] = [0, DOT, DOT] ∧
    body_out session_nul_dot.body 1 ≠ double_dots session_nul_dot.body.bytes := by
  decide

/-! ## The registry under sequences of `add` and `clear` -/

theorem registry_holds_clear (policy : email_address_duplicates_policy)
    (m : email_address_data) (list : email_address_list)
    (entries : List (email_address_type × List Nat))
    (h : registry_holds policy m list entries) :
    registry_holds policy m (email_address_list_clear list) [] := by
  obtain ⟨h1, h2, _⟩ := h
  refine ⟨h1, h2, rfl, rfl, rfl, rfl, Nat.le_refl _, rfl, ?_, ?_⟩
  · intro e he; simp at he
  · simp

theorem email_address_list_add_holds (policy : email_address_duplicates_policy)
    (m : email_address_data) (list : email_address_list)
    (entries : List (email_address_type × List Nat)) (t : email_address_type) (a : List Nat)
    (h : registry_holds policy m list entries) (ha : valid_address a) :
    ∃ rc list2, email_address_list_add list t a = Outcome.ret (rc, list2) ∧
      registry_holds policy m list2 (entry_add policy entries (t, a)) := by
  by_cases hmem : a ∈ entries.map (fun e => e.2)
  · obtain ⟨l2, e1, e2⟩ := email_address_list_add_duplicate policy m list entries t a h ha hmem
    exact ⟨1, l2, e1, e2⟩
  · obtain ⟨l2, e1, e2⟩ := email_address_list_add_new policy m list entries t a h ha hmem
    exact ⟨0, l2, e1, e2⟩

theorem run_ops_refines (policy : email_address_duplicates_policy) (m : email_address_data)
    (ops : List registry_op) (list : email_address_list)
    (entries : List (email_address_type × List Nat))
    (h : registry_holds policy m list entries) (hops : ∀ op ∈ ops, op_valid op) :
    ∃ list2, run_ops list ops = Outcome.ret list2 ∧
      registry_holds policy m list2 (ops.foldl (entry_op policy) entries) := by
  induction ops generalizing list entries with
  | nil => exact ⟨list, rfl, h⟩
  | cons op rest ih =>
    have hrest : ∀ op ∈ rest, op_valid op := fun op hop => hops op (List.mem_cons_of_mem _ hop)
    cases op with
    | add t a =>
      have ha : valid_address a := hops (registry_op.add t a) (by simp)
      obtain ⟨rc, l2, e1, e2⟩ := email_address_list_add_holds policy m list entries t a h ha
      obtain ⟨l3, e3, e4⟩ := ih l2 _ e2 hrest
      exact ⟨l3, by simp only [run_ops, e1, e3], e4⟩
    | clear =>
      obtain ⟨l3, e3, e4⟩ := ih _ _ (registry_holds_clear policy m list entries h) hrest
      exact ⟨l3, by simp only [run_ops, e3], e4⟩

theorem run_ops_holds (policy : email_address_duplicates_policy) (m : email_address_data)
    (ops : List registry_op) (list : email_address_list)
    (hops : ∀ op ∈ ops, op_valid op)
    (hrun : run_ops (registry_start policy m) ops = Outcome.ret list) :
    registry_holds policy m list (ops.foldl (entry_op policy) []) := by
  obtain ⟨l2, e1, e2⟩ := run_ops_refines policy m ops (registry_start policy m) []
    (registry_start_holds policy m) hops
  rw [hrun] at e1
  cases e1
  exact e2

theorem stored_addrs_eq (policy : email_address_duplicates_policy) (m : email_address_data)
    (list : email_address_list) (entries : List (email_address_type × List Nat))
    (h : registry_holds policy m list entries) :
    stored_addrs list = entries.map (fun e => e.2) := by
  unfold stored_addrs
  rw [registry_holds_recipients policy m list entries h, List.filterMap_map]
  clear h
  induction entries with
  | nil => rfl
  | cons e rest ih =>
    rw [List.filterMap_cons, List.map_cons, ← ih]
    rfl

theorem stored_iff (policy : email_address_duplicates_policy) (m : email_address_data)
    (list : email_address_list) (entries : List (email_address_type × List Nat))
    (h : registry_holds policy m list entries) (a : List Nat) :
    stored list a ↔ a ∈ entries.map (fun e => e.2) := by
  unfold stored
  rw [stored_addrs_eq policy m list entries h]


/-! ## Lookup and insertion -/

theorem find_stored (policy : email_address_duplicates_policy) (m : email_address_data)
    (list : email_address_list) (entries : List (email_address_type × List Nat))
    (h : registry_holds policy m list entries) (a : List Nat)
    (ha : a ∈ entries.map (fun e => e.2)) :
    ∃ e, e ∈ entries ∧ e.2 = a ∧ email_address_list_find list a = some (record_of e) := by
  have hh := h
  obtain ⟨h1, h2, h3, h4, h5, h6, h7, h8, h9, h10⟩ := hh
  have hc : is_cstr a := by
    obtain ⟨e, he, heq⟩ := List.mem_map.mp ha
    rw [← heq]; exact (h9 e he).2.2
  obtain ⟨q, hq1, hq2, hq3⟩ := tfind_some list entries [] a (by simp [h3]) h4 ha hc h9
  refine ⟨entries.get ⟨q, hq2⟩, List.get_mem _ _ _, ?_, ?_⟩
  · rw [List.getElem?_map, List.getElem?_eq_getElem hq2] at hq3
    simpa using hq3
  · unfold email_address_list_find
    rw [hq1]
    have := heap_get entries [] q hq2
    rw [List.append_nil, ← h3] at this
    exact this

/-- C11, as the code has it. For every registry reached from an initialised one by adds and
clears, every valid address and every classification: after adding the address, `find`
applied to the raw address string returns the stored record, the one record of the ordered
list with that raw address; it carries the classification just given when the address was
newly inserted or the policy is replace-with-latest. -/
theorem find_after_add (policy : email_address_duplicates_policy) (m : email_address_data)
    (ops : List registry_op) (list : email_address_list) (t : email_address_type)
    (a : List Nat) (hops : ∀ op ∈ ops, op_valid op)
    (hrun : run_ops (registry_start policy m) ops = Outcome.ret list)
    (ha : valid_address a) :
    ∃ rc list2 r, email_address_list_add list t a = Outcome.ret (rc, list2) ∧
      email_address_list_find list2 a = some r ∧ r.addr = a ∧ some r ∈ list2.recipients ∧
      (stored_addrs list2).Nodup ∧
      ((rc = 0 ∨ policy = email_address_duplicates_policy.replace_with_latest) →
        r = record_of (t, a)) := by
  have h := run_ops_holds policy m ops list hops hrun
  obtain ⟨rc, list2, e1, e2⟩ := email_address_list_add_holds policy m list _ t a h ha
  have hkeys : a ∈ (entry_add policy (ops.foldl (entry_op policy) []) (t, a)).map
      (fun e => e.2) := by
    rw [entry_add_keys]
    by_cases hm : a ∈ (ops.foldl (entry_op policy) []).map (fun e => e.2)
    · simp only [hm, if_true]
    · simp only [hm, if_false, List.mem_append, List.mem_singleton, or_true]
  obtain ⟨e, he, heq, hfind⟩ := find_stored policy m list2 _ e2 a hkeys
  refine ⟨rc, list2, record_of e, e1, hfind, heq, ?_, ?_, ?_⟩
  · rw [registry_holds_recipients policy m list2 _ e2]
    exact List.mem_map.mpr ⟨e, he, rfl⟩
  · rw [stored_addrs_eq policy m list2 _ e2]
    exact e2.2.2.2.2.2.2.2.2.2
  · intro hcase
    congr 1
    by_cases hm : a ∈ (ops.foldl (entry_op policy) []).map (fun e => e.2)
    · obtain ⟨l3, d1, _⟩ := email_address_list_add_duplicate policy m list _ t a h ha hm
      rw [e1] at d1
      have hrc : rc = 1 := by cases d1; rfl
      rcases hcase with hcase | hcase
      · omega
      · have hE : entry_add policy (ops.foldl (entry_op policy) []) (t, a)
            = (ops.foldl (entry_op policy) []).map (fun e => if e.2 = a then (t, a) else e) := by
          unfold entry_add
          rw [if_pos hm, if_pos hcase]
        rw [hE] at he
        obtain ⟨e0, _, hup⟩ := List.mem_map.mp he
        by_cases h0 : e0.2 = a
        · simp only [h0, if_true] at hup; exact hup.symm
        · simp only [h0, if_false] at hup
          exact absurd (hup ▸ heq) h0
    · have hE : entry_add policy (ops.foldl (entry_op policy) []) (t, a)
          = ops.foldl (entry_op policy) [] ++ [(t, a)] := by
        unfold entry_add
        rw [if_neg hm]
      rw [hE, List.mem_append, List.mem_singleton] at he
      rcases he with he | he
      · exact absurd (List.mem_map.mpr ⟨e, he, heq⟩) hm
      · exact he

/-- Witness of C11: after `example_ops` under the discard policy, adding `d@x.com` as Bcc and
looking it up by its raw address. -/
theorem find_after_add_witness :
    (∀ op ∈ example_ops, op_valid op) ∧
    run_ops (registry_start email_address_duplicates_policy.discard email_address_data_zero)
      example_ops = Outcome.ret (example_registry email_address_duplicates_policy.discard) ∧
    valid_address (ascii "d@x.com") ∧
    ∃ rc list2 r, email_address_list_add (example_registry
        email_address_duplicates_policy.discard) email_address_type.bcc (ascii "d@x.com")
        = Outcome.ret (rc, list2) ∧
      email_address_list_find list2 (ascii "d@x.com") = some r ∧ r.addr = ascii "d@x.com" :=
  ⟨by decide, by decide, by decide,
    (find_after_add email_address_duplicates_policy.discard email_address_data_zero
      example_ops (example_registry email_address_duplicates_policy.discard)
      email_address_type.bcc (ascii "d@x.com") (by decide) (by decide) (by decide)).imp
      (fun _ h => h.imp (fun _ h2 => h2.imp (fun _ h3 => ⟨h3.1, h3.2.1, h3.2.2.1⟩)))⟩

/-- C11, as stated, fails: after adding the valid address `<a@x.com>` as To, the address is
stored, its `emailPart` is `a@x.com`, and `find` applied to that `emailPart` returns
nothing. -/
theorem find_by_email_part_misses :
    valid_address (ascii "<a@x.com>") ∧
    stored_addrs registry_angle = [ascii "<a@x.com>"] ∧
    email_part (ascii "<a@x.com>") = ascii "a@x.com" ∧
    email_address_list_find registry_angle (email_part (ascii "<a@x.com>")) = none := by
  decide

/-- C12, as the code has it. After every sequence of add and clear operations on an
initialised registry, under either duplicate policy, no two records of the ordered recipient
list have the same raw address, whatever their classifications. -/
theorem no_two_records_same_raw_address (policy : email_address_duplicates_policy)
    (m : email_address_data) (ops : List registry_op) (list : email_address_list)
    (hops : ∀ op ∈ ops, op_valid op)
    (hrun : run_ops (registry_start policy m) ops = Outcome.ret list) :
    (stored_addrs list).Nodup := by
  have h := run_ops_holds policy m ops list hops hrun
  rw [stored_addrs_eq policy m list _ h]
  exact h.2.2.2.2.2.2.2.2.2

/-- Witness of C12: the registry after `example_ops` under replace-with-latest. -/
theorem no_two_records_same_raw_address_witness :
    (∀ op ∈ example_ops, op_valid op) ∧
    run_ops (registry_start email_address_duplicates_policy.replace_with_latest
      email_address_data_zero) example_ops
      = Outcome.ret (example_registry email_address_duplicates_policy.replace_with_latest) ∧
    (stored_addrs (example_registry
      email_address_duplicates_policy.replace_with_latest)).Nodup :=
  ⟨by decide, by decide,
    no_two_records_same_raw_address email_address_duplicates_policy.replace_with_latest
      email_address_data_zero example_ops
      (example_registry email_address_duplicates_policy.replace_with_latest)
      (by decide) (by decide)⟩

/-- C12, as stated, fails: after the adds of `<a@x.com>` as To and of `a@x.com` as Cc the
ordered recipient list holds both records, and both have the `emailPart` `a@x.com`. -/
theorem two_records_same_email_part :
    stored_addrs registry_same_part = [ascii "<a@x.com>", ascii "a@x.com"] ∧
    (stored_addrs registry_same_part).map email_part = [ascii "a@x.com", ascii "a@x.com"] ∧
    ¬ ((stored_addrs registry_same_part).map email_part).Nodup := by
  decide

/-! ## The three outcomes of `add` -/

theorem stored_valid (policy : email_address_duplicates_policy) (m : email_address_data)
    (list : email_address_list) (entries : List (email_address_type × List Nat))
    (h : registry_holds policy m list entries) (a : List Nat) (hst : stored list a) :
    a ∈ entries.map (fun e => e.2) ∧ valid_address a := by
  have hm := (stored_iff policy m list entries h a).mp hst
  obtain ⟨e, he, heq⟩ := List.mem_map.mp hm
  exact ⟨hm, heq ▸ h.2.2.2.2.2.2.2.2.1 e he⟩

theorem email_address_list_add_discard_eq (m : email_address_data)
    (list : email_address_list) (entries : List (email_address_type × List Nat))
    (t : email_address_type) (a : List Nat)
    (h : registry_holds email_address_duplicates_policy.discard m list entries)
    (ha : valid_address a) (hmem : a ∈ entries.map (fun e => e.2)) :
    email_address_list_add list t a = Outcome.ret (1, list) := by
  obtain ⟨h1, h2, h3, h4, h5, h6, h7, h8, h9, h10⟩ := h
  have hset := email_address_data_set_valid none t a ha
  obtain ⟨q, hq1, hq2, hq3⟩ := tfind_some { list with heap := list.heap ++ [record_of (t, a)] }
    entries [record_of (t, a)] a (by simp [h3]) h4 hmem ha.2.2 h9
  have hlen : list.heap.length = entries.length := by rw [h3, List.length_map]
  have hts : tsearch list.heap.length { list with heap := list.heap ++ [record_of (t, a)] }
      = (q, { list with heap := list.heap ++ [record_of (t, a)] }) := by
    have ea : (record_of (t, a)).addr = a := rfl
    simp only [tsearch, List.get?_eq_getElem?, List.getElem?_concat_length, ea, hq1]
  have hne : q ≠ list.heap.length := by omega
  have hpol : ¬ list.dup_policy = email_address_duplicates_policy.replace_with_latest := by
    rw [h1]; decide
  simp only [email_address_list_add, hset, hts, ne_eq, hne, not_false_eq_true, if_true, hpol,
    if_false, List.take_left]

/-- C13. Under the discard policy, for every registry reached from an initialised one by adds
and clears: adding, with any classification, an address that is already stored returns 1
(Duplicate) and leaves the registry exactly as it was, so the stored record keeps the
classification and data of its first insertion and the recipient list its length and
order. -/
theorem add_duplicate_discard (m : email_address_data) (ops : List registry_op)
    (list : email_address_list) (t : email_address_type) (a : List Nat)
    (hops : ∀ op ∈ ops, op_valid op)
    (hrun : run_ops (registry_start email_address_duplicates_policy.discard m) ops
      = Outcome.ret list)
    (hst : stored list a) :
    email_address_list_add list t a = Outcome.ret (1, list) := by
  have h := run_ops_holds _ m ops list hops hrun
  obtain ⟨hm, hv⟩ := stored_valid _ m list _ h a hst
  exact email_address_list_add_discard_eq m list _ t a h hv hm

/-- Witness of C13: after `example_ops` under the discard policy `a@x.com` is stored as To;
adding it again as Bcc returns 1 and changes nothing. -/
theorem add_duplicate_discard_witness :
    (∀ op ∈ example_ops, op_valid op) ∧
    run_ops (registry_start email_address_duplicates_policy.discard email_address_data_zero)
      example_ops = Outcome.ret (example_registry email_address_duplicates_policy.discard) ∧
    stored (example_registry email_address_duplicates_policy.discard) (ascii "a@x.com") ∧
    email_address_list_add (example_registry email_address_duplicates_policy.discard)
      email_address_type.bcc (ascii "a@x.com")
      = Outcome.ret (1, example_registry email_address_duplicates_policy.discard) :=
  ⟨by decide, by decide, by decide,
    add_duplicate_discard email_address_data_zero example_ops
      (example_registry email_address_duplicates_policy.discard) email_address_type.bcc
      (ascii "a@x.com") (by decide) (by decide) (by decide)⟩

/-- C14. Under the replace-with-latest policy, for every registry reached from an initialised
one by adds and clears: adding an address that is already stored returns 1 (Duplicate); the
record stored at some position `q` of the ordered list had that address and is replaced, at
the same position, by the record of the second call (its classification and data); the list
length and every other record stay unchanged. -/
theorem add_duplicate_replace (m : email_address_data) (ops : List registry_op)
    (list : email_address_list) (t : email_address_type) (a : List Nat)
    (hops : ∀ op ∈ ops, op_valid op)
    (hrun : run_ops (registry_start email_address_duplicates_policy.replace_with_latest m) ops
      = Outcome.ret list)
    (hst : stored list a) :
    ∃ q list2, email_address_list_add list t a = Outcome.ret (1, list2) ∧
      (∃ r0, list.recipients.get? q = some (some r0) ∧ r0.addr = a) ∧
      list2.recipients = list.recipients.set q (some (record_of (t, a))) ∧
      (record_of (t, a)).type = t ∧ (record_of (t, a)).addr = a ∧
      list2.recipients.length = list.recipients.length ∧
      list2.num_recipients = list.num_recipients ∧
      (∀ i, i ≠ q → list2.recipients.get? i = list.recipients.get? i) := by
  have h := run_ops_holds _ m ops list hops hrun
  obtain ⟨hm, hv⟩ := stored_valid _ m list _ h a hst
  obtain ⟨list2, e1, e2⟩ := email_address_list_add_duplicate _ m list _ t a h hv hm
  obtain ⟨q, hq⟩ := List.mem_iff_getElem?.mp hm
  have hset : entry_add email_address_duplicates_policy.replace_with_latest
      (ops.foldl (entry_op email_address_duplicates_policy.replace_with_latest) []) (t, a)
      = (ops.foldl (entry_op email_address_duplicates_policy.replace_with_latest) []).set q
        (t, a) := by
    unfold entry_add
    rw [if_pos hm, if_pos rfl]
    exact map_update_eq_set _ (t, a) a q h.2.2.2.2.2.2.2.2.2 hq
  have hrec := registry_holds_recipients _ m list _ h
  have hrec2 := registry_holds_recipients _ m list2 _ e2
  rw [hset, List.map_set] at hrec2
  have hnum : list2.num_recipients = list.num_recipients := by
    rw [e2.2.2.2.2.1, h.2.2.2.2.1, hset, List.length_set]
  refine ⟨q, list2, e1, ?_, ?_, rfl, rfl, ?_, hnum, ?_⟩
  · rw [List.getElem?_map] at hq
    cases hg : (ops.foldl (entry_op email_address_duplicates_policy.replace_with_latest)
        [])[q]? with
    | none => rw [hg] at hq; simp at hq
    | some e0 =>
      rw [hg] at hq
      refine ⟨record_of e0, ?_, by simpa using hq⟩
      rw [hrec, List.get?_eq_getElem?, List.getElem?_map, hg]
      rfl
  · rw [hrec2, hrec]
  · rw [hrec2, hrec, List.length_set]
  · intro i hi
    rw [hrec2, hrec, List.get?_eq_getElem?, List.get?_eq_getElem?,
      List.getElem?_set_ne (fun e => hi e.symm)]

/-- Witness of C14: after `example_ops` under replace-with-latest `a@x.com` is stored as To;
adding it again as Bcc returns 1. -/
theorem add_duplicate_replace_witness :
    (∀ op ∈ example_ops, op_valid op) ∧
    run_ops (registry_start email_address_duplicates_policy.replace_with_latest
      email_address_data_zero) example_ops
      = Outcome.ret (example_registry email_address_duplicates_policy.replace_with_latest) ∧
    stored (example_registry email_address_duplicates_policy.replace_with_latest)
      (ascii "a@x.com") ∧
    ∃ q list2, email_address_list_add (example_registry
        email_address_duplicates_policy.replace_with_latest) email_address_type.bcc
        (ascii "a@x.com") = Outcome.ret (1, list2) ∧
      list2.recipients = (example_registry
        email_address_duplicates_policy.replace_with_latest).recipients.set q
        (some (record_of (email_address_type.bcc, ascii "a@x.com"))) :=
  ⟨by decide, by decide, by decide,
    (add_duplicate_replace email_address_data_zero example_ops
      (example_registry email_address_duplicates_policy.replace_with_latest)
      email_address_type.bcc (ascii "a@x.com") (by decide) (by decide) (by decide)).imp
      (fun _ h => h.imp (fun _ h2 => ⟨h2.1, h2.2.2.1⟩))⟩

/-- C15. For every registry reached from an initialised one by adds and clears, every
classification and every valid address not yet stored: `add` returns 0 (Inserted), the
recipient count grows by exactly one and stays within the allocated capacity, the new
record, with the given classification and raw address, is the last element of the ordered
list, and all earlier records keep their positions and contents. -/
theorem add_new_appends (policy : email_address_duplicates_policy) (m : email_address_data)
    (ops : List registry_op) (list : email_address_list) (t : email_address_type)
    (a : List Nat) (hops : ∀ op ∈ ops, op_valid op)
    (hrun : run_ops (registry_start policy m) ops = Outcome.ret list)
    (ha : valid_address a) (hnew : ¬ stored list a) :
    ∃ list2, email_address_list_add list t a = Outcome.ret (0, list2) ∧
      list2.num_recipients = list.num_recipients + 1 ∧
      list2.num_recipients ≤ list2.max_size ∧
      list2.recipients = list.recipients ++ [some (record_of (t, a))] ∧
      (record_of (t, a)).type = t ∧ (record_of (t, a)).addr = a := by
  have h := run_ops_holds policy m ops list hops hrun
  have hm : a ∉ (ops.foldl (entry_op policy) []).map (fun e => e.2) :=
    fun hm => hnew ((stored_iff policy m list _ h a).mpr hm)
  obtain ⟨list2, e1, e2⟩ := email_address_list_add_new policy m list _ t a h ha hm
  have hE : entry_add policy (ops.foldl (entry_op policy) []) (t, a)
      = ops.foldl (entry_op policy) [] ++ [(t, a)] := by
    unfold entry_add
    rw [if_neg hm]
  have hrec := registry_holds_recipients policy m list _ h
  have hrec2 := registry_holds_recipients policy m list2 _ e2
  rw [hE, List.map_append] at hrec2
  refine ⟨list2, e1, ?_, ?_, ?_, rfl, rfl⟩
  · rw [e2.2.2.2.2.1, h.2.2.2.2.1, hE, List.length_append, List.length_singleton]
  · rw [e2.2.2.2.2.1]
    exact e2.2.2.2.2.2.2.1
  · rw [hrec2, hrec]
    rfl

/-- Witness of C15: after `example_ops` under the discard policy `d@x.com` is not stored;
adding it as Bcc returns 0 and makes it the last record. -/
theorem add_new_appends_witness :
    (∀ op ∈ example_ops, op_valid op) ∧
    run_ops (registry_start email_address_duplicates_policy.discard email_address_data_zero)
      example_ops = Outcome.ret (example_registry email_address_duplicates_policy.discard) ∧
    valid_address (ascii "d@x.com") ∧
    ¬ stored (example_registry email_address_duplicates_policy.discard) (ascii "d@x.com") ∧
    ∃ list2, email_address_list_add (example_registry email_address_duplicates_policy.discard)
        email_address_type.bcc (ascii "d@x.com") = Outcome.ret (0, list2) ∧
      list2.recipients = (example_registry email_address_duplicates_policy.discard).recipients
        ++ [some (record_of (email_address_type.bcc, ascii "d@x.com"))] :=
  ⟨by decide, by decide, by decide, by decide,
    (add_new_appends email_address_duplicates_policy.discard email_address_data_zero
      example_ops (example_registry email_address_duplicates_policy.discard)
      email_address_type.bcc (ascii "d@x.com") (by decide) (by decide) (by decide)
      (by decide)).imp (fun _ h => ⟨h.1, h.2.2.2.1⟩)⟩

/-! ## Addresses accepted and refused -/

theorem prepare_payload_aborted_of_no_to (fmt : Int → List Nat) (now : Int)
    (email : email_sender_context) (esc : Int) (payload : auto_buffer) (ts : Option Int)
    (hto : addrs_of email_address_type.to email.addr_list.recipients = []) :
    (email_prepare_payload fmt now email esc payload ts).1 = Outcome.aborted := by
  have h1 := collect_recipient_fst_of_not_to (auto_buffer_init, auto_buffer_init) _ hto
  have h2 : ¬ ((email.addr_list.recipients.foldl collect_recipient
      (auto_buffer_init, auto_buffer_init)).1.length > 0) := by
    rw [h1]; decide
  by_cases hd : (email_utils_generate_date fmt now 100 ts).2 > 0
  · simp only [email_prepare_payload, hd, not_true_eq_false, if_false, h2, not_false_eq_true,
      if_true]
  · simp only [email_prepare_payload, hd, if_true, not_false_eq_true]

theorem entry_add_mem (policy : email_address_duplicates_policy)
    (entries : List (email_address_type × List Nat)) (op e : email_address_type × List Nat)
    (he : e ∈ entry_add policy entries op) : e ∈ entries ∨ e = op := by
  unfold entry_add at he
  by_cases hm : op.2 ∈ entries.map (fun e => e.2)
  · rw [if_pos hm] at he
    by_cases hp : policy = email_address_duplicates_policy.replace_with_latest
    · rw [if_pos hp] at he
      obtain ⟨e0, he0, hup⟩ := List.mem_map.mp he
      by_cases h0 : e0.2 = op.2
      · simp only [h0, if_true] at hup; exact Or.inr hup.symm
      · simp only [h0, if_false] at hup; exact Or.inl (hup ▸ he0)
    · rw [if_neg hp] at he; exact Or.inl he
  · rw [if_neg hm, List.mem_append, List.mem_singleton] at he
    exact he

theorem entry_add_fold_mem (policy : email_address_duplicates_policy)
    (ops entries : List (email_address_type × List Nat)) (e : email_address_type × List Nat)
    (he : e ∈ ops.foldl (entry_add policy) entries) : e ∈ entries ∨ e ∈ ops := by
  induction ops generalizing entries with
  | nil => exact Or.inl he
  | cons op rest ih =>
    rcases ih _ he with h | h
    · rcases entry_add_mem policy entries op e h with h2 | h2
      · exact Or.inl h2
      · exact Or.inr (h2 ▸ List.mem_cons_self _ _)
    · exact Or.inr (List.mem_cons_of_mem _ h)

/-- C17, as the code has it. From every session state, after `email_clear`: the recipient
list is empty (count 0, no record, `find` returns nothing for every address), the header
table has no entries (a traversal visits nothing), the body is empty, and a following
`email_prepare_payload` made after any adds of valid addresses none of which is classified
To, with any headers and body, does not return: the assertion on the To list fails and the
call is aborted, so neither success nor an error result reaches the caller. -/
theorem clear_resets (email : email_sender_context)
    (ops : List (email_address_type × List Nat))
    (hops : ∀ op ∈ ops, valid_address op.2 ∧ op.1 ≠ email_address_type.to) :
    (email_clear email).addr_list.num_recipients = 0 ∧
    (email_clear email).addr_list.recipients = [] ∧
    (∀ a, email_address_list_find (email_clear email).addr_list a = none) ∧
    (email_clear email).hdr.root = [] ∧
    (email_clear email).hdr.num_items = 0 ∧
    visited (email_clear email).hdr = [] ∧
    (email_clear email).body.length = 0 ∧
    (email_clear email).body.bytes = [] ∧
    ∃ list2, run_adds (email_clear email).addr_list ops = Outcome.ret list2 ∧
      ∀ (email2 : email_sender_context) (fmt : Int → List Nat) (now : Int) (esc : Int)
        (payload : auto_buffer) (ts : Option Int), email2.addr_list = list2 →
        (email_prepare_payload fmt now email2 esc payload ts).1 = Outcome.aborted := by
  refine ⟨rfl, rfl, fun a => rfl, rfl, rfl, rfl, rfl, rfl, ?_⟩
  have h0 : registry_holds email.addr_list.dup_policy email.addr_list.mail_from_addr
      (email_clear email).addr_list [] := by
    refine ⟨rfl, rfl, rfl, rfl, rfl, rfl, Nat.le_refl _, rfl, ?_, ?_⟩
    · intro e he; simp at he
    · simp
  obtain ⟨list2, hrun, hold⟩ := run_adds_refines _ _ ops _ [] h0 (fun op hop => (hops op hop).1)
  refine ⟨list2, hrun, ?_⟩
  intro email2 fmt now esc payload ts heq
  apply prepare_payload_aborted_of_no_to
  rw [heq, registry_holds_recipients _ _ list2 _ hold, addrs_of_entries]
  have : (ops.foldl (entry_add email.addr_list.dup_policy) []).filter
      (fun e => decide (e.1 = email_address_type.to)) = [] := by
    rw [List.filter_eq_nil_iff]
    intro e he
    rcases entry_add_fold_mem _ ops [] e he with h | h
    · simp at h
    · simpa using (hops e h).2
  rw [this]
  rfl

/-- Witness of C17: the session with To, Cc and Bcc recipients, a header and a body is
cleared, `c@x.com` is added as Cc, and the preparation fails. -/
theorem clear_resets_witness :
    (∀ op ∈ [(email_address_type.cc, ascii "c@x.com")],
      valid_address op.2 ∧ op.1 ≠ email_address_type.to) ∧
    visited (email_clear session_to_cc_bcc).hdr = [] ∧
    ∃ list2, run_adds (email_clear session_to_cc_bcc).addr_list
        [(email_address_type.cc, ascii "c@x.com")] = Outcome.ret list2 ∧
      (email_prepare_payload example_fmt 0
        { email_clear session_to_cc_bcc with addr_list := list2 } 1 auto_buffer_init
        (some 0)).1 = Outcome.aborted :=
  ⟨by decide,
    (clear_resets session_to_cc_bcc [(email_address_type.cc, ascii "c@x.com")]
      (by decide)).2.2.2.2.2.1,
    (clear_resets session_to_cc_bcc [(email_address_type.cc, ascii "c@x.com")]
      (by decide)).2.2.2.2.2.2.2.2.imp
      (fun _ h => ⟨h.1, h.2 _ example_fmt 0 1 auto_buffer_init (some 0) rfl⟩)⟩

/-- C17, as stated, fails: after `email_clear` of the session with To, Cc and Bcc recipients,
a header and a body, the registry is empty and a preparation made without adding a To
address returns no value at all to its caller, hence no `MissingRecipient` result: the call is
aborted at the assertion on the To list. -/
theorem prepare_after_clear_returns_no_error :
    (email_clear session_to_cc_bcc).addr_list.recipients = [] ∧
    (email_prepare_payload example_fmt 0 (email_clear session_to_cc_bcc) 1 auto_buffer_init
      (some 0)).1 = Outcome.aborted ∧
    ¬ ∃ rc : Int,
      (email_prepare_payload example_fmt 0 (email_clear session_to_cc_bcc) 1 auto_buffer_init
        (some 0)).1 = Outcome.ret rc := by
  have h : (email_prepare_payload example_fmt 0 (email_clear session_to_cc_bcc) 1
      auto_buffer_init (some 0)).1 = Outcome.aborted := by decide
  refine ⟨by decide, h, ?_⟩
  rintro ⟨rc, hrc⟩
  rw [h] at hrc
  exact Outcome.noConfusion hrc

/-- C18, as the code has it. For every session, `email_clear` leaves the stored sender record
as it was; so, once a valid To address has been added to the cleared session, the payload
prepared carries the previous sender in its From line. -/
theorem clear_keeps_sender (email : email_sender_context) (fmt : Int → List Nat) (now : Int)
    (esc : Int) (payload : auto_buffer) (ts : Option Int) (a : List Nat)
    (ha : valid_address a)
    (hs : email.addr_list.mail_from_addr.addr.length ≤ EMAIL_ADDRESS_MAX_LENGTH)
    (hd : 0 < (email_utils_generate_date fmt now 100 ts).2) :
    (email_clear email).addr_list.mail_from_addr = email.addr_list.mail_from_addr ∧
    ∃ list2, email_address_list_add (email_clear email).addr_list email_address_type.to a
        = Outcome.ret (0, list2) ∧
      (email_prepare_payload fmt now { email_clear email with addr_list := list2 } esc payload
        ts).1 = Outcome.ret 0 ∧
      ∃ rest, (email_prepare_payload fmt now { email_clear email with addr_list := list2 } esc
          payload ts).2.bytes
        = ascii "Date: " ++ (email_utils_generate_date fmt now 100 ts).1 ++ CRLF
          ++ (ascii "From: " ++ email.addr_list.mail_from_addr.addr ++ CRLF) ++ rest := by
  refine ⟨rfl, ?_⟩
  have h0 : registry_holds email.addr_list.dup_policy email.addr_list.mail_from_addr
      (email_clear email).addr_list [] := by
    refine ⟨rfl, rfl, rfl, rfl, rfl, rfl, Nat.le_refl _, rfl, ?_, ?_⟩
    · intro e he; simp at he
    · simp
  obtain ⟨list2, e1, e2⟩ := email_address_list_add_new _ _ _ [] email_address_type.to a h0 ha
    (by simp)
  have hE : entry_add email.addr_list.dup_policy [] (email_address_type.to, a)
      = [(email_address_type.to, a)] := by
    simp [entry_add]
  rw [hE] at e2
  have hrec := registry_holds_recipients _ _ list2 _ e2
  have hfrom : list2.mail_from_addr = email.addr_list.mail_from_addr := e2.2.1
  have hr : ∀ r, some r ∈ list2.recipients →
      r.addr ≠ [] ∧ r.addr.length ≤ EMAIL_ADDRESS_MAX_LENGTH := by
    intro r hr
    rw [hrec] at hr
    simp only [List.map_cons, List.map_nil, List.mem_singleton, Option.some.injEq] at hr
    rw [hr]
    exact ⟨ha.1, ha.2.1⟩
  have hto : addrs_of email_address_type.to list2.recipients ≠ [] := by
    rw [hrec]
    simp [addrs_of, record_of]
  obtain ⟨p1, _, _, p4⟩ := prepare_payload_returns fmt now
    { email_clear email with addr_list := list2 } esc payload ts hd
    (by rw [hfrom]; exact hs) hr hto
  refine ⟨list2, e1, p1, ?_⟩
  rw [p4]
  simp only [hfrom, List.append_assoc]
  exact ⟨_, rfl⟩

/-- Witness of C18: the session with sender `s@x.com` is cleared, `a@x.com` is added as To,
and the sender record is still the one set before. -/
theorem clear_keeps_sender_witness :
    valid_address (ascii "a@x.com") ∧
    session_basic.addr_list.mail_from_addr.addr.length ≤ EMAIL_ADDRESS_MAX_LENGTH ∧
    0 < (email_utils_generate_date example_fmt 0 100 (some 0)).2 ∧
    (email_clear session_basic).addr_list.mail_from_addr
      = session_basic.addr_list.mail_from_addr :=
  ⟨by decide, by decide, by decide,
    (clear_keeps_sender session_basic example_fmt 0 1 auto_buffer_init (some 0)
      (ascii "a@x.com") (by decide) (by decide) (by decide)).1⟩

/-- C18, as stated, fails: in the session whose sender was set to `s@x.com`, after
`email_clear` the stored sender address is still `s@x.com`, of length 7 and not 0; and the
payload prepared after adding `a@x.com` as To has the line `From: s@x.com`. -/
theorem sender_survives_clear :
    session_sender.addr_list.mail_from_addr.addr = ascii "s@x.com" ∧
    (email_clear session_sender).addr_list.mail_from_addr.addr = ascii "s@x.com" ∧
    (email_clear session_sender).addr_list.mail_from_addr.addr.length ≠ 0 ∧
    (email_prepare_payload example_fmt 0
      (session_add (email_clear session_sender) [(email_address_type.to, ascii "a@x.com")])
      0 auto_buffer_init (some 0)).2.bytes
      = ascii "Date: Thu, 01 Jan 1970 00:00:00 +0000\r\nFrom: s@x.com\r\nTo: a@x.com\r\n\r\n" := by
  decide

/-! ## Setting a header key twice -/

theorem foreach_collect (root : List skey_value_pair)
    (seen : List (List Nat × Option (List Nat))) :
    email_header_foreach_loop collect_entry root seen
      = seen ++ root.map (fun kvp => (kvp.key, kvp.value)) := by
  induction root generalizing seen with
  | nil => simp [email_header_foreach_loop]
  | cons kvp rest ih =>
    simp only [email_header_foreach_loop, collect_entry, ih, List.map_cons, List.append_assoc,
      List.singleton_append]

theorem visited_eq (hdr : email_header) :
    visited hdr = hdr.root.map (fun kvp => (kvp.key, kvp.value)) := by
  simp only [visited, email_header_foreach, foreach_collect, List.nil_append]

theorem run_header_adds_append (hdr : email_header)
    (ops1 ops2 : List (List Nat × Option (List Nat))) :
    run_header_adds hdr (ops1 ++ ops2) = run_header_adds (run_header_adds hdr ops1) ops2 := by
  induction ops1 generalizing hdr with
  | nil => rfl
  | cons op rest ih =>
    obtain ⟨k, v⟩ := op
    exact ih (email_header_add hdr k v).2

theorem sorted_keys_ne (y : skey_value_pair) (rest : List skey_value_pair) (k : List Nat)
    (hs : ((y :: rest).map (fun kvp => kvp.key)).Pairwise key_lt)
    (hk : strcmp k y.key = 0 ∨ strcmp k y.key < 0) :
    ∀ z ∈ rest, z.key ≠ k := by
  rw [List.map_cons, List.pairwise_cons] at hs
  intro z hz hzk
  have h1 : strcmp y.key z.key < 0 := hs.1 z.key (List.mem_map_of_mem _ hz)
  rw [hzk] at h1
  have h2 := strcmp_swap k y.key
  omega

theorem email_header_add_same_key (root : List skey_value_pair) (n : Nat) (k : List Nat)
    (v : Option (List Nat)) (hk : is_cstr k) (hroot : ∀ y ∈ root, is_cstr y.key)
    (hs : (root.map (fun kvp => kvp.key)).Pairwise key_lt) :
    (email_header_add { root := root, num_items := n } k v).2.root.filter
        (fun kvp => decide (kvp.key = k))
      = [{ key := k, value := v, cb_value := value_length v }] ∧
    (email_header_add { root := root, num_items := n } k v).2.root.filter
        (fun kvp => !decide (kvp.key = k))
      = root.filter (fun kvp => !decide (kvp.key = k)) := by
  induction root with
  | nil => rw [email_header_add_root_nil]; simp
  | cons y rest ih =>
    have hrest : ∀ z ∈ rest, is_cstr z.key := fun z hz => hroot z (List.mem_cons_of_mem _ hz)
    have hs2 : (rest.map (fun kvp => kvp.key)).Pairwise key_lt := by
      rw [List.map_cons, List.pairwise_cons] at hs; exact hs.2
    obtain ⟨i1, i2⟩ := ih hrest hs2
    rw [email_header_add_root_cons]
    by_cases h0 : strcmp k y.key = 0
    · have hy : k = y.key := strcmp_eq_zero k y.key hk (hroot y (by simp)) h0
      have hno := sorted_keys_ne y rest k hs (Or.inl h0)
      have hf : rest.filter (fun kvp => decide (kvp.key = k)) = [] := by
        rw [List.filter_eq_nil_iff]
        intro z hz
        simpa using hno z hz
      simp only [h0, if_true]
      constructor
      · rw [List.filter_cons_of_pos (by simp [hy]), hf, ← hy]
      · rw [List.filter_cons_of_neg (by simp [hy]), List.filter_cons_of_neg (by simp [hy])]
    · by_cases h1 : strcmp k y.key < 0
      · have hno := sorted_keys_ne y rest k hs (Or.inr h1)
        have hyk : y.key ≠ k := fun e => h0 (by rw [e]; exact strcmp_self k)
        have hf : (y :: rest).filter (fun kvp => decide (kvp.key = k)) = [] := by
          rw [List.filter_eq_nil_iff]
          intro z hz
          rw [List.mem_cons] at hz
          rcases hz with rfl | hz
          · simpa using hyk
          · simpa using hno z hz
        simp only [h0, h1, if_false, if_true]
        constructor
        · rw [List.filter_cons_of_pos (by simp), hf]
        · rw [List.filter_cons_of_neg (by simp)]
      · have hyk : y.key ≠ k := fun e => h0 (by rw [e]; exact strcmp_self k)
        simp only [h0, h1, if_false]
        constructor
        · rw [List.filter_cons_of_neg (by simpa using hyk), i1]
        · rw [List.filter_cons_of_pos (by simpa using hyk),
            List.filter_cons_of_pos (by simpa using hyk), i2]

theorem email_header_add_present_keys (root : List skey_value_pair) (n : Nat) (k : List Nat)
    (v : Option (List Nat)) (hroot : ∀ y ∈ root, is_cstr y.key)
    (hs : (root.map (fun kvp => kvp.key)).Pairwise key_lt)
    (hmem : k ∈ root.map (fun kvp => kvp.key)) :
    (email_header_add { root := root, num_items := n } k v).2.root.map (fun kvp => kvp.key)
      = root.map (fun kvp => kvp.key) := by
  induction root with
  | nil => simp at hmem
  | cons y rest ih =>
    have hrest : ∀ z ∈ rest, is_cstr z.key := fun z hz => hroot z (List.mem_cons_of_mem _ hz)
    have hs2 : (rest.map (fun kvp => kvp.key)).Pairwise key_lt := by
      rw [List.map_cons, List.pairwise_cons] at hs; exact hs.2
    rw [email_header_add_root_cons]
    by_cases h0 : strcmp k y.key = 0
    · simp only [h0, if_true, List.map_cons]
    · have hyk : y.key ≠ k := fun e => h0 (by rw [e]; exact strcmp_self k)
      have hmem2 : k ∈ rest.map (fun kvp => kvp.key) := by
        rw [List.map_cons, List.mem_cons] at hmem
        rcases hmem with e | e
        · exact absurd e.symm hyk
        · exact e
      by_cases h1 : strcmp k y.key < 0
      · exfalso
        obtain ⟨z, hz, hzk⟩ := List.mem_map.mp hmem2
        exact sorted_keys_ne y rest k hs (Or.inr h1) z hz hzk
      · simp only [h0, h1, if_false, List.map_cons, ih hrest hs2 hmem2]

theorem run_header_adds_wf (ops : List (List Nat × Option (List Nat)))
    (hops : ∀ op ∈ ops, is_cstr op.1) :
    (run_header_adds email_header_init ops).num_items
      = (run_header_adds email_header_init ops).root.length ∧
    ((run_header_adds email_header_init ops).root.map (fun kvp => kvp.key)).Pairwise key_lt ∧
    (∀ y ∈ (run_header_adds email_header_init ops).root, is_cstr y.key) ∧
    (∀ k, k ∈ (run_header_adds email_header_init ops).root.map (fun kvp => kvp.key)
      ↔ k ∈ ops.map (fun op => op.1)) := by
  obtain ⟨i1, i2, i3, _⟩ := run_header_adds_inv ops email_header_init hops
    (by simp [email_header_init]) rfl (by simp [email_header_init])
  have hkeys : ∀ k, k ∈ (run_header_adds email_header_init ops).root.map (fun kvp => kvp.key)
      ↔ k ∈ ops.map (fun op => op.1) := by
    intro k; rw [i3 k]; simp [email_header_init]
  refine ⟨i1, i2, ?_, hkeys⟩
  intro y hy
  have := (hkeys y.key).mp (List.mem_map_of_mem _ hy)
  obtain ⟨op, hop, e⟩ := List.mem_map.mp this
  rw [← e]
  exact hops op hop

theorem visited_filter (hdr : email_header) (k : List Nat) :
    (visited hdr).filter (fun e => decide (e.1 = k))
      = (hdr.root.filter (fun kvp => decide (kvp.key = k))).map
        (fun kvp => (kvp.key, kvp.value)) ∧
    (visited hdr).filter (fun e => !decide (e.1 = k))
      = (hdr.root.filter (fun kvp => !decide (kvp.key = k))).map
        (fun kvp => (kvp.key, kvp.value)) := by
  rw [visited_eq, List.filter_map, List.filter_map]
  exact ⟨rfl, rfl⟩

/-- C19. For every header table, that is the table after any sequence of `add` calls with C
string keys, every C string key `k` and all values `v1`, `v2`: after `add(k, v1)` followed
by `add(k, v2)` a traversal with `email_header_foreach` visits exactly one entry with key
`k`, whose value is `v2`; the entry count `num_items` is the same as after the first add and
is the number of entries visited; the entries with another key are those of the table before
the two adds, unchanged and in the same order; and `add` returns 0 whatever the table, key
and value. -/
theorem header_set_twice (ops : List (List Nat × Option (List Nat))) (k : List Nat)
    (v1 v2 : Option (List Nat)) (hops : ∀ op ∈ ops, is_cstr op.1) (hk : is_cstr k) :
    (∀ (hdr : email_header) (key : List Nat) (value : Option (List Nat)),
      (email_header_add hdr key value).1 = 0) ∧
    run_header_adds email_header_init (ops ++ [(k, v1), (k, v2)])
      = (email_header_add (email_header_add (run_header_adds email_header_init ops)
          k v1).2 k v2).2 ∧
    (visited (run_header_adds email_header_init (ops ++ [(k, v1), (k, v2)]))).filter
        (fun e => decide (e.1 = k)) = [(k, v2)] ∧
    (run_header_adds email_header_init (ops ++ [(k, v1), (k, v2)])).num_items
      = (run_header_adds email_header_init (ops ++ [(k, v1)])).num_items ∧
    (run_header_adds email_header_init (ops ++ [(k, v1), (k, v2)])).num_items
      = (visited (run_header_adds email_header_init (ops ++ [(k, v1), (k, v2)]))).length ∧
    (visited (run_header_adds email_header_init (ops ++ [(k, v1), (k, v2)]))).filter
        (fun e => !decide (e.1 = k))
      = (visited (run_header_adds email_header_init ops)).filter
        (fun e => !decide (e.1 = k)) := by
  have hops1 : ∀ op ∈ ops ++ [(k, v1)], is_cstr op.1 := by
    intro op hop
    rw [List.mem_append, List.mem_singleton] at hop
    rcases hop with h | h
    · exact hops op h
    · rw [h]; exact hk
  have hops2 : ∀ op ∈ ops ++ [(k, v1), (k, v2)], is_cstr op.1 := by
    intro op hop
    rw [List.mem_append] at hop
    rcases hop with h | h
    · exact hops op h
    · simp only [List.mem_cons, List.mem_singleton, List.not_mem_nil, or_false] at h
      rcases h with h | h <;> (rw [h]; exact hk)
  obtain ⟨a1, a2, a3, a4⟩ := run_header_adds_wf ops hops
  obtain ⟨b1, b2, b3, b4⟩ := run_header_adds_wf (ops ++ [(k, v1)]) hops1
  obtain ⟨c1, c2, c3, c4⟩ := run_header_adds_wf (ops ++ [(k, v1), (k, v2)]) hops2
  have e1 : run_header_adds email_header_init (ops ++ [(k, v1)])
      = (email_header_add (run_header_adds email_header_init ops) k v1).2 := by
    rw [run_header_adds_append]; rfl
  have e2 : run_header_adds email_header_init (ops ++ [(k, v1), (k, v2)])
      = (email_header_add (run_header_adds email_header_init (ops ++ [(k, v1)])) k v2).2 := by
    have : ops ++ [(k, v1), (k, v2)] = (ops ++ [(k, v1)]) ++ [(k, v2)] := by simp
    rw [this, run_header_adds_append]; rfl
  have hmem1 : k ∈ (run_header_adds email_header_init (ops ++ [(k, v1)])).root.map
      (fun kvp => kvp.key) := by
    rw [b4]; simp
  have s0 := email_header_add_same_key (run_header_adds email_header_init ops).root
    (run_header_adds email_header_init ops).num_items k v1 hk a3 a2
  have s1 := email_header_add_same_key (run_header_adds email_header_init (ops ++ [(k, v1)])).root
    (run_header_adds email_header_init (ops ++ [(k, v1)])).num_items k v2 hk b3 b2
  have p1 := email_header_add_present_keys
    (run_header_adds email_header_init (ops ++ [(k, v1)])).root
    (run_header_adds email_header_init (ops ++ [(k, v1)])).num_items k v2 b3 b2 hmem1
  have hlen : (run_header_adds email_header_init (ops ++ [(k, v1), (k, v2)])).root.length
      = (run_header_adds email_header_init (ops ++ [(k, v1)])).root.length := by
    have := congrArg List.length p1
    rw [List.length_map, List.length_map] at this
    rw [e2]; exact this
  refine ⟨fun hdr key value => ?_, by rw [e2, e1], ?_, ?_, ?_, ?_⟩
  · simp only [email_header_add]
    split <;> rfl
  · rw [(visited_filter _ k).1, e2, s1.1]
    rfl
  · rw [c1, b1, hlen]
  · rw [c1, visited_eq, List.length_map]
  · rw [(visited_filter _ k).2, (visited_filter _ k).2, e2, s1.2, e1, s0.2]

/-- Witness of C19: on the table with `Subject` and `A`, the key `Subject` set to `x` and
then to an absent value is visited once, with the absent value. -/
theorem header_set_twice_witness :
    (∀ op ∈ [(ascii "Subject", some (ascii "hi")), (ascii "A", some (ascii "1"))],
      is_cstr op.1) ∧
    is_cstr (ascii "Subject") ∧
    (visited (run_header_adds email_header_init
        ([(ascii "Subject", some (ascii "hi")), (ascii "A", some (ascii "1"))]
          ++ [(ascii "Subject", some (ascii "x")), (ascii "Subject", none)]))).filter
        (fun e => decide (e.1 = ascii "Subject")) = [(ascii "Subject", none)] :=
  ⟨by decide, by decide,
    (header_set_twice [(ascii "Subject", some (ascii "hi")), (ascii "A", some (ascii "1"))]
      (ascii "Subject") (some (ascii "x")) none (by decide) (by decide)).2.2.1⟩

/-! ## The payload does not depend on the buffer it is written to -/

theorem prepare_payload_fixed (fmt : Int → List Nat) (now : Int) (email : email_sender_context)
    (esc : Int) (ts : Option Int) :
    ∃ (o : Outcome Int) (x : List Nat), ∀ payload : auto_buffer,
      (email_prepare_payload fmt now email esc payload ts).1 = o ∧
      (email_prepare_payload fmt now email esc payload ts).2.start_pos = 0 ∧
      (email_prepare_payload fmt now email esc payload ts).2.wf ∧
      (email_prepare_payload fmt now email esc payload ts).2.bytes = x := by
  have w0 : ∀ payload : auto_buffer,
      ({ payload with length := 0, start_pos := 0 } : auto_buffer).wf := by
    intro payload; simp [auto_buffer.wf]
  have hb0 : ∀ payload : auto_buffer,
      ({ payload with length := 0, start_pos := 0 } : auto_buffer).bytes = [] := by
    intro payload; simp [auto_buffer.bytes]
  by_cases hd : (email_utils_generate_date fmt now 100 ts).2 > 0
  · by_cases hto : (email.addr_list.recipients.foldl collect_recipient
        (auto_buffer_init, auto_buffer_init)).1.length > 0
    · by_cases hcc : (email.addr_list.recipients.foldl collect_recipient
          (auto_buffer_init, auto_buffer_init)).2.length > 0
      · refine ⟨Outcome.ret 0, ?_⟩
        apply Exists.intro
        · intro payload
          have a0 := appended_refl _ (w0 payload)
          have a1 := appended_push _ _ _
            (ascii "Date: " ++ (email_utils_generate_date fmt now 100 ts).1 ++ CRLF) a0
          have a2 := appended_push _ _ _ (ascii "From: ") a1
          have a3 := appended_push _ _ _
            ((snprintf_s (EMAIL_ADDRESS_MAX_LENGTH + 4) email.addr_list.mail_from_addr.addr).1.take
              (snprintf_s (EMAIL_ADDRESS_MAX_LENGTH + 4) email.addr_list.mail_from_addr.addr).2) a2
          have a4 := appended_push _ _ _ CRLF a3
          have a5 := appended_push _ _ _ (ascii "To: ") a4
          have a6 := appended_push _ _ _
            ((email.addr_list.recipients.foldl collect_recipient
              (auto_buffer_init, auto_buffer_init)).1.data.take
              (email.addr_list.recipients.foldl collect_recipient
                (auto_buffer_init, auto_buffer_init)).1.length) a5
          have a7 := appended_push _ _ _ CRLF a6
          have b1 := appended_push _ _ _ (ascii "Cc: ") a7
          have b2 := appended_push _ _ _
            ((email.addr_list.recipients.foldl collect_recipient
              (auto_buffer_init, auto_buffer_init)).1.data.take
              (email.addr_list.recipients.foldl collect_recipient
                (auto_buffer_init, auto_buffer_init)).1.length) b1
          have b3 := appended_push _ _ _ CRLF b2
          have a8 := appended_trans _ _ _ _ _ b3
            (email_header_foreach_loop_appended email.hdr.root _ b3.1)
          have a9 := appended_push _ _ _ CRLF a8
          have a10 := appended_trans _ _ _ _ _ a9 (append_body_appended email.body esc _ a9.1)
          simp only [email_prepare_payload, hd, not_true_eq_false, if_false, hto, hcc, if_true,
            email_header_foreach]
          refine ⟨trivial, a10.2.1, a10.1, ?_⟩
          rw [a10.2.2, hb0]
      · refine ⟨Outcome.ret 0, ?_⟩
        apply Exists.intro
        · intro payload
          have a0 := appended_refl _ (w0 payload)
          have a1 := appended_push _ _ _
            (ascii "Date: " ++ (email_utils_generate_date fmt now 100 ts).1 ++ CRLF) a0
          have a2 := appended_push _ _ _ (ascii "From: ") a1
          have a3 := appended_push _ _ _
            ((snprintf_s (EMAIL_ADDRESS_MAX_LENGTH + 4) email.addr_list.mail_from_addr.addr).1.take
              (snprintf_s (EMAIL_ADDRESS_MAX_LENGTH + 4) email.addr_list.mail_from_addr.addr).2) a2
          have a4 := appended_push _ _ _ CRLF a3
          have a5 := appended_push _ _ _ (ascii "To: ") a4
          have a6 := appended_push _ _ _
            ((email.addr_list.recipients.foldl collect_recipient
              (auto_buffer_init, auto_buffer_init)).1.data.take
              (email.addr_list.recipients.foldl collect_recipient
                (auto_buffer_init, auto_buffer_init)).1.length) a5
          have a7 := appended_push _ _ _ CRLF a6
          have a8 := appended_trans _ _ _ _ _ a7
            (email_header_foreach_loop_appended email.hdr.root _ a7.1)
          have a9 := appended_push _ _ _ CRLF a8
          have a10 := appended_trans _ _ _ _ _ a9 (append_body_appended email.body esc _ a9.1)
          simp only [email_prepare_payload, hd, not_true_eq_false, if_false, hto, hcc, if_true,
            email_header_foreach]
          refine ⟨trivial, a10.2.1, a10.1, ?_⟩
          rw [a10.2.2, hb0]
    · refine ⟨Outcome.aborted, ?_⟩
      apply Exists.intro
      · intro payload
        have a0 := appended_refl _ (w0 payload)
        have a1 := appended_push _ _ _
          (ascii "Date: " ++ (email_utils_generate_date fmt now 100 ts).1 ++ CRLF) a0
        have a2 := appended_push _ _ _ (ascii "From: ") a1
        have a3 := appended_push _ _ _
          ((snprintf_s (EMAIL_ADDRESS_MAX_LENGTH + 4) email.addr_list.mail_from_addr.addr).1.take
            (snprintf_s (EMAIL_ADDRESS_MAX_LENGTH + 4) email.addr_list.mail_from_addr.addr).2) a2
        have a4 := appended_push _ _ _ CRLF a3
        simp only [email_prepare_payload, hd, not_true_eq_false, if_false, hto, not_false_eq_true,
          if_true]
        refine ⟨trivial, a4.2.1, a4.1, ?_⟩
        rw [a4.2.2, hb0]
  · refine ⟨Outcome.aborted, [], fun payload => ?_⟩
    have e : email_prepare_payload fmt now email esc payload ts
        = (Outcome.aborted, { payload with length := 0, start_pos := 0 }) := by
      simp only [email_prepare_payload, hd, not_false_eq_true, if_true]
    rw [e]
    exact ⟨rfl, rfl, w0 payload, hb0 payload⟩

theorem email_utils_generate_date_time (fmt : Int → List Nat) (now : Int) (size : Nat)
    (ts : Option Int) :
    email_utils_generate_date fmt now size ts
      = if (fmt (time_used now ts)).length < size then
          (fmt (time_used now ts), ((fmt (time_used now ts)).length : Int))
        else ([], 0) := by
  cases ts <;> rfl

/-- C20, as the code has it. `email_prepare_payload` is deterministic in its inputs once the
clock is counted among them: for any two calls with equal sender record, equal ordered
recipient records, equal header table, equal body, equal `escape_dot_char` flag and equal
timestamp, and with equal clock readings when the timestamp is NULL, the outcomes are the
same and the payloads are byte-identical with `start_pos` 0, whatever the two payload
buffers held before the call. -/
theorem prepare_payload_deterministic (fmt : Int → List Nat) (now1 now2 : Int)
    (email1 email2 : email_sender_context) (esc : Int) (payload1 payload2 : auto_buffer)
    (ts1 ts2 : Option Int)
    (hsender : email1.addr_list.mail_from_addr = email2.addr_list.mail_from_addr)
    (hrecipients : email1.addr_list.recipients = email2.addr_list.recipients)
    (hhdr : email1.hdr = email2.hdr)
    (hbody : email1.body = email2.body)
    (hts : ts1 = ts2)
    (hclock : ts1 = none → now1 = now2) :
    (email_prepare_payload fmt now1 email1 esc payload1 ts1).1
      = (email_prepare_payload fmt now2 email2 esc payload2 ts2).1 ∧
    (email_prepare_payload fmt now1 email1 esc payload1 ts1).2.bytes
      = (email_prepare_payload fmt now2 email2 esc payload2 ts2).2.bytes ∧
    (email_prepare_payload fmt now1 email1 esc payload1 ts1).2.start_pos = 0 ∧
    (email_prepare_payload fmt now2 email2 esc payload2 ts2).2.start_pos = 0 := by
  have htime : time_used now1 ts1 = time_used now2 ts2 := by
    subst hts
    cases ts1 with
    | none => exact hclock rfl
    | some t => rfl
  have hdate : email_utils_generate_date fmt now1 100 ts1
      = email_utils_generate_date fmt now2 100 ts2 := by
    rw [email_utils_generate_date_time, email_utils_generate_date_time, htime]
  have hsame : email_prepare_payload fmt now1 email1 esc payload2 ts1
      = email_prepare_payload fmt now2 email2 esc payload2 ts2 := by
    simp only [email_prepare_payload, hsender, hrecipients, hhdr, hbody, hdate]
  obtain ⟨o, x, h⟩ := prepare_payload_fixed fmt now1 email1 esc ts1
  obtain ⟨h1, h2, _, h4⟩ := h payload1
  obtain ⟨g1, g2, _, g4⟩ := h payload2
  rw [← hsame]
  exact ⟨h1.trans g1.symm, h4.trans g4.symm, h2, g2⟩

/-- Witness of C20: the same session prepared with a NULL timestamp at the clock reading 7,
once into an empty buffer and once into a partly drained buffer, with a formatter that
depends on the time. -/
theorem prepare_payload_deterministic_witness :
    (email_prepare_payload clock_fmt 7 session_to_cc_bcc 1 auto_buffer_init none).1
      = Outcome.ret 0 ∧
    (email_prepare_payload clock_fmt 7 session_to_cc_bcc 1 auto_buffer_init none).2.bytes
      = (email_prepare_payload clock_fmt 7 session_to_cc_bcc 1
          { data := [1, 2, 3], start_pos := 2, length := 1 } none).2.bytes :=
  ⟨by decide,
    (prepare_payload_deterministic clock_fmt 7 7 session_to_cc_bcc session_to_cc_bcc 1
      auto_buffer_init { data := [1, 2, 3], start_pos := 2, length := 1 } none none
      rfl rfl rfl rfl rfl (fun _ => rfl)).2.1⟩

/-- C20, as stated, fails: two calls with the same session, the same flag and the same
timestamp, NULL in both, give different payloads when the clock reads 0 at the first and 1 at
the second; both succeed. -/
theorem prepare_payload_null_timestamp_follows_clock :
    (email_prepare_payload clock_fmt 0 session_basic 1 auto_buffer_init none).1
      = Outcome.ret 0 ∧
    (email_prepare_payload clock_fmt 1 session_basic 1 auto_buffer_init none).1
      = Outcome.ret 0 ∧
    (email_prepare_payload clock_fmt 0 session_basic 1 auto_buffer_init none).2.bytes
      ≠ (email_prepare_payload clock_fmt 1 session_basic 1 auto_buffer_init none).2.bytes := by
  decide


/-! ## What the payload buffer holds when the To list is empty -/

/-- C21, as the code has it. For every session whose registry holds no To-classified record,
`email_prepare_payload` is aborted at the assertion on the To list, which stands after the
pushes of the Date and From lines: the payload buffer handed to it was reset and holds
exactly the Date line and the From line (nothing at all when the date could not be
generated, the earlier assertion), and no To, Cc or header line and no body byte. -/
theorem prepare_payload_abort_holds_date_from (fmt : Int → List Nat) (now : Int)
    (email : email_sender_context) (esc : Int) (payload : auto_buffer) (ts : Option Int)
    (hs : email.addr_list.mail_from_addr.addr.length ≤ EMAIL_ADDRESS_MAX_LENGTH)
    (hto : addrs_of email_address_type.to email.addr_list.recipients = []) :
    (email_prepare_payload fmt now email esc payload ts).1 = Outcome.aborted ∧
    (email_prepare_payload fmt now email esc payload ts).2.start_pos = 0 ∧
    (email_prepare_payload fmt now email esc payload ts).2.bytes
      = if 0 < (email_utils_generate_date fmt now 100 ts).2 then
          ascii "Date: " ++ (email_utils_generate_date fmt now 100 ts).1 ++ CRLF
            ++ (ascii "From: " ++ email.addr_list.mail_from_addr.addr ++ CRLF)
        else [] := by
  have h1 := collect_recipient_fst_of_not_to (auto_buffer_init, auto_buffer_init) _ hto
  have h2 : ¬ ((email.addr_list.recipients.foldl collect_recipient
      (auto_buffer_init, auto_buffer_init)).1.length > 0) := by
    rw [h1]; decide
  have w0 : ({ payload with length := 0, start_pos := 0 } : auto_buffer).wf := by
    simp [auto_buffer.wf]
  have hb0 : ({ payload with length := 0, start_pos := 0 } : auto_buffer).bytes = [] := by
    simp [auto_buffer.bytes]
  by_cases hd : (email_utils_generate_date fmt now 100 ts).2 > 0
  · have a0 := appended_refl _ w0
    have a1 := appended_push _ _ _
      (ascii "Date: " ++ (email_utils_generate_date fmt now 100 ts).1 ++ CRLF) a0
    have a2 := appended_push _ _ _ (ascii "From: ") a1
    have a3 := appended_push _ _ _ email.addr_list.mail_from_addr.addr a2
    have a4 := appended_push _ _ _ CRLF a3
    have hd2 : 0 < (email_utils_generate_date fmt now 100 ts).2 := hd
    simp only [email_prepare_payload, hd, not_true_eq_false, if_false, h2, not_false_eq_true,
      if_true, snprintf_s_take _ hs, hd2]
    refine ⟨trivial, a4.2.1, ?_⟩
    rw [a4.2.2, hb0]
    simp only [List.nil_append, List.append_assoc, List.append_nil]
  · have hd2 : ¬ 0 < (email_utils_generate_date fmt now 100 ts).2 := hd
    simp only [email_prepare_payload, hd, if_true, not_false_eq_true, hd2, if_false]
    exact ⟨trivial, trivial, hb0⟩

/-- Witness of C21: the session with sender `s@x.com` and the single Cc recipient
`c@x.com` is aborted with the Date and From lines in the buffer. -/
theorem prepare_payload_abort_holds_date_from_witness :
    session_cc_only.addr_list.mail_from_addr.addr.length ≤ EMAIL_ADDRESS_MAX_LENGTH ∧
    addrs_of email_address_type.to session_cc_only.addr_list.recipients = [] ∧
    (email_prepare_payload example_fmt 0 session_cc_only 0 auto_buffer_init (some 0)).2.bytes
      = if 0 < (email_utils_generate_date example_fmt 0 100 (some 0)).2 then
          ascii "Date: " ++ (email_utils_generate_date example_fmt 0 100 (some 0)).1 ++ CRLF
            ++ (ascii "From: " ++ session_cc_only.addr_list.mail_from_addr.addr ++ CRLF)
        else [] :=
  ⟨by decide, by decide,
    (prepare_payload_abort_holds_date_from example_fmt 0 session_cc_only 0 auto_buffer_init
      (some 0) (by decide) (by decide)).2.2⟩

/-- C21, as stated, fails: on the session with sender `s@x.com` and the single Cc recipient
`c@x.com` the To list is empty and the preparation fails, yet the payload buffer, empty
when handed over, holds the Date line and the From line after the failure. -/
theorem prepare_payload_abort_leaves_partial_output :
    addrs_of email_address_type.to session_cc_only.addr_list.recipients = [] ∧
    (email_prepare_payload example_fmt 0 session_cc_only 0 auto_buffer_init (some 0)).1
      = Outcome.aborted ∧
    (email_prepare_payload example_fmt 0 session_cc_only 0 auto_buffer_init (some 0)).2.bytes
      = ascii "Date: Thu, 01 Jan 1970 00:00:00 +0000\r\nFrom: s@x.com\r\n" ∧
    (email_prepare_payload example_fmt 0 session_cc_only 0 auto_buffer_init (some 0)).2.bytes
      ≠ [] := by
  decide


/-! ## The boundary between the header block and the body -/

theorem first_blank_line_skip (c x : List Nat) (hc : ∀ b ∈ c, b ≠ 13) :
    first_blank_line (c ++ x) = (first_blank_line x).map (fun k => k + c.length) := by
  induction c with
  | nil => simp
  | cons b c ih =>
    have hb : b ≠ 13 := hc b (List.mem_cons_self _ _)
    have ih2 := ih (fun y hy => hc y (List.mem_cons_of_mem _ hy))
    have hne : ¬ ((b :: (c ++ x)).take 4 = CRLF ++ CRLF) := by
      intro h
      simp only [List.take_succ_cons, CRLF, List.cons_append, List.nil_append,
        List.cons.injEq] at h
      exact hb h.1
    rw [List.cons_append, first_blank_line, if_neg hne, ih2, Option.map_map]
    congr 1

theorem boundary_before_base (body : List Nat) :
    boundary_before (CRLF ++ (CRLF ++ body)) body := by
  refine ⟨0, ?_, ?_, ?_⟩
  · simp [first_blank_line, CRLF]
  · simp [CRLF]; omega
  · simp [CRLF]

theorem boundary_before_content (c x body : List Nat) (hc : ∀ b ∈ c, b ≠ 13)
    (h : boundary_before x body) : boundary_before (c ++ x) body := by
  obtain ⟨k, h1, h2, h3⟩ := h
  refine ⟨k + c.length, ?_, ?_, ?_⟩
  · rw [first_blank_line_skip c x hc, h1]; rfl
  · rw [List.length_append]; omega
  · have : k + c.length + 4 = c.length + (k + 4) := by omega
    rw [this, ← List.drop_drop, List.drop_left]
    exact h3

theorem boundary_before_line (c s body : List Nat) (hc : ∀ b ∈ c, b ≠ 13) (hne : c ≠ [])
    (h : boundary_before (CRLF ++ s) body) :
    boundary_before (CRLF ++ (c ++ (CRLF ++ s))) body := by
  obtain ⟨k, h1, h2, h3⟩ := boundary_before_content c _ body hc h
  cases c with
  | nil => exact absurd rfl hne
  | cons t c =>
    have ht : t ≠ 13 := hc t (List.mem_cons_self _ _)
    refine ⟨k + 2, ?_, ?_, ?_⟩
    · have e1 : ¬ ((13 :: 10 :: (t :: c ++ (CRLF ++ s))).take 4 = CRLF ++ CRLF) := by
        intro h
        simp only [List.take_succ_cons, CRLF, List.cons_append, List.nil_append,
          List.cons.injEq] at h
        exact ht h.2.2.1
      have e2 : ¬ ((10 :: (t :: c ++ (CRLF ++ s))).take 4 = CRLF ++ CRLF) := by
        intro h
        simp only [List.take_succ_cons, CRLF, List.cons_append, List.nil_append,
          List.cons.injEq] at h
        exact absurd h.1 (by decide)
      show first_blank_line (13 :: 10 :: (t :: c ++ (CRLF ++ s))) = some (k + 2)
      rw [first_blank_line, if_neg e1, first_blank_line, if_neg e2, h1]
      rfl
    · have : (CRLF ++ (t :: c ++ (CRLF ++ s))).length = (t :: c ++ (CRLF ++ s)).length + 2 := by
        simp [CRLF]
      rw [this]; omega
    · show (13 :: 10 :: (t :: c ++ (CRLF ++ s))).drop (k + 2 + 4) = body
      have : k + 2 + 4 = (k + 4) + 1 + 1 := by omega
      rw [this, List.drop_succ_cons, List.drop_succ_cons]
      exact h3


theorem join_addrs_no_cr (xs : List (List Nat)) (h : ∀ x ∈ xs, ∀ b ∈ x, b ≠ 13) :
    ∀ b ∈ join_addrs xs, b ≠ 13 := by
  induction xs with
  | nil => intro b hb; simp [join_addrs] at hb
  | cons x rest ih =>
    cases rest with
    | nil => intro b hb; exact h x (List.mem_cons_self _ _) b (by simpa [join_addrs] using hb)
    | cons y rest =>
      intro b hb
      rw [join_addrs, List.mem_append, List.mem_append] at hb
      rcases hb with (hb | hb) | hb
      · exact h x (List.mem_cons_self _ _) b hb
      · revert hb; revert b; decide
      · exact ih (fun z hz => h z (List.mem_cons_of_mem _ hz)) b hb

theorem addrs_of_mem (t : email_address_type) (rs : List (Option email_address_data))
    (x : List Nat) (hx : x ∈ addrs_of t rs) : ∃ r, some r ∈ rs ∧ r.addr = x := by
  induction rs with
  | nil => simp [addrs_of] at hx
  | cons slot rest ih =>
    cases slot with
    | none =>
      obtain ⟨r, hr, e⟩ := ih (by simpa [addrs_of] using hx)
      exact ⟨r, List.mem_cons_of_mem _ hr, e⟩
    | some r0 =>
      by_cases ht : r0.type = t
      · rw [addrs_of, if_pos ht, List.mem_cons] at hx
        rcases hx with hx | hx
        · exact ⟨r0, List.mem_cons_self _ _, hx.symm⟩
        · obtain ⟨r, hr, e⟩ := ih hx
          exact ⟨r, List.mem_cons_of_mem _ hr, e⟩
      · rw [addrs_of, if_neg ht] at hx
        obtain ⟨r, hr, e⟩ := ih hx
        exact ⟨r, List.mem_cons_of_mem _ hr, e⟩

theorem header_lines_boundary (root : List skey_value_pair) (body : List Nat)
    (h : ∀ kvp ∈ root, (∀ b ∈ kvp.key, b ≠ 13) ∧ ∀ b ∈ kvp.value.getD [], b ≠ 13) :
    boundary_before (CRLF ++ (header_lines root ++ (CRLF ++ body))) body := by
  induction root with
  | nil => simpa [header_lines] using boundary_before_base body
  | cons kvp rest ih =>
    have ih2 := ih (fun z hz => h z (List.mem_cons_of_mem _ hz))
    obtain ⟨hk, hv⟩ := h kvp (List.mem_cons_self _ _)
    have hc : ∀ b ∈ kvp.key ++ ascii ": " ++ kvp.value.getD [], b ≠ 13 := by
      intro b hb
      rw [List.mem_append, List.mem_append] at hb
      rcases hb with (hb | hb) | hb
      · exact hk b hb
      · revert hb; revert b; decide
      · exact hv b hb
    have hne : kvp.key ++ ascii ": " ++ kvp.value.getD [] ≠ [] := by
      intro e
      have := congrArg List.length e
      simp [ascii] at this
    have := boundary_before_line _ _ body hc hne ih2
    simpa [header_lines, List.append_assoc] using this


theorem mem_stored_addrs (list : email_address_list) (r : email_address_data)
    (h : some r ∈ list.recipients) : r.addr ∈ stored_addrs list :=
  List.mem_filterMap.mpr ⟨some r, h, rfl⟩

/-- C22. For every session with at least one To recipient whose date string, sender, recipient
raw addresses, header keys and header values hold neither CR nor LF (the date generated,
sender and recipients within the 256 bytes the registry accepts), for every body and both
values of the escaping flag: `email_prepare_payload` succeeds, and the first occurrence of
CR LF CR LF in the payload ends exactly where the serialized body begins. -/
theorem first_blank_line_ends_headers (fmt : Int → List Nat) (now : Int)
    (email : email_sender_context) (esc : Int) (payload : auto_buffer) (ts : Option Int)
    (hd : 0 < (email_utils_generate_date fmt now 100 ts).2)
    (hdate : no_cr_lf (email_utils_generate_date fmt now 100 ts).1)
    (hs : email.addr_list.mail_from_addr.addr.length ≤ EMAIL_ADDRESS_MAX_LENGTH)
    (hsender : no_cr_lf email.addr_list.mail_from_addr.addr)
    (hrec : ∀ a ∈ stored_addrs email.addr_list,
      a ≠ [] ∧ a.length ≤ EMAIL_ADDRESS_MAX_LENGTH ∧ no_cr_lf a)
    (hto : addrs_of email_address_type.to email.addr_list.recipients ≠ [])
    (hhdr : ∀ kvp ∈ email.hdr.root, no_cr_lf kvp.key ∧ no_cr_lf (kvp.value.getD [])) :
    (email_prepare_payload fmt now email esc payload ts).1 = Outcome.ret 0 ∧
    boundary_before (email_prepare_payload fmt now email esc payload ts).2.bytes
      (body_out email.body esc) := by
  have hr : ∀ r, some r ∈ email.addr_list.recipients →
      r.addr ≠ [] ∧ r.addr.length ≤ EMAIL_ADDRESS_MAX_LENGTH := fun r h =>
    ⟨(hrec _ (mem_stored_addrs _ r h)).1, (hrec _ (mem_stored_addrs _ r h)).2.1⟩
  obtain ⟨p1, _, _, p4⟩ := prepare_payload_returns fmt now email esc payload ts hd hs hr hto
  refine ⟨p1, ?_⟩
  rw [p4]
  have hjoin : ∀ b ∈ join_addrs (addrs_of email_address_type.to email.addr_list.recipients),
      b ≠ 13 := by
    apply join_addrs_no_cr
    intro x hx b hb
    obtain ⟨r, hr1, hr2⟩ := addrs_of_mem _ _ x hx
    exact ((hrec _ (mem_stored_addrs _ r hr1)).2.2 b (hr2 ▸ hb)).1
  have hto_line : ∀ b ∈ ascii "To: "
      ++ join_addrs (addrs_of email_address_type.to email.addr_list.recipients), b ≠ 13 := by
    intro b hb
    rcases List.mem_append.mp hb with hb | hb
    · exact (by decide : ∀ c ∈ ascii "To: ", c ≠ 13) b hb
    · exact hjoin b hb
  have hcc_line : ∀ b ∈ ascii "Cc: "
      ++ join_addrs (addrs_of email_address_type.to email.addr_list.recipients), b ≠ 13 := by
    intro b hb
    rcases List.mem_append.mp hb with hb | hb
    · exact (by decide : ∀ c ∈ ascii "Cc: ", c ≠ 13) b hb
    · exact hjoin b hb
  have hfrom_line : ∀ b ∈ ascii "From: " ++ email.addr_list.mail_from_addr.addr, b ≠ 13 := by
    intro b hb
    rcases List.mem_append.mp hb with hb | hb
    · exact (by decide : ∀ c ∈ ascii "From: ", c ≠ 13) b hb
    · exact (hsender b hb).1
  have hdate_line : ∀ b ∈ ascii "Date: " ++ (email_utils_generate_date fmt now 100 ts).1,
      b ≠ 13 := by
    intro b hb
    rcases List.mem_append.mp hb with hb | hb
    · exact (by decide : ∀ c ∈ ascii "Date: ", c ≠ 13) b hb
    · exact (hdate b hb).1
  have hne : ∀ (p x : List Nat), p ≠ [] → p ++ x ≠ [] := by
    intro p x hp e
    exact hp (List.append_eq_nil.mp e).1
  have h0 := header_lines_boundary email.hdr.root (body_out email.body esc)
    (fun kvp hk => ⟨fun b hb => ((hhdr kvp hk).1 b hb).1, fun b hb => ((hhdr kvp hk).2 b hb).1⟩)
  by_cases hcc : addrs_of email_address_type.cc email.addr_list.recipients = []
  · have h1 := boundary_before_line _ _ _ hto_line (hne _ _ (by decide)) h0
    have h2 := boundary_before_line _ _ _ hfrom_line (hne _ _ (by decide)) h1
    have h3 := boundary_before_content _ _ _ hdate_line h2
    rw [if_pos hcc]
    simpa only [List.append_assoc, List.append_nil, List.nil_append] using h3
  · have h1 := boundary_before_line _ _ _ hcc_line (hne _ _ (by decide)) h0
    have h2 := boundary_before_line _ _ _ hto_line (hne _ _ (by decide)) h1
    have h3 := boundary_before_line _ _ _ hfrom_line (hne _ _ (by decide)) h2
    have h4 := boundary_before_content _ _ _ hdate_line h3
    rw [if_neg hcc]
    simpa only [List.append_assoc, List.append_nil, List.nil_append] using h4

/-- Witness of C22: the session with sender `s@x.com`, To `a@x.com`, Cc `c@x.com`, Bcc
`b@x.com`, header `X-Test: 1` and body `hi.there`, prepared with dot escaping. -/
theorem first_blank_line_ends_headers_witness :
    addrs_of email_address_type.to session_to_cc_bcc.addr_list.recipients ≠ [] ∧
    (∀ kvp ∈ session_to_cc_bcc.hdr.root, no_cr_lf kvp.key ∧ no_cr_lf (kvp.value.getD [])) ∧
    boundary_before
      (email_prepare_payload example_fmt 0 session_to_cc_bcc 1 auto_buffer_init (some 0)).2.bytes
      (body_out session_to_cc_bcc.body 1) :=
  ⟨by decide, by decide,
    (first_blank_line_ends_headers example_fmt 0 session_to_cc_bcc 1 auto_buffer_init (some 0)
      (by decide) (by decide) (by decide) (by decide) (by decide) (by decide) (by decide)).2⟩


/-! ## The server URL -/

theorem email_set_smtp_server_eq (email : email_sender_context) (mode : smtp_security_mode)
    (server_name : List Nat) (port : Nat) :
    email_set_smtp_server email mode server_name port
      = Outcome.ret (0, { email with
          security_mode := mode.code
          url := (smtp_url mode server_name port).take (PATH_MAX - 1) }) := by
  have hpos : ∀ (p : List Nat) (x : List Nat), p ≠ [] →
      ((p ++ ascii "://" ++ server_name ++ ascii ":" ++ x).length : Int) > 0 := by
    intro p x hp
    have : 0 < p.length := List.length_pos.mpr hp
    simp only [List.length_append, gt_iff_lt]
    omega
  cases mode
  all_goals
    simp only [email_set_smtp_server, snprintf_url, s_protocols, smtp_url, reduceCtorEq,
      if_false, if_true, List.getD_cons_zero, List.getD_cons_succ]
    rw [if_neg (not_not.mpr (hpos _ _ (by decide)))]

/-- C23, as the code has it. For every mode, server name and port whose URL text is shorter
than `PATH_MAX`, `email_set_smtp_server` returns 0, records the mode and stores the URL
scheme + `://` + server_name + `:` + port, where the scheme is `smtps` exactly for the ssl
mode and `smtp` for every other mode, and a port of 0 is replaced by 465 for the ssl mode and
by 587 for every other mode; a non-zero port is used as given. -/
theorem set_smtp_server_stores_url (email : email_sender_context) (mode : smtp_security_mode)
    (server_name : List Nat) (port : Nat)
    (hfit : (smtp_url mode server_name port).length < PATH_MAX) :
    email_set_smtp_server email mode server_name port
      = Outcome.ret (0, { email with
          security_mode := mode.code
          url := smtp_url mode server_name port }) := by
  rw [email_set_smtp_server_eq, List.take_of_length_le (Nat.le_sub_one_of_lt hfit)]

/-- Witness of C23: the ssl mode, the server `smtp.x.com` and port 0 give the URL
`smtps://smtp.x.com:465`. -/
theorem set_smtp_server_stores_url_witness :
    (smtp_url smtp_security_mode.ssl (ascii "smtp.x.com") 0).length < PATH_MAX ∧
    smtp_url smtp_security_mode.ssl (ascii "smtp.x.com") 0 = ascii "smtps://smtp.x.com:465" ∧
    email_set_smtp_server email_sender_context_init smtp_security_mode.ssl (ascii "smtp.x.com") 0
      = Outcome.ret (0, { email_sender_context_init with
          security_mode := smtp_security_mode.ssl.code
          url := smtp_url smtp_security_mode.ssl (ascii "smtp.x.com") 0 }) :=
  ⟨by decide, by decide,
    set_smtp_server_stores_url email_sender_context_init smtp_security_mode.ssl
      (ascii "smtp.x.com") 0 (by decide)⟩

/-- C23, as stated, fails: for a server name of 4096 bytes the call returns 0 and the URL
stored is not the whole text: `snprintf` writes its first 4095 bytes only. -/
theorem set_smtp_server_truncates_long_name :
    ∃ e, email_set_smtp_server email_sender_context_init smtp_security_mode.default
        long_server_name 25 = Outcome.ret (0, e) ∧
      e.url.length = 4095 ∧
      e.url ≠ smtp_url smtp_security_mode.default long_server_name 25 := by
  have hlen : (smtp_url smtp_security_mode.default long_server_name 25).length = 4106 := by
    have e1 : (ascii "smtp").length = 4 := by decide
    have e2 : (ascii "://").length = 3 := by decide
    have e3 : (ascii ":").length = 1 := by decide
    have e4 : (decimal 25).length = 2 := by decide
    have h3 : smtp_url smtp_security_mode.default long_server_name 25
        = ascii "smtp" ++ ascii "://" ++ long_server_name ++ ascii ":" ++ decimal 25 := rfl
    rw [h3]
    simp only [List.length_append, long_server_name, List.length_replicate, e1, e2, e3, e4]
  refine ⟨_, email_set_smtp_server_eq _ _ _ _, ?_, ?_⟩
  · simp only [List.length_take, hlen, PATH_MAX]
    decide
  · intro h
    have h2 := congrArg List.length h
    simp only [List.length_take, hlen, PATH_MAX] at h2
    exact absurd h2 (by decide)

/-- The modes other than ssl and a given port: `smtp://smtp.x.com:587` for port 0 in the
try_tls, force_tls and default modes, `smtp://smtp.x.com:2525` for port 2525. -/
theorem smtp_url_examples :
    smtp_url smtp_security_mode.try_tls (ascii "smtp.x.com") 0 = ascii "smtp://smtp.x.com:587" ∧
    smtp_url smtp_security_mode.force_tls (ascii "smtp.x.com") 0
      = ascii "smtp://smtp.x.com:587" ∧
    smtp_url smtp_security_mode.default (ascii "smtp.x.com") 0 = ascii "smtp://smtp.x.com:587" ∧
    smtp_url smtp_security_mode.default (ascii "smtp.x.com") 2525
      = ascii "smtp://smtp.x.com:2525" ∧
    smtp_url smtp_security_mode.ssl (ascii "smtp.x.com") 2525
      = ascii "smtps://smtp.x.com:2525" := by
  decide


/-! ## The envelope recipient list -/

theorem send_recipients_fold (rs : List (Option email_address_data)) (acc : List (List Nat)) :
    rs.foldl
      (fun recipients slot =>
        match slot with
        | none => recipients
        | some recipient => curl_slist_append recipients recipient.addr)
      acc
      = acc ++ rs.filterMap (fun slot => slot.map (fun r => r.addr)) := by
  induction rs generalizing acc with
  | nil => simp
  | cons slot rest ih =>
    cases slot with
    | none => simpa using ih acc
    | some r =>
      rw [List.foldl_cons, ih]
      simp [curl_slist_append]

theorem email_libcurl_send_recipients_eq (email : email_sender_context) :
    email_libcurl_send_recipients email = stored_addrs email.addr_list := by
  unfold email_libcurl_send_recipients stored_addrs
  rw [send_recipients_fold]
  rfl

theorem fold_entry_op (policy : email_address_duplicates_policy) (ops : List registry_op)
    (acc : List (email_address_type × List Nat)) :
    ops.foldl (entry_op policy) (entries_after policy acc)
      = entries_after policy (ops.foldl
          (fun acc op =>
            match op with
            | registry_op.add t a => acc ++ [(t, a)]
            | registry_op.clear => [])
          acc) := by
  induction ops generalizing acc with
  | nil => rfl
  | cons op rest ih =>
    cases op with
    | add t a =>
      rw [List.foldl_cons, List.foldl_cons]
      show List.foldl (entry_op policy) (entry_add policy (entries_after policy acc) (t, a)) rest
        = _
      rw [← entries_after_snoc, ih]
    | clear =>
      rw [List.foldl_cons, List.foldl_cons]
      exact ih []

theorem run_ops_entries (policy : email_address_duplicates_policy) (ops : List registry_op) :
    ops.foldl (entry_op policy) [] = entries_after policy (adds_since_clear ops) :=
  fold_entry_op policy ops []


/-- C24. For every session whose registry was reached from an initialised registry by adds and
clears of valid addresses, under either duplicate policy: the list `email_libcurl_send` hands
to the transport as envelope recipients is the list of the raw addresses of all records of the
registry in list order, which is the order in which the addresses were first added since the
last clear; no address occurs twice in it, it has `num_recipients` elements, and the raw
address of every record, whatever its classification (Bcc included), is in it. -/
theorem envelope_holds_every_record (policy : email_address_duplicates_policy)
    (m : email_address_data) (ops : List registry_op) (email : email_sender_context)
    (hops : ∀ op ∈ ops, op_valid op)
    (hrun : run_ops (registry_start policy m) ops = Outcome.ret email.addr_list) :
    email_libcurl_send_recipients email = stored_addrs email.addr_list ∧
    email_libcurl_send_recipients email
      = first_seen ((adds_since_clear ops).map (fun op => op.2)) ∧
    (email_libcurl_send_recipients email).Nodup ∧
    (email_libcurl_send_recipients email).length = email.addr_list.num_recipients ∧
    ∀ r, some r ∈ email.addr_list.recipients →
      r.addr ∈ email_libcurl_send_recipients email := by
  have h := run_ops_holds policy m ops email.addr_list hops hrun
  have e1 := email_libcurl_send_recipients_eq email
  have e2 := stored_addrs_eq policy m email.addr_list _ h
  refine ⟨e1, ?_, ?_, ?_, ?_⟩
  · rw [e1, e2, run_ops_entries, entries_after_keys]
  · rw [e1, e2]
    exact h.2.2.2.2.2.2.2.2.2
  · rw [e1, e2, List.length_map]
    exact h.2.2.2.2.1.symm
  · intro r hr
    rw [e1]
    exact List.mem_filterMap.mpr ⟨some r, hr, rfl⟩

/-- Witness of C24: after the adds To `a@x.com`, Cc `c@x.com`, Bcc `b@x.com` and `a@x.com`
again, the envelope recipients are `a@x.com`, `c@x.com`, `b@x.com`; the payload of the same
session names `a@x.com` only. -/
theorem envelope_holds_every_record_witness :
    (∀ op ∈ envelope_ops, op_valid op) ∧
    run_ops (registry_start email_address_duplicates_policy.discard
      session_sender.addr_list.mail_from_addr) envelope_ops
      = Outcome.ret session_envelope.addr_list ∧
    email_libcurl_send_recipients session_envelope
      = first_seen ((adds_since_clear envelope_ops).map (fun op => op.2)) ∧
    first_seen ((adds_since_clear envelope_ops).map (fun op => op.2))
      = [ascii "a@x.com", ascii "c@x.com", ascii "b@x.com"] ∧
    (email_prepare_payload example_fmt 0 session_envelope 0 auto_buffer_init none).2.bytes
      = ascii ("Date: Thu, 01 Jan 1970 00:00:00 +0000\r\nFrom: s@x.com\r\n"
          ++ "To: a@x.com\r\nCc: a@x.com\r\n\r\n") :=
  ⟨by decide, by decide,
    (envelope_holds_every_record email_address_duplicates_policy.discard
      session_sender.addr_list.mail_from_addr envelope_ops session_envelope
      (by decide) (by decide)).2.1,
    by decide, by decide⟩


/-! ## The invariant of the registry -/

/-- The status line `HTTP/1.1 200 OK` is recorded with its three tokens. -/
theorem client_after_status_eq :
    client_after_status = { net_utils_http_client_init with
      status_line := some (ascii "HTTP/1.1 200 OK\r\n")
      protocol := some (ascii "HTTP/1.1")
      status_code := some (ascii "200")
      status_descriptions := some (ascii "OK") } := by
  decide

/-- A header line without a colon in its value is stored whole: `Content-Type: text/html`
gives the key `Content-Type` and the value ` text/html`. -/
theorem http_headers_add_line_plain :
    ∃ h, http_headers_add_line net_utils_http_headers_init
        (ascii "Content-Type: text/html\r\n") 25 = Outcome.ret (0, h) ∧
      h.pairs = [some (skey_value_pair_new (ascii "Content-Type") (some (ascii " text/html"))
        (-1))] := by
  refine ⟨_, rfl, ?_⟩
  decide

/-- C26 evaluated at the line `Location: http://x/` CR LF, of 21 bytes: the call returns 0 and
appends one pair with key `Location`, and its value is ` http`, the part of the rest before
its first colon, not the whole rest ` http://x/`. -/
theorem http_headers_add_line_cuts_value_at_colon :
    ascii "Location: http://x/\r\n" = ascii "Location" ++ ascii ":" ++ ascii " http://x/" ++ CRLF ∧
    ∃ h, http_headers_add_line net_utils_http_headers_init
        (ascii "Location: http://x/\r\n") 21 = Outcome.ret (0, h) ∧
      h.pairs = [some (skey_value_pair_new (ascii "Location") (some (ascii " http")) (-1))] ∧
      h.pairs ≠ [some (skey_value_pair_new (ascii "Location") (some (ascii " http://x/"))
        (-1))] := by
  refine ⟨by decide, _, rfl, ?_, ?_⟩ <;> decide


/-! ## The header callback -/

/-- C27 evaluated at the chunk `:` CR LF, of 3 bytes, handed over after the status line has
been recorded: `strtok_r` finds no token in it, the `assert(key)` of `http_headers_add_line`
fails and the callback does not return. -/
theorem on_parse_header_aborts_on_delimiters :
    client_after_status.status_line ≠ none ∧
    http_headers_add_line client_after_status.response_headers (ascii ":\r\n") 3
      = Outcome.aborted ∧
    on_parse_header (ascii ":\r\n") 1 3 client_after_status = Outcome.aborted := by
  decide

/-! ## The loader of `simple.c` -/

/-- C28 evaluated at `http://example.com/a.js`: the uri starts with `http://`, yet it is
loaded as a local file, because the comparison runs over 8 bytes, the size of a pointer, and
the eighth byte of `http://` is its terminating NUL. Only the uri `http://` itself is taken
for an http uri; `https://example.com/a.js` is fetched through the HTTP client with
`use_ssl` set. -/
theorem load_js_code_http_uri_read_as_file :
    starts_with_nocase (ascii "http://example.com/a.js") (ascii "http://") ∧
    load_js_code_from_uri (ascii "http://example.com/a.js") = js_code_source.local_file ∧
    load_js_code_from_uri (ascii "http://") = js_code_source.http_client 0 0 ∧
    load_js_code_from_uri (ascii "https://example.com/a.js") = js_code_source.http_client 1 1 ∧
    load_js_code_from_uri (ascii "jslib/jquery-3.6.0.js") = js_code_source.local_file := by
  decide


/-! ## When the header callback returns -/

theorem strtok_r_none_iff (s delim : List Nat) :
    (strtok_r s delim).1 = none ↔ ∀ b ∈ cstr_at s, b ∈ delim := by
  unfold strtok_r
  by_cases h : (cstr_at s).dropWhile (fun b => decide (b ∈ delim)) = []
  · simp only [h, if_true, true_iff]
    intro b hb
    simpa using List.dropWhile_eq_nil_iff.mp h b hb
  · simp only [h, if_false]
    constructor
    · intro e; exact Option.noConfusion e
    · intro hall
      exact absurd (List.dropWhile_eq_nil_iff.mpr (fun b hb => by simpa using hall b hb)) h

theorem http_headers_add_returns (headers : net_utils_http_headers) (key : List Nat)
    (value : Option (List Nat)) :
    ∃ h, http_headers_add headers key value = Outcome.ret (0, h) := by
  have h0 : (http_headers_resize headers (headers.length + 1)).1 = 0 := by
    simp only [http_headers_resize]
    split <;> split <;> rfl
  simp only [http_headers_add, h0, ne_eq, not_true_eq_false, if_false]
  exact ⟨_, rfl⟩

theorem http_headers_add_line_refuses (headers : net_utils_http_headers) (line : List Nat)
    (cb : Nat) (h : cb = 0 ∨ PATH_MAX ≤ cb) :
    http_headers_add_line headers line (cb : Int) = Outcome.ret (-1, headers) := by
  have h1 : ¬ ((cb : Int) = -1) := by omega
  have h2 : (cb : Int) ≤ 0 ∨ (cb : Int) ≥ (PATH_MAX : Int) := by
    rcases h with h | h
    · left; omega
    · right; exact_mod_cast h
  simp only [http_headers_add_line, h1, if_false, h2, if_true]

theorem http_headers_add_line_aborted_iff (headers : net_utils_http_headers) (line : List Nat)
    (cb : Nat) (h0 : 0 < cb) (h1 : cb < PATH_MAX) :
    (http_headers_add_line headers line (cb : Int) = Outcome.aborted ↔
      ∀ b ∈ cstr_at (line.take cb), b ∈ header_delim) ∧
    ((¬ ∀ b ∈ cstr_at (line.take cb), b ∈ header_delim) →
      ∃ h, http_headers_add_line headers line (cb : Int) = Outcome.ret (0, h)) := by
  have e1 : ¬ ((cb : Int) = -1) := by omega
  have e2 : ¬ ((cb : Int) ≤ 0 ∨ (cb : Int) ≥ (PATH_MAX : Int)) := by
    have : (cb : Int) < (PATH_MAX : Int) := by exact_mod_cast h1
    omega
  have e3 : (cb : Int).toNat = cb := Int.toNat_ofNat cb
  cases hk : (strtok_r (line.take cb) header_delim).1 with
  | none =>
    have hall := (strtok_r_none_iff _ _).mp hk
    have : http_headers_add_line headers line (cb : Int) = Outcome.aborted := by
      simp only [http_headers_add_line, e1, if_false, e2, e3, hk]
    exact ⟨⟨fun _ => hall, fun _ => this⟩, fun hn => absurd hall hn⟩
  | some key =>
    have hnall : ¬ ∀ b ∈ cstr_at (line.take cb), b ∈ header_delim := by
      intro hall
      rw [(strtok_r_none_iff _ _).mpr hall] at hk
      exact Option.noConfusion hk
    obtain ⟨h, hh⟩ := http_headers_add_returns headers key
      (strtok_r (strtok_r (line.take cb) header_delim).2 header_delim).1
    have : http_headers_add_line headers line (cb : Int) = Outcome.ret (0, h) := by
      simp only [http_headers_add_line, e1, if_false, e2, e3, hk]
      exact hh
    refine ⟨⟨fun e => ?_, fun hall => absurd hall hnall⟩, fun _ => ⟨h, this⟩⟩
    rw [this] at e
    exact Outcome.noConfusion e

theorem to_ssize_t_small (cb : Nat) (h : cb < 2 ^ (SIZE_BITS - 1)) : to_ssize_t cb = (cb : Int) := by
  unfold to_ssize_t
  rw [if_pos h]

/-- The header callback is aborted, after the status line has been recorded, exactly for the
chunks of 3 to `PATH_MAX - 1` bytes whose text before the first NUL holds delimiters only
(`:`, CR, LF), the empty text included. -/
theorem on_parse_header_aborted_iff (ptr : List Nat) (size n : Nat)
    (client : net_utils_http_client) (hs : client.status_line ≠ none)
    (hcb : size * n < 2 ^ (SIZE_BITS - 1)) :
    on_parse_header ptr size n client = Outcome.aborted ↔
      2 < size * n ∧ size * n < PATH_MAX ∧
      ∀ b ∈ cstr_at (ptr.take (size * n)), b ∈ header_delim := by
  have hmod : (size * n) % 2 ^ SIZE_BITS = size * n :=
    Nat.mod_eq_of_lt (Nat.lt_trans hcb (by decide))
  obtain ⟨url, use_ssl, verify_host, status_line, protocol, status_code, descr, hdrs⟩ := client
  obtain ⟨sl, hsl⟩ := Option.ne_none_iff_exists'.mp hs
  simp only at hsl
  subst hsl
  by_cases h2 : size * n ≤ 2
  · have : ∃ c, on_parse_header ptr size n ⟨url, use_ssl, verify_host, some sl, protocol,
        status_code, descr, hdrs⟩ = Outcome.ret c := by
      simp only [on_parse_header, hmod, h2, if_true]
      exact ⟨_, rfl⟩
    obtain ⟨c, hc⟩ := this
    rw [hc]
    constructor
    · intro e; exact Outcome.noConfusion e
    · intro e; omega
  · by_cases h3 : size * n < PATH_MAX
    · obtain ⟨a1, a2⟩ := http_headers_add_line_aborted_iff hdrs ptr (size * n) (by omega) h3
      by_cases hall : ∀ b ∈ cstr_at (ptr.take (size * n)), b ∈ header_delim
      · have : on_parse_header ptr size n ⟨url, use_ssl, verify_host, some sl, protocol,
            status_code, descr, hdrs⟩ = Outcome.aborted := by
          simp only [on_parse_header, hmod, h2, if_false, to_ssize_t_small _ hcb, a1.mpr hall]
        rw [this]
        exact ⟨fun _ => ⟨by omega, h3, hall⟩, fun _ => rfl⟩
      · obtain ⟨h, hh⟩ := a2 hall
        have : ∃ c, on_parse_header ptr size n ⟨url, use_ssl, verify_host, some sl, protocol,
            status_code, descr, hdrs⟩ = Outcome.ret c := by
          simp only [on_parse_header, hmod, h2, if_false, to_ssize_t_small _ hcb, hh, if_true]
          exact ⟨_, rfl⟩
        obtain ⟨c, hc⟩ := this
        rw [hc]
        exact ⟨fun e => Outcome.noConfusion e, fun e => absurd e.2.2 hall⟩
    · have hr := http_headers_add_line_refuses hdrs ptr (size * n) (Or.inr (by omega))
      have : ∃ c, on_parse_header ptr size n ⟨url, use_ssl, verify_host, some sl, protocol,
          status_code, descr, hdrs⟩ = Outcome.ret c := by
        simp only [on_parse_header, hmod, h2, if_false, to_ssize_t_small _ hcb, hr]
        split <;> exact ⟨_, rfl⟩
      obtain ⟨c, hc⟩ := this
      rw [hc]
      exact ⟨fun e => Outcome.noConfusion e, fun e => absurd e.2.1 h3⟩

/-- For every other chunk handed over after the status line has been recorded, the header
callback returns the chunk length or 0. -/
theorem on_parse_header_returns (ptr : List Nat) (size n : Nat)
    (client : net_utils_http_client) (hs : client.status_line ≠ none)
    (hcb : size * n < 2 ^ (SIZE_BITS - 1))
    (hne : on_parse_header ptr size n client ≠ Outcome.aborted) :
    ∃ c, on_parse_header ptr size n client = Outcome.ret (size * n, c) ∨
      on_parse_header ptr size n client = Outcome.ret (0, c) := by
  have hmod : (size * n) % 2 ^ SIZE_BITS = size * n :=
    Nat.mod_eq_of_lt (Nat.lt_trans hcb (by decide))
  have hab := on_parse_header_aborted_iff ptr size n client hs hcb
  obtain ⟨url, use_ssl, verify_host, status_line, protocol, status_code, descr, hdrs⟩ := client
  obtain ⟨sl, hsl⟩ := Option.ne_none_iff_exists'.mp hs
  simp only at hsl
  subst hsl
  by_cases h2 : size * n ≤ 2
  · exact ⟨_, Or.inl (by simp only [on_parse_header, hmod, h2, if_true]; rfl)⟩
  · by_cases h3 : size * n < PATH_MAX
    · obtain ⟨_, a2⟩ := http_headers_add_line_aborted_iff hdrs ptr (size * n) (by omega) h3
      have hall : ¬ ∀ b ∈ cstr_at (ptr.take (size * n)), b ∈ header_delim := fun hall =>
        hne (hab.mpr ⟨by omega, h3, hall⟩)
      obtain ⟨h, hh⟩ := a2 hall
      exact ⟨_, Or.inl (by
        simp only [on_parse_header, hmod, h2, if_false, to_ssize_t_small _ hcb, hh, if_true]
        rfl)⟩
    · have hr := http_headers_add_line_refuses hdrs ptr (size * n) (Or.inr (by omega))
      refine ⟨⟨url, use_ssl, verify_host, some sl, protocol, status_code, descr, hdrs⟩,
        Or.inr ?_⟩
      simp only [on_parse_header, hmod, h2, if_false, to_ssize_t_small _ hcb, hr]
      split
      · rename_i e; exact absurd e (by decide)
      · rfl


/-! ## Header lines whose value holds no colon -/

theorem take_set_succ {α : Type} (l : List α) (n : Nat) (x : α) (hn : n < l.length) :
    (l.set n x).take (n + 1) = l.take n ++ [x] := by
  rw [List.take_succ, List.getElem?_set_self hn]
  have e : (l.set n x).take n = l.take n := by
    apply List.ext_getElem?
    intro i
    by_cases hi : i < n
    · rw [List.getElem?_take_of_lt hi, List.getElem?_take_of_lt hi,
        List.getElem?_set_ne (by omega)]
    · rw [List.getElem?_eq_none (by simp; omega), List.getElem?_eq_none (by simp; omega)]
  rw [e]
  rfl

theorem http_headers_resize_spec (headers : net_utils_http_headers) (k : Nat)
    (hwf : headers.list.length = headers.size) (hk : 0 < k) :
    ∃ pad, (http_headers_resize headers k).2.list = headers.list ++ pad ∧
      (http_headers_resize headers k).2.list.length = (http_headers_resize headers k).2.size ∧
      k ≤ (http_headers_resize headers k).2.size ∧
      (http_headers_resize headers k).2.length = headers.length := by
  have hk0 : ¬ k = 0 := by omega
  have hround : k ≤ (k + HTTP_HEADERS_ALLOC_SIZE - 1) / HTTP_HEADERS_ALLOC_SIZE
      * HTTP_HEADERS_ALLOC_SIZE := by
    unfold HTTP_HEADERS_ALLOC_SIZE
    omega
  unfold http_headers_resize
  rw [if_neg hk0]
  by_cases hle : (k + HTTP_HEADERS_ALLOC_SIZE - 1) / HTTP_HEADERS_ALLOC_SIZE
      * HTTP_HEADERS_ALLOC_SIZE ≤ headers.size
  · rw [if_pos hle]
    exact ⟨[], (List.append_nil _).symm, hwf, Nat.le_trans hround hle, rfl⟩
  · rw [if_neg hle]
    refine ⟨List.replicate ((k + HTTP_HEADERS_ALLOC_SIZE - 1) / HTTP_HEADERS_ALLOC_SIZE
      * HTTP_HEADERS_ALLOC_SIZE - headers.size) none, ?_, ?_, hround, rfl⟩
    · show headers.list.take headers.size ++ _ = _
      rw [← hwf, List.take_length]
    · show (headers.list.take headers.size ++ _).length
        = (k + HTTP_HEADERS_ALLOC_SIZE - 1) / HTTP_HEADERS_ALLOC_SIZE * HTTP_HEADERS_ALLOC_SIZE
      rw [List.length_append, List.length_take, List.length_replicate, hwf, Nat.min_self]
      omega

theorem http_headers_add_pairs (headers : net_utils_http_headers) (key : List Nat)
    (value : Option (List Nat))
    (hwf : headers.list.length = headers.size ∧ headers.length ≤ headers.size) :
    ∃ h, http_headers_add headers key value = Outcome.ret (0, h) ∧
      h.pairs = headers.pairs ++ [some (skey_value_pair_new key value (-1))] ∧
      h.length = headers.length + 1 ∧
      h.list.length = h.size ∧ h.length ≤ h.size := by
  have h0 : (http_headers_resize headers (headers.length + 1)).1 = 0 := by
    simp only [http_headers_resize]
    split <;> split <;> rfl
  obtain ⟨pad, r1, r2, r3, r4⟩ := http_headers_resize_spec headers (headers.length + 1) hwf.1
    (by omega)
  simp only [http_headers_add, h0, ne_eq, not_true_eq_false, if_false]
  generalize (http_headers_resize headers (headers.length + 1)).2 = R at r1 r2 r3 r4
  refine ⟨_, rfl, ?_, ?_, ?_, ?_⟩
  · show (R.list.set R.length _).take (R.length + 1) = _
    rw [take_set_succ _ _ _ (by omega), r4, r1, List.take_append_of_le_length (by omega)]
    rfl
  · show R.length + 1 = _
    rw [r4]
  · show (R.list.set R.length _).length = R.size
    rw [List.length_set, r2]
  · show R.length + 1 ≤ R.size
    omega

theorem strtok_r_token (tok tail delim : List Nat) (d : Nat) (hne : tok ≠ [])
    (htok : ∀ b ∈ tok, b ≠ 0 ∧ b ∉ delim) (hd : d ∈ delim) (hd0 : d ≠ 0)
    (htail : ∀ b ∈ tail, b ≠ 0) :
    strtok_r (tok ++ d :: tail) delim = (some tok, tail) := by
  have hc : cstr_at (tok ++ d :: tail) = tok ++ d :: tail := by
    unfold cstr_at
    rw [List.takeWhile_eq_self_iff]
    intro b hb
    rw [List.mem_append, List.mem_cons] at hb
    rcases hb with hb | hb | hb
    · simpa using (htok b hb).1
    · simpa [hb] using hd0
    · simpa using htail b hb
  obtain ⟨t, ts, rfl⟩ := List.exists_cons_of_ne_nil hne
  have ht : ¬ (decide (t ∈ delim) = true) := by
    simpa using (htok t (List.mem_cons_self _ _)).2
  have hskip : ((t :: ts) ++ d :: tail).dropWhile (fun b => decide (b ∈ delim))
      = (t :: ts) ++ d :: tail := by
    rw [List.cons_append, List.dropWhile_cons_of_neg (p := fun b => decide (b ∈ delim)) ht]
  have hall : ∀ b ∈ t :: ts, decide (b ∉ delim) = true := by
    intro b hb
    simpa using (htok b hb).2
  have hd2 : ¬ (decide (d ∉ delim) = true) := by simpa using hd
  have htake : ((t :: ts) ++ d :: tail).takeWhile (fun b => decide (b ∉ delim)) = t :: ts := by
    rw [List.takeWhile_append_of_pos hall,
      List.takeWhile_cons_of_neg (p := fun b => decide (b ∉ delim)) hd2, List.append_nil]
  have hdrop : ((t :: ts) ++ d :: tail).dropWhile (fun b => decide (b ∉ delim)) = d :: tail := by
    rw [List.dropWhile_append_of_pos hall,
      List.dropWhile_cons_of_neg (p := fun b => decide (b ∉ delim)) hd2]
  have hnn : ¬ ((t :: ts) ++ d :: tail = []) := by simp
  unfold strtok_r
  simp only [hc, hskip, hnn, if_false, htake, hdrop, List.drop_succ_cons, List.drop_zero]

/-- For every header line key + `:` + rest + CR LF shorter than `PATH_MAX`, with a non-empty
key and a non-empty rest that hold no `:`, CR, LF or NUL, `http_headers_add_line` returns 0
and appends one pair at the end of the list, with that key and the whole rest as value. -/
theorem http_headers_add_line_value (headers : net_utils_http_headers) (key rest : List Nat)
    (hwf : headers.list.length = headers.size ∧ headers.length ≤ headers.size)
    (hkey : key ≠ []) (hk : ∀ b ∈ key, b ≠ 0 ∧ b ∉ header_delim)
    (hrest : rest ≠ []) (hr : ∀ b ∈ rest, b ≠ 0 ∧ b ∉ header_delim)
    (hlen : (key ++ 58 :: (rest ++ CRLF)).length < PATH_MAX) :
    ∃ h, http_headers_add_line headers (key ++ 58 :: (rest ++ CRLF))
        ((key ++ 58 :: (rest ++ CRLF)).length : Int) = Outcome.ret (0, h) ∧
      h.pairs = headers.pairs ++ [some (skey_value_pair_new key (some rest) (-1))] := by
  have e1 : ¬ (((key ++ 58 :: (rest ++ CRLF)).length : Int) = -1) := by omega
  have e2 : ¬ (((key ++ 58 :: (rest ++ CRLF)).length : Int) ≤ 0 ∨
      ((key ++ 58 :: (rest ++ CRLF)).length : Int) ≥ (PATH_MAX : Int)) := by
    have h1 : ((key ++ 58 :: (rest ++ CRLF)).length : Int) < (PATH_MAX : Int) := by
      exact_mod_cast hlen
    have h2 : 0 < (key ++ 58 :: (rest ++ CRLF)).length := by simp
    omega
  have e3 : ((key ++ 58 :: (rest ++ CRLF)).length : Int).toNat
      = (key ++ 58 :: (rest ++ CRLF)).length := Int.toNat_ofNat _
  have t1 := strtok_r_token key (rest ++ CRLF) header_delim 58 hkey hk (by decide) (by decide)
    (by
      intro b hb
      rcases List.mem_append.mp hb with hb | hb
      · exact (hr b hb).1
      · exact (by decide : ∀ c ∈ CRLF, c ≠ 0) b hb)
  have t2 := strtok_r_token rest [10] header_delim 13 hrest hr (by decide) (by decide)
    (by decide)
  have t2b : strtok_r (rest ++ CRLF) header_delim = (some rest, [10]) := t2
  obtain ⟨h, a1, a2, _⟩ := http_headers_add_pairs headers key (some rest) hwf
  refine ⟨h, ?_, a2⟩
  simp only [http_headers_add_line, e1, if_false, e2, e3, List.take_length, t1, t2b]
  exact a1

/-- The line `Content-Type: text/html` CR LF satisfies the conditions of
`http_headers_add_line_value`. -/
theorem http_headers_add_line_value_example :
    ∃ h, http_headers_add_line net_utils_http_headers_init
        (ascii "Content-Type" ++ 58 :: (ascii " text/html" ++ CRLF))
        ((ascii "Content-Type" ++ 58 :: (ascii " text/html" ++ CRLF)).length : Int)
        = Outcome.ret (0, h) ∧
      h.pairs = net_utils_http_headers_init.pairs
        ++ [some (skey_value_pair_new (ascii "Content-Type") (some (ascii " text/html")) (-1))] :=
  http_headers_add_line_value net_utils_http_headers_init (ascii "Content-Type")
    (ascii " text/html") (by decide) (by decide) (by decide) (by decide) (by decide) (by decide)


/-! ## Which uris the loader fetches -/

theorem tolower_ne_zero (b : Nat) (h : b ≠ 0) : tolower b ≠ 0 := by
  unfold tolower
  split <;> omega

theorem strncasecmp_eq_zero_iff (n : Nat) (a b : List Nat) (ha : is_cstr a) (hb : is_cstr b) :
    strncasecmp a b n = 0 ↔ (a.take n).map tolower = (b.take n).map tolower := by
  induction n generalizing a b with
  | zero => simp [strncasecmp]
  | succ n ih =>
    cases a with
    | nil =>
      cases b with
      | nil => simp [strncasecmp]
      | cons y ys =>
        have hy := tolower_ne_zero y (hb y (List.mem_cons_self _ _))
        simp only [strncasecmp, List.take_nil, List.map_nil, List.take_succ_cons, List.map_cons]
        constructor
        · intro e; omega
        · intro e; exact List.noConfusion e
    | cons x xs =>
      cases b with
      | nil =>
        have hx := tolower_ne_zero x (ha x (List.mem_cons_self _ _))
        simp only [strncasecmp, List.take_nil, List.map_nil, List.take_succ_cons, List.map_cons]
        constructor
        · intro e; omega
        · intro e; exact List.noConfusion e
      | cons y ys =>
        have ih2 := ih xs ys (fun c hc => ha c (List.mem_cons_of_mem _ hc))
          (fun c hc => hb c (List.mem_cons_of_mem _ hc))
        simp only [strncasecmp, List.take_succ_cons, List.map_cons, List.cons.injEq]
        by_cases e : tolower x = tolower y
        · simp only [e, if_true, true_and]
          exact ih2
        · simp only [e, if_false, false_and, iff_false]
          omega

theorem take_map_eq_short (uri p : List Nat) (k : Nat) (hp : p.length < k) :
    (uri.take k).map tolower = p ↔ uri.map tolower = p := by
  constructor
  · intro h
    have hl := congrArg List.length h
    rw [List.length_map, List.length_take] at hl
    have : uri.length ≤ k := by omega
    rwa [List.take_of_length_le this] at h
  · intro h
    have hl := congrArg List.length h
    rw [List.length_map] at hl
    rwa [List.take_of_length_le (by omega)]

/-- What `load_js_code_from_uri` does with every uri: only a uri that is `http://` and
nothing more, letter case ignored, is fetched through the HTTP client without SSL; a uri
that starts with `https://`, letter case ignored, is fetched through the HTTP client with
`use_ssl` set; every other uri is loaded as a local file. -/
theorem load_js_code_from_uri_eq (uri : List Nat) (hc : is_cstr uri) :
    load_js_code_from_uri uri
      = if uri.map tolower = ascii "http://" then js_code_source.http_client 0 0
        else if starts_with_nocase uri (ascii "https://") then js_code_source.http_client 1 1
        else js_code_source.local_file := by
  have h1 : strncasecmp uri (ascii "http://") SIZEOF_POINTER = 0
      ↔ uri.map tolower = ascii "http://" := by
    rw [strncasecmp_eq_zero_iff _ _ _ hc (by decide)]
    have e : ((ascii "http://").take SIZEOF_POINTER).map tolower = ascii "http://" := by decide
    rw [e]
    exact take_map_eq_short uri _ SIZEOF_POINTER (by decide)
  have h2 : strncasecmp uri (ascii "https://") SIZEOF_POINTER = 0
      ↔ starts_with_nocase uri (ascii "https://") := by
    rw [strncasecmp_eq_zero_iff _ _ _ hc (by decide)]
    have e : ((ascii "https://").take SIZEOF_POINTER).map tolower
        = (ascii "https://").map tolower := by decide
    have e2 : (ascii "https://").length = SIZEOF_POINTER := by decide
    rw [e]
    unfold starts_with_nocase
    rw [e2]
  unfold load_js_code_from_uri
  by_cases a1 : uri.map tolower = ascii "http://"
  · have b1 := h1.mpr a1
    simp [b1, a1]
  · have b1 : ¬ strncasecmp uri (ascii "http://") SIZEOF_POINTER = 0 := fun h => a1 (h1.mp h)
    by_cases a2 : starts_with_nocase uri (ascii "https://")
    · have b2 := h2.mpr a2
      simp [b1, a1, b2, a2]
    · have b2 : ¬ strncasecmp uri (ascii "https://") SIZEOF_POINTER = 0 :=
        fun h => a2 (h2.mp h)
      simp [b1, a1, b2, a2]

end EmailSender
